import Mathlib

/-!
Shallow embedding of the aisweeper minesweeper board engine
(src/gameboard.rs, src/gameboard/{tiles,errors,interface}.rs, src/lazy.rs,
src/logged.rs) and proofs about it.

Machine integers: the Rust code uses u16 coordinates and u32 counts; all
arithmetic relevant here stays far below the wrap point (dimensions are
capped at 10000 and bomb counts at 100000000 by validate_size_constraints,
and every subtraction is guarded), so coordinates and counts are modelled
as Nat.  Randomness (rand::thread_rng) is modelled by passing the shuffled
bomb vector and the stream of gen_range results as explicit parameters.
Fallible operations return Except; a Rust panic or an exhausted model of
the unbounded reroute loop is modelled as Option.none.
-/

deriving instance DecidableEq for Except

namespace AiSweeper

/-- Tile from src/gameboard/tiles.rs: nine hint levels or a bomb. -/
inductive Tile
  | Zero | One | Two | Three | Four | Five | Six | Seven | Eight | Bomb
deriving DecidableEq, Repr

/-- Tile::is_bomb. -/
def Tile.is_bomb : Tile → Bool
  | .Bomb => true
  | _ => false

/-- Tile::as_count: the numeric value, or none for a bomb. -/
def Tile.as_count : Tile → Option Nat
  | .Zero => some 0
  | .One => some 1
  | .Two => some 2
  | .Three => some 3
  | .Four => some 4
  | .Five => some 5
  | .Six => some 6
  | .Seven => some 7
  | .Eight => some 8
  | .Bomb => none

/-- TryFrom. u8 for Tile.  The Rust call site uses try_into().expect(..):
values above 8 are unreachable there because a 3x3 ring holds at most 8
cells; we map them to Eight so that the function stays total (the default
is never a bomb, matching the fact that the expect never produces one). -/
def Tile.ofCount : Nat → Tile
  | 0 => .Zero
  | 1 => .One
  | 2 => .Two
  | 3 => .Three
  | 4 => .Four
  | 5 => .Five
  | 6 => .Six
  | 7 => .Seven
  | 8 => .Eight
  | _ => .Eight

/-- Visibility from src/gameboard/tiles.rs. -/
inductive Visibility
  | Visible | NotVisible | Flagged
deriving DecidableEq, Repr

/-- BoardTile from src/gameboard/tiles.rs. -/
structure BoardTile where
  tile : Tile
  visible : Visibility
deriving DecidableEq, Repr

/-- VisibleTile from src/gameboard/tiles.rs. -/
inductive VisibleTile
  | NotVisible
  | Visible (t : Tile)
  | Flagged
deriving DecidableEq, Repr

/-- NewBoardError from src/gameboard/errors.rs. -/
inductive NewBoardError
  | BombOverflow | ZeroDimension | SizeConstraintOverflow
deriving DecidableEq, Repr

/-- UnopenableError from src/gameboard/errors.rs. -/
inductive UnopenableError
  | BombHit | AlreadyOpen | FlaggedTile | OutOfBounds | FlagCountMismatch | GameOver
deriving DecidableEq, Repr

/-- UndoError from src/gameboard/errors.rs. -/
inductive UndoError
  | OutOfBounds | AlreadyClosed | AlreadyOpen
deriving DecidableEq, Repr

/-- assert_not_bomb from src/gameboard/errors.rs. -/
def assert_not_bomb (t : Tile) : Except UnopenableError Unit :=
  if t.is_bomb then .error .BombHit else .ok ()

/-- GameBoard from src/gameboard.rs.  The FlatBoard with dim_1 = height
(y, rows) and dim_2 = width (x, columns) is inlined as a row-major cell
list: the cell at api coordinates (x, y) sits at index y * width + x. -/
structure GameBoard where
  bombs : Nat
  width : Nat
  height : Nat
  cells : List BoardTile
deriving DecidableEq, Repr

/-- The FlatBoard well-formedness every constructed board has: the backing
array has exactly height * width entries (FlatBoard::new builds it so). -/
def GameBoard.WF (gb : GameBoard) : Prop :=
  gb.cells.length = gb.height * gb.width

instance (gb : GameBoard) : Decidable gb.WF := by
  unfold GameBoard.WF; infer_instance

/-- GameBoard::dimensions: (x, y) form. -/
def GameBoard.dimensions (gb : GameBoard) : Nat × Nat :=
  (gb.width, gb.height)

/-- BaseGameBoard::area = widening_mul of the dimensions. -/
def GameBoard.area (gb : GameBoard) : Nat :=
  gb.width * gb.height

/-- GameBoard::get: board.get(y)?.get(x), i.e. both indices bounds-checked
against the dimensions, then the flat index read. -/
def GameBoard.get (gb : GameBoard) (x y : Nat) : Option BoardTile :=
  if y < gb.height ∧ x < gb.width then gb.cells.get? (y * gb.width + x) else none

/-- In-place visibility write board[y][x].visible = v (all call sites are
in bounds; out of range the Rust indexing would panic, here it is a no-op,
which no lemma relies on). -/
def GameBoard.setVis (gb : GameBoard) (x y : Nat) (v : Visibility) : GameBoard :=
  { gb with
    cells :=
      match gb.cells.get? (y * gb.width + x) with
      | some t => gb.cells.set (y * gb.width + x) { t with visible := v }
      | none => gb.cells }

/-- GameBoard::normalize_around_3x3: every in-bounds point of the 3x3
block around (ox, oy), origin excluded, in row-major scan order (y outer
ascending, x inner ascending) exactly as the Rust double loop builds it. -/
def GameBoard.normalize_around_3x3 (gb : GameBoard) (ox oy : Nat) : List (Nat × Nat) :=
  (List.range 3).flatMap fun (dy : Nat) =>
    (List.range 3).filterMap fun (dx : Nat) =>
      if 0 ≤ (ox : Int) - 1 + (dx : Int) ∧ 0 ≤ (oy : Int) - 1 + (dy : Int) ∧
          (ox : Int) - 1 + (dx : Int) < (gb.width : Int) ∧
          (oy : Int) - 1 + (dy : Int) < (gb.height : Int) ∧
          ¬((ox : Int) - 1 + (dx : Int) = (ox : Int) ∧
            (oy : Int) - 1 + (dy : Int) = (oy : Int)) then
        some (((ox : Int) - 1 + (dx : Int)).toNat, ((oy : Int) - 1 + (dy : Int)).toNat)
      else
        none

/-- Direct read used where the Rust code indexes board[y][x] at points it
already knows are in bounds. -/
def GameBoard.getD (gb : GameBoard) (x y : Nat) : BoardTile :=
  (gb.get x y).getD { tile := .Zero, visible := .NotVisible }

/-- GameBoard::computed_bombs_around_tile. -/
def GameBoard.computed_bombs_around_tile (gb : GameBoard) (x y : Nat) : Nat :=
  (gb.normalize_around_3x3 x y).countP fun p => (gb.getD p.1 p.2).tile.is_bomb

/-- First half of GameBoard::_populate_implant: stamp the shuffled bomb
vector onto the tiles, keeping visibility. -/
def GameBoard.setTileFromArr (gb : GameBoard) (arr : List Bool) : GameBoard :=
  { gb with
    cells := List.zipWith
      (fun t b => { t with tile := if b then Tile.Bomb else Tile.Zero }) gb.cells arr }

/-- Map with the element's index, the index of the first element given
explicitly. -/
def listMapIdx {α β : Type} (f : Nat → α → β) : Nat → List α → List β
  | _, [] => []
  | i, a :: as => f i a :: listMapIdx f (i + 1) as

/-- Second half of GameBoard::_populate_implant: recompute every non-bomb
tile as the count of bombs around it.  The Rust loop walks the cells in
index order (y, x) = (i / width, i % width) and mutates in place, but each
step only rewrites non-bomb tiles to numeric tiles, which never changes
any is_bomb answer the later counts read, so the simultaneous map computes
the same board. -/
def GameBoard.recomputeCounts (gb : GameBoard) : GameBoard :=
  { gb with
    cells := listMapIdx
      (fun i t =>
        if t.tile = Tile.Bomb then t
        else { t with
               tile := Tile.ofCount
                 (gb.computed_bombs_around_tile (i % gb.width) (i / gb.width)) })
      0 gb.cells }

/-- GameBoard::_populate_implant. -/
def GameBoard._populate_implant (gb : GameBoard) (arr : List Bool) : GameBoard :=
  (gb.setTileFromArr arr).recomputeCounts

/-- Vec::swap on the bomb vector (both call sites pass indices below the
length; the self-swap case leaves the list unchanged like Vec::swap). -/
def boolSwap (l : List Bool) (i j : Nat) : List Bool :=
  (l.set i (l.getD j false)).set j (l.getD i false)

/-- The flatten closure of populate_without: (y * width) + x. -/
def flatten (width : Nat) (p : Nat × Nat) : Nat :=
  p.2 * width + p.1

/-- One full scan of the protected list in the reroute loop of
populate_without: every protected cell still holding a bomb is swapped
with the next gen_range(0..area) result; the state is (bomb vector, count
of rng values consumed so far, reroute flag). -/
def rerouteScan (width : Nat) (rng : Nat → Nat) (valid : List (Nat × Nat))
    (s : List Bool × Nat × Bool) : List Bool × Nat × Bool :=
  valid.foldl
    (fun (s : List Bool × Nat × Bool) (p : Nat × Nat) =>
      if s.1.getD (flatten width p) false then
        (boolSwap s.1 (flatten width p) (rng s.2.1), s.2.1 + 1, true)
      else
        s)
    s

/-- The while-reroute loop of populate_without.  The Rust loop has no
static bound (an adversarial rng stream can keep it spinning), so it is
modelled with fuel: none means the loop was still running after fuel
scans. -/
def rerouteLoop (width : Nat) (rng : Nat → Nat) (valid : List (Nat × Nat)) :
    Nat → List Bool → Nat → Option (List Bool × Nat)
  | 0, _, _ => none
  | fuel + 1, arr, k =>
    match rerouteScan width rng valid (arr, k, false) with
    | (arr', k', true) => rerouteLoop width rng valid fuel arr' k'
    | (arr', k', false) => some (arr', k')

/-- The valid list populate_without scans: the 3x3 neighborhood plus the
origin itself. -/
def GameBoard.protectedList (gb : GameBoard) (x y : Nat) : List (Nat × Nat) :=
  gb.normalize_around_3x3 x y ++ [(x, y)]

/-- GameBoard::populate_without.  The caller passes the shuffled boolean
multiset (arr, the result of building bombs trues padded with falses to
area entries and shuffling) and the rng stream for the reroute targets. -/
def GameBoard.populate_without (gb : GameBoard) (x y : Nat)
    (arr : List Bool) (rng : Nat → Nat) (fuel : Nat) :
    Option (Except NewBoardError GameBoard) :=
  if gb.area - gb.bombs < 9 then
    some (.error .BombOverflow)
  else
    match rerouteLoop gb.width rng (gb.protectedList x y) fuel arr 0 with
    | none => none
    | some (arr', _) => some (.ok (gb._populate_implant arr'))

/-- GameBoard::blank_board. -/
def GameBoard.blank_board (x y bombs : Nat) : GameBoard :=
  { bombs
    width := x
    height := y
    cells := List.replicate (y * x) { tile := Tile.Zero, visible := Visibility.NotVisible } }

/-- GameBoard::validate_size_constraints. -/
def validate_size_constraints (x y bombs : Nat) : Except NewBoardError Unit :=
  if x > 10000 ∨ y > 10000 ∨ bombs > 100000000 then .error .SizeConstraintOverflow
  else .ok ()

/-- GameBoard::validate_board, checks in source order. -/
def validate_board (x y bombs : Nat) (has_clearing : Bool)
    (clearing_coordinates : Option (Nat × Nat)) : Except NewBoardError Unit :=
  match validate_size_constraints x y bombs with
  | .error e => .error e
  | .ok _ =>
    if x * y < bombs then .error .BombOverflow
    else if x = 0 ∨ y = 0 then .error .ZeroDimension
    else
      match clearing_coordinates with
      | some (clearx, cleary) =>
        if ¬(clearx < x ∧ cleary < y) then .error .SizeConstraintOverflow
        else if has_clearing ∧ x * y - bombs < 9 then .error .BombOverflow
        else .ok ()
      | none =>
        if has_clearing ∧ x * y - bombs < 9 then .error .BombOverflow
        else .ok ()

/-- GameBoard::with_clearing (BaseGameBoard impl in src/gameboard.rs). -/
def GameBoard.with_clearing (x y bombs clearx cleary : Nat)
    (arr : List Bool) (rng : Nat → Nat) (fuel : Nat) :
    Option (Except NewBoardError GameBoard) :=
  match validate_board x y bombs true (some (clearx, cleary)) with
  | .error e => some (.error e)
  | .ok _ => (GameBoard.blank_board x y bombs).populate_without clearx cleary arr rng fuel

/-- Count of closed (NotVisible) cells; the measure that bounds the flood
fill's while loop. -/
def GameBoard.notVisCount (gb : GameBoard) : Nat :=
  gb.cells.countP fun t => t.visible = Visibility.NotVisible

/-- The body of the innermost flood-fill loop: a neighbor of an open zero
cell is opened if it is still closed (flagged and open neighbors are
skipped), and its coordinate appended to the opened list.  The none case
cannot arise on a well-formed board (the Rust code unwraps). -/
def GameBoard.tryOpen (s : GameBoard × List (Nat × Nat)) (q : Nat × Nat) :
    GameBoard × List (Nat × Nat) :=
  match s.1.get q.1 q.2 with
  | some u =>
    if u.visible = Visibility.NotVisible then
      (s.1.setVis q.1 q.2 .Visible, s.2 ++ [q])
    else s
  | none => s

/-- One cell of the full-board scan of GameBoard::inner_open_visible: if
the cell is open with value zero, open all of its closed neighbors. -/
def GameBoard.openNbrsOfZero (s : GameBoard × List (Nat × Nat)) (p : Nat × Nat) :
    GameBoard × List (Nat × Nat) :=
  match s.1.get p.1 p.2 with
  | some t =>
    if t.visible = Visibility.Visible ∧ t.tile = Tile.Zero then
      (s.1.normalize_around_3x3 p.1 p.2).foldl GameBoard.tryOpen s
    else s
  | none => s

/-- Every coordinate of the board in the scan order of the Rust double
loop (y outer, x inner). -/
def GameBoard.allCoords (gb : GameBoard) : List (Nat × Nat) :=
  (List.range gb.height).flatMap fun y => (List.range gb.width).map fun x => (x, y)

/-- GameBoard::inner_open_visible: one full-board scan, returning the new
board and the list of cells this scan opened. -/
def GameBoard.inner_open_visible (gb : GameBoard) : GameBoard × List (Nat × Nat) :=
  gb.allCoords.foldl GameBoard.openNbrsOfZero (gb, [])

/-- The while loop of GameBoard::open_visible: rescan until a scan opens
nothing.  Each productive scan opens at least one closed cell, so
notVisCount + 1 scans always reach the fixpoint (proved below); the fuel
only makes the recursion structural. -/
def GameBoard.open_visible_go : Nat → GameBoard → GameBoard × List (Nat × Nat)
  | 0, gb => (gb, [])
  | fuel + 1, gb =>
    let r := gb.inner_open_visible
    if r.2 = [] then (r.1, [])
    else
      let r2 := GameBoard.open_visible_go fuel r.1
      (r2.1, r.2 ++ r2.2)

/-- GameBoard::open_visible. -/
def GameBoard.open_visible (gb : GameBoard) : GameBoard × List (Nat × Nat) :=
  GameBoard.open_visible_go (gb.notVisCount + 1) gb

/-- GameBoardEvent from src/gameboard/interface.rs. -/
inductive GameBoardEvent
  | OpenCell (cells : List (Nat × Nat))
  | ToggleFlagCell (x y : Nat)
deriving DecidableEq, Repr

/-- The neighbor-opening loop of GameBoard::open_around: visible and
flagged neighbors are skipped, a closed bomb aborts with BombHit (leaving
the cells already opened by earlier steps open), a closed non-bomb is
opened and recorded.  The none case cannot arise: every openable entry is
in bounds. -/
def GameBoard.open_around_go (gb : GameBoard) :
    List (Nat × Nat) → List (Nat × Nat) →
    GameBoard × Except UnopenableError (List (Nat × Nat))
  | [], opened => (gb, .ok opened)
  | q :: rest, opened =>
    match gb.get q.1 q.2 with
    | none => gb.open_around_go rest opened
    | some t =>
      match t.visible with
      | .Visible => gb.open_around_go rest opened
      | .Flagged => gb.open_around_go rest opened
      | .NotVisible =>
        if t.tile.is_bomb then (gb, .error .BombHit)
        else (gb.setVis q.1 q.2 .Visible).open_around_go rest (opened ++ [q])

/-- GameBoard::open_around.  The board component of the result is the
board as left behind, also on the error paths. -/
def GameBoard.open_around (gb : GameBoard) (x y : Nat) :
    GameBoard × Except UnopenableError (List (Nat × Nat)) :=
  let openable := gb.normalize_around_3x3 x y
  let bombcnt := openable.countP fun q => (gb.getD q.1 q.2).visible = Visibility.Flagged
  match gb.get x y with
  | none => (gb, .error .OutOfBounds)
  | some t =>
    match t.tile.as_count with
    | none => (gb, .error .BombHit)
    | some c =>
      if bombcnt ≠ c then (gb, .error .FlagCountMismatch)
      else
        match gb.open_around_go openable [] with
        | (gb', .error e) => (gb', .error e)
        | (gb', .ok opened) =>
          let r := gb'.open_visible
          (r.1, .ok (opened ++ r.2))

/-- GameBoard::open_tile. -/
def GameBoard.open_tile (gb : GameBoard) (x y : Nat) :
    GameBoard × Except UnopenableError (List (Nat × Nat)) :=
  match gb.get x y with
  | none => (gb, .error .OutOfBounds)
  | some t =>
    match t.visible with
    | .Visible => (gb, .error .AlreadyOpen)
    | .Flagged => (gb, .error .FlaggedTile)
    | .NotVisible =>
      if t.tile.is_bomb then (gb, .error .BombHit)
      else
        let r := (gb.setVis x y .Visible).open_visible
        (r.1, .ok (r.2 ++ [(x, y)]))

/-- GameBoard::flag_tile. -/
def GameBoard.flag_tile (gb : GameBoard) (x y : Nat) :
    GameBoard × Except UnopenableError GameBoardEvent :=
  match gb.get x y with
  | none => (gb, .error .OutOfBounds)
  | some t =>
    match t.visible with
    | .Visible => (gb, .error .AlreadyOpen)
    | .Flagged => (gb.setVis x y .NotVisible, .ok (.ToggleFlagCell x y))
    | .NotVisible => (gb.setVis x y .Flagged, .ok (.ToggleFlagCell x y))

/-- GameBoard::get_board_tile. -/
def GameBoard.get_board_tile (gb : GameBoard) (x y : Nat) : Option VisibleTile :=
  (gb.get x y).map fun t =>
    match t.visible with
    | .Visible => VisibleTile.Visible t.tile
    | .NotVisible => VisibleTile.NotVisible
    | .Flagged => VisibleTile.Flagged

/-- The OpenCell arm of GameBoard::undo_move: the listed cells are closed
one by one, stopping with an error (and keeping the cells already closed)
at the first cell that is out of bounds or not open. -/
def GameBoard.undo_open_go : GameBoard → List (Nat × Nat) → GameBoard × Except UndoError Unit
  | gb, [] => (gb, .ok ())
  | gb, q :: rest =>
    match gb.get q.1 q.2 with
    | none => (gb, .error .OutOfBounds)
    | some t =>
      if t.visible = Visibility.Visible then
        GameBoard.undo_open_go (gb.setVis q.1 q.2 .NotVisible) rest
      else (gb, .error .AlreadyClosed)

/-- GameBoard::undo_move (ToggleFlag arm via BoardTile::swap_flag). -/
def GameBoard.undo_move (gb : GameBoard) (ev : GameBoardEvent) :
    GameBoard × Except UndoError Unit :=
  match ev with
  | .ToggleFlagCell x y =>
    match gb.get x y with
    | none => (gb, .error .OutOfBounds)
    | some t =>
      match t.visible with
      | .Visible => (gb, .error .AlreadyOpen)
      | .NotVisible => (gb.setVis x y .Flagged, .ok ())
      | .Flagged => (gb.setVis x y .NotVisible, .ok ())
  | .OpenCell cells => GameBoard.undo_open_go gb cells

/-- KeyEvent from src/gameboard/interface.rs. -/
inductive KeyEvent
  | Mouse1 (x y : Nat)
  | Mouse2 (x y : Nat)
  | Pause | UnPause | Idle
deriving DecidableEq, Repr

/-- BaseGameBoard_do_event from src/gameboard/interface.rs, instantiated
at the concrete engine: primary input on a flagged cell and secondary
input on an open cell are ignored (Ok with no change); other pointer
input dispatches to open_tile, open_around or flag_tile, propagating
their errors (and any board change they already made). -/
def BaseGameBoard_do_event (gb : GameBoard) (k : KeyEvent) :
    GameBoard × Except UnopenableError Unit :=
  match k with
  | .Mouse1 x y =>
    match gb.get_board_tile x y with
    | none => (gb, .error .OutOfBounds)
    | some .NotVisible => let r := gb.open_tile x y; (r.1, r.2.map fun _ => ())
    | some (.Visible _) => let r := gb.open_around x y; (r.1, r.2.map fun _ => ())
    | some .Flagged => (gb, .ok ())
  | .Mouse2 x y =>
    match gb.get_board_tile x y with
    | none => (gb, .error .OutOfBounds)
    | some .NotVisible => let r := gb.flag_tile x y; (r.1, r.2.map fun _ => ())
    | some .Flagged => let r := gb.flag_tile x y; (r.1, r.2.map fun _ => ())
    | some (.Visible _) => (gb, .ok ())
  | _ => (gb, .ok ())

/-- LazyGameBoard from src/lazy.rs (the inner enum), instantiated at the
concrete engine like main.rs does through the trait. -/
inductive LazyGameBoard
  | Init (b : GameBoard)
  | Uninit (x y bombs : Nat)
deriving Repr, DecidableEq

/-- LazyGameBoard::new_uninit. -/
def LazyGameBoard.new_uninit (x y bombs : Nat) : Except NewBoardError LazyGameBoard :=
  match validate_board x y bombs false none with
  | .error e => .error e
  | .ok _ => .ok (.Uninit x y bombs)

/-- LazyGameBoard::get_board_tile: an uninitialized board reports a
closed tile everywhere in bounds. -/
def LazyGameBoard.get_board_tile : LazyGameBoard → Nat → Nat → Option VisibleTile
  | .Init b, px, py => b.get_board_tile px py
  | .Uninit x y _, px, py =>
    if px < x ∧ py < y then some .NotVisible else none

/-- The lazy_call macro from src/lazy.rs: on an initialized board,
delegate; otherwise check bounds (failing OutOfBounds and staying
pending), construct the real board with this move as the clearing, store
it and delegate.  none models the Rust unwrap panicking on a construction
error, or the reroute loop exceeding its modelled fuel. -/
def LazyGameBoard.lazy_call
    (f : GameBoard → Nat → Nat → GameBoard × Except UnopenableError α)
    (s : LazyGameBoard) (px py : Nat)
    (arr : List Bool) (rng : Nat → Nat) (fuel : Nat) :
    Option (LazyGameBoard × Except UnopenableError α) :=
  match s with
  | .Init b => let r := f b px py; some (.Init r.1, r.2)
  | .Uninit x y bombs =>
    match LazyGameBoard.get_board_tile (.Uninit x y bombs) px py with
    | none => some (.Uninit x y bombs, .error .OutOfBounds)
    | some _ =>
      match GameBoard.with_clearing x y bombs px py arr rng fuel with
      | none => none
      | some (.error _) => none
      | some (.ok b) => let r := f b px py; some (.Init r.1, r.2)

/-- LazyGameBoard::open_tile. -/
def LazyGameBoard.open_tile (s : LazyGameBoard) (px py : Nat)
    (arr : List Bool) (rng : Nat → Nat) (fuel : Nat) :
    Option (LazyGameBoard × Except UnopenableError (List (Nat × Nat))) :=
  LazyGameBoard.lazy_call GameBoard.open_tile s px py arr rng fuel

/-- LazyGameBoard::open_around. -/
def LazyGameBoard.open_around (s : LazyGameBoard) (px py : Nat)
    (arr : List Bool) (rng : Nat → Nat) (fuel : Nat) :
    Option (LazyGameBoard × Except UnopenableError (List (Nat × Nat))) :=
  LazyGameBoard.lazy_call GameBoard.open_around s px py arr rng fuel

/-- LazyGameBoard::flag_tile. -/
def LazyGameBoard.flag_tile (s : LazyGameBoard) (px py : Nat)
    (arr : List Bool) (rng : Nat → Nat) (fuel : Nat) :
    Option (LazyGameBoard × Except UnopenableError GameBoardEvent) :=
  LazyGameBoard.lazy_call GameBoard.flag_tile s px py arr rng fuel

/-- LazyGameBoard::do_event: an initialized board delegates to the inner
board's dispatcher, an uninitialized one runs the generic dispatcher
against the lazy board itself. -/
def LazyGameBoard.do_event (s : LazyGameBoard) (k : KeyEvent)
    (arr : List Bool) (rng : Nat → Nat) (fuel : Nat) :
    Option (LazyGameBoard × Except UnopenableError Unit) :=
  match s with
  | .Init b => let r := BaseGameBoard_do_event b k; some (.Init r.1, r.2)
  | .Uninit x y bombs =>
    let s := LazyGameBoard.Uninit x y bombs
    match k with
    | .Mouse1 px py =>
      match s.get_board_tile px py with
      | none => some (s, .error .OutOfBounds)
      | some .NotVisible =>
        (s.open_tile px py arr rng fuel).map fun r => (r.1, r.2.map fun _ => ())
      | some (.Visible _) =>
        (s.open_around px py arr rng fuel).map fun r => (r.1, r.2.map fun _ => ())
      | some .Flagged => some (s, .ok ())
    | .Mouse2 px py =>
      match s.get_board_tile px py with
      | none => some (s, .error .OutOfBounds)
      | some .NotVisible =>
        (s.flag_tile px py arr rng fuel).map fun r => (r.1, r.2.map fun _ => ())
      | some .Flagged =>
        (s.flag_tile px py arr rng fuel).map fun r => (r.1, r.2.map fun _ => ())
      | some (.Visible _) => some (s, .ok ())
    | _ => some (s, .ok ())

/-- KeyEventEffect from src/logged.rs (the trace stored per log frame;
the elapsed-time stamp is real-time data outside the model). -/
inductive KeyEventEffect
  | Mouse1 (x y : Nat) (e : GameBoardEvent)
  | Mouse2 (x y : Nat) (e : GameBoardEvent)
  | Pause | UnPause | Idle
deriving DecidableEq, Repr

/-- LoggedGameBoard from src/logged.rs, over the concrete engine. -/
structure LoggedGameBoard where
  board : GameBoard
  events : List KeyEventEffect

/-- LoggedGameBoard::do_event: unlike the generic dispatcher, primary
input on a flagged cell fails with FlaggedTile and secondary input on an
open cell fails with AlreadyOpen; successful moves are appended to the
log, failed ones are not (but any board mutation the inner call made is
kept). -/
def LoggedGameBoard.do_event (L : LoggedGameBoard) (k : KeyEvent) :
    LoggedGameBoard × Except UnopenableError Unit :=
  match k with
  | .Mouse1 x y =>
    match L.board.get_board_tile x y with
    | none => (L, .error .OutOfBounds)
    | some .NotVisible =>
      let r := L.board.open_tile x y
      match r.2 with
      | .error e => ({ L with board := r.1 }, .error e)
      | .ok opened =>
        ({ board := r.1, events := L.events ++ [.Mouse1 x y (.OpenCell opened)] }, .ok ())
    | some (.Visible _) =>
      let r := L.board.open_around x y
      match r.2 with
      | .error e => ({ L with board := r.1 }, .error e)
      | .ok opened =>
        ({ board := r.1, events := L.events ++ [.Mouse1 x y (.OpenCell opened)] }, .ok ())
    | some .Flagged => (L, .error .FlaggedTile)
  | .Mouse2 x y =>
    match L.board.get_board_tile x y with
    | none => (L, .error .OutOfBounds)
    | some .NotVisible =>
      let r := L.board.flag_tile x y
      match r.2 with
      | .error e => ({ L with board := r.1 }, .error e)
      | .ok _ =>
        ({ board := r.1, events := L.events ++ [.Mouse2 x y (.ToggleFlagCell x y)] }, .ok ())
    | some .Flagged =>
      let r := L.board.flag_tile x y
      match r.2 with
      | .error e => ({ L with board := r.1 }, .error e)
      | .ok _ =>
        ({ board := r.1, events := L.events ++ [.Mouse2 x y (.ToggleFlagCell x y)] }, .ok ())
    | some (.Visible _) => (L, .error .AlreadyOpen)
  | .Pause => ({ L with events := L.events ++ [.Pause] }, .ok ())
  | .UnPause => ({ L with events := L.events ++ [.UnPause] }, .ok ())
  | .Idle => ({ L with events := L.events ++ [.Idle] }, .ok ())

/-- Modelled from the spec: BaseGameBoard::opened is declared in
src/gameboard/interface.rs but no implementation exists under src; per
the interface documentation of win_game (area - bomb_count - opened
counts the closed non-bomb tiles) it is the number of opened tiles. -/
def GameBoard.opened (gb : GameBoard) : Nat :=
  gb.cells.countP fun t => t.visible = Visibility.Visible

/-- BaseGameBoard::tiles_left from src/gameboard/interface.rs:
area - bomb_count - opened (u32 arithmetic; the invariant proofs below
show the subtraction never underflows on reachable boards). -/
def GameBoard.tiles_left (gb : GameBoard) : Nat :=
  gb.area - gb.bombs - gb.opened

/-- The number of bombs inside the protected list, as scanned by the
reroute loop of populate_without. -/
def protMines (width : Nat) (valid : List (Nat × Nat)) (arr : List Bool) : Nat :=
  valid.countP fun p => arr.getD (flatten width p) false

/-- The visibility of the cell at (x, y), or none out of bounds. -/
def GameBoard.visStateAt (gb : GameBoard) (x y : Nat) : Option Visibility :=
  (gb.get x y).map (·.visible)

/-- The tile value of the cell at (x, y), or none out of bounds. -/
def GameBoard.tileAt (gb : GameBoard) (x y : Nat) : Option Tile :=
  (gb.get x y).map (·.tile)

/-- q lies in the edge-clipped 3x3 ring around p (q ≠ p). -/
def GameBoard.Adj (gb : GameBoard) (p q : Nat × Nat) : Prop :=
  q ∈ gb.normalize_around_3x3 p.1 p.2

instance (gb : GameBoard) (p q : Nat × Nat) : Decidable (gb.Adj p q) := by
  unfold GameBoard.Adj
  infer_instance

/-- The cells the flood fill can reach on board b: open zero cells, and
transitively every closed (not flagged) zero cell adjacent to a reached
cell.  Flagged cells are never reached and therefore block propagation. -/
inductive GameBoard.ZReach (b : GameBoard) : Nat × Nat → Prop
  | base (p : Nat × Nat) :
      b.visStateAt p.1 p.2 = some .Visible → b.tileAt p.1 p.2 = some .Zero →
      GameBoard.ZReach b p
  | step (p q : Nat × Nat) :
      GameBoard.ZReach b p → b.Adj p q →
      b.visStateAt q.1 q.2 = some .NotVisible → b.tileAt q.1 q.2 = some .Zero →
      GameBoard.ZReach b q

/-- Simulation relation between a board b0 and a board b obtained from it
by flood-fill steps: same shape and tiles, visibility only ever goes from
closed to open, flags untouched, and every newly opened cell is a closed
cell bordering a flood-reachable zero cell of b0. -/
structure GameBoard.FloodSim (b0 b : GameBoard) : Prop where
  width_eq : b.width = b0.width
  height_eq : b.height = b0.height
  bombs_eq : b.bombs = b0.bombs
  len_eq : b.cells.length = b0.cells.length
  tile_eq : ∀ x y, b.tileAt x y = b0.tileAt x y
  mono : ∀ x y, b0.visStateAt x y = some .Visible → b.visStateAt x y = some .Visible
  flag_eq : ∀ x y, b.visStateAt x y = some .Flagged ↔ b0.visStateAt x y = some .Flagged
  sound : ∀ x y, b.visStateAt x y = some .Visible →
    b0.visStateAt x y = some .Visible ∨
      (b0.visStateAt x y = some .NotVisible ∧
        ∃ p, GameBoard.ZReach b0 p ∧ b0.Adj p (x, y))

/-- The flood-fill fixpoint: no open zero cell has a closed neighbor. -/
def GameBoard.FloodFix (b : GameBoard) : Prop :=
  ∀ x y, b.visStateAt x y = some .Visible → b.tileAt x y = some .Zero →
    ∀ q, b.Adj (x, y) q → b.visStateAt q.1 q.2 ≠ some .NotVisible

/-- Boards reachable through successful construction (with_clearing with
any shuffled multiset of the declared bomb count and any in-range rng
stream that converges) followed by successful operations. -/
inductive ReachableBoard : GameBoard → Prop
  | init (x y bombs cx cy : Nat) (arr : List Bool) (rng : Nat → Nat) (fuel : Nat)
      (b : GameBoard) :
      arr.length = x * y → arr.count true = bombs → (∀ k, rng k < x * y) →
      GameBoard.with_clearing x y bombs cx cy arr rng fuel = some (.ok b) →
      ReachableBoard b
  | open_tile (b b' : GameBoard) (x y : Nat) (ev : List (Nat × Nat)) :
      ReachableBoard b → b.open_tile x y = (b', .ok ev) → ReachableBoard b'
  | open_around (b b' : GameBoard) (x y : Nat) (ev : List (Nat × Nat)) :
      ReachableBoard b → b.open_around x y = (b', .ok ev) → ReachableBoard b'
  | flag_tile (b b' : GameBoard) (x y : Nat) (ev : GameBoardEvent) :
      ReachableBoard b → b.flag_tile x y = (b', .ok ev) → ReachableBoard b'
  | undo_move (b b' : GameBoard) (ev : GameBoardEvent) :
      ReachableBoard b → b.undo_move ev = (b', .ok ()) → ReachableBoard b'

/-- The state invariant of reachable boards: well-formed backing array,
the bombs field counts the bomb cells, open cells are never bombs, and a
zero-valued cell has no bomb neighbor. -/
structure GameBoard.Inv (gb : GameBoard) : Prop where
  wf : gb.WF
  bombs_eq : gb.cells.countP (fun t => t.tile.is_bomb) = gb.bombs
  vis_nonbomb : ∀ x y t, gb.get x y = some t → t.visible = .Visible → t.tile.is_bomb = false
  zero_consistent : ∀ x y t, gb.get x y = some t → t.tile = .Zero →
    ∀ q, gb.Adj (x, y) q → ∀ u, gb.get q.1 q.2 = some u → u.tile.is_bomb = false

/-- Example board: a 1x3 row of zero tiles whose middle cell is flagged
(reachable from a blank 3x1 zero-bomb board by flag_tile 1 0). -/
def exFlagRow : GameBoard :=
  { bombs := 0, width := 3, height := 1
    cells := [{ tile := .Zero, visible := .NotVisible },
              { tile := .Zero, visible := .Flagged },
              { tile := .Zero, visible := .NotVisible }] }

/-- Example board: 2x2 with a bomb at (1,1), hint 1 elsewhere, the corner
(0,0) open and (1,0) flagged. -/
def exChordRow : GameBoard :=
  { bombs := 1, width := 2, height := 2
    cells := [{ tile := .One, visible := .Visible },
              { tile := .One, visible := .Flagged },
              { tile := .One, visible := .NotVisible },
              { tile := .Bomb, visible := .NotVisible }] }

/-- Example board: like exChordRow but with the target (0,0) still
closed, for chording on a closed cell. -/
def exChordClosed : GameBoard :=
  { bombs := 1, width := 2, height := 2
    cells := [{ tile := .One, visible := .NotVisible },
              { tile := .One, visible := .Flagged },
              { tile := .One, visible := .NotVisible },
              { tile := .Bomb, visible := .NotVisible }] }

/-- Example board: a 2x1 row of zero tiles with only the left cell open. -/
def exHalfOpenRow : GameBoard :=
  { bombs := 0, width := 2, height := 1
    cells := [{ tile := .Zero, visible := .Visible },
              { tile := .Zero, visible := .NotVisible }] }

/-- Example board: a single flagged zero cell. -/
def exFlagCell : GameBoard :=
  { bombs := 0, width := 1, height := 1
    cells := [{ tile := .Zero, visible := .Flagged }] }

/-- Example board: a single open zero cell. -/
def exOpenCell : GameBoard :=
  { bombs := 0, width := 1, height := 1
    cells := [{ tile := .Zero, visible := .Visible }] }

/-- The 25-entry bomb vector with a single bomb at flat index 12, the
center of a 5x5 board. -/
def exCenterBombArr : List Bool :=
  List.replicate 12 false ++ [true] ++ List.replicate 12 false

/-! ### Basic lemmas about the cell accessors -/

theorem flat_inj {w x y x' y' : Nat} (hx : x < w) (hx' : x' < w)
    (h : y * w + x = y' * w + x') : x = x' ∧ y = y' := by
  have h' : x + y * w = x' + y' * w := by omega
  have h1 : (x + y * w) % w = (x' + y' * w) % w := by rw [h']
  rw [Nat.add_mul_mod_self_right, Nat.add_mul_mod_self_right,
    Nat.mod_eq_of_lt hx, Nat.mod_eq_of_lt hx'] at h1
  subst h1
  refine ⟨rfl, ?_⟩
  have hw : 0 < w := by omega
  exact Nat.eq_of_mul_eq_mul_right hw (by omega)

theorem GameBoard.get_some_bounds {gb : GameBoard} {x y : Nat} {t : BoardTile}
    (h : gb.get x y = some t) : y < gb.height ∧ x < gb.width := by
  unfold GameBoard.get at h
  split at h
  · assumption
  · exact absurd h (by simp)

theorem GameBoard.get_some_cells {gb : GameBoard} {x y : Nat} {t : BoardTile}
    (h : gb.get x y = some t) : gb.cells.get? (y * gb.width + x) = some t := by
  unfold GameBoard.get at h
  split at h
  · assumption
  · exact absurd h (by simp)

theorem GameBoard.get_eq_of_bounds {gb : GameBoard} {x y : Nat}
    (hy : y < gb.height) (hx : x < gb.width) :
    gb.get x y = gb.cells.get? (y * gb.width + x) := by
  unfold GameBoard.get
  rw [if_pos ⟨hy, hx⟩]

theorem GameBoard.get_isSome_of_WF {gb : GameBoard} {x y : Nat}
    (hwf : gb.WF) (hy : y < gb.height) (hx : x < gb.width) :
    ∃ t, gb.get x y = some t := by
  rw [GameBoard.get_eq_of_bounds hy hx]
  have hidx : y * gb.width + x < gb.cells.length := by
    rw [hwf]
    calc y * gb.width + x < y * gb.width + gb.width := by omega
    _ = (y + 1) * gb.width := by ring
    _ ≤ gb.height * gb.width := Nat.mul_le_mul_right _ (by omega)
  exact ⟨_, List.get?_eq_get hidx⟩

theorem GameBoard.setVis_width (gb : GameBoard) (x y : Nat) (v : Visibility) :
    (gb.setVis x y v).width = gb.width := by
  unfold GameBoard.setVis
  split <;> rfl

theorem GameBoard.setVis_height (gb : GameBoard) (x y : Nat) (v : Visibility) :
    (gb.setVis x y v).height = gb.height := by
  unfold GameBoard.setVis
  split <;> rfl

theorem GameBoard.setVis_bombs (gb : GameBoard) (x y : Nat) (v : Visibility) :
    (gb.setVis x y v).bombs = gb.bombs := by
  unfold GameBoard.setVis
  split <;> rfl

theorem GameBoard.setVis_length (gb : GameBoard) (x y : Nat) (v : Visibility) :
    (gb.setVis x y v).cells.length = gb.cells.length := by
  unfold GameBoard.setVis
  split
  · simp
  · rfl

theorem GameBoard.get_setVis {gb : GameBoard} {x y : Nat} {t : BoardTile}
    (h : gb.get x y = some t) (v : Visibility) (x' y' : Nat) :
    (gb.setVis x y v).get x' y' =
      if x' = x ∧ y' = y then some { t with visible := v } else gb.get x' y' := by
  have hb := GameBoard.get_some_bounds h
  have hc := GameBoard.get_some_cells h
  have hset : (gb.setVis x y v).cells =
      gb.cells.set (y * gb.width + x) { t with visible := v } := by
    unfold GameBoard.setVis
    rw [hc]
  have hw := gb.setVis_width x y v
  have hh := gb.setVis_height x y v
  by_cases heq : x' = x ∧ y' = y
  · obtain ⟨rfl, rfl⟩ := heq
    rw [if_pos ⟨rfl, rfl⟩]
    unfold GameBoard.get
    rw [hw, hh, hset, if_pos ⟨hb.1, hb.2⟩]
    exact List.get?_set_eq_of_lt _ ((List.get?_eq_some.mp hc).1)
  · rw [if_neg heq]
    unfold GameBoard.get
    rw [hw, hh, hset]
    by_cases hin : y' < gb.height ∧ x' < gb.width
    · rw [if_pos hin, if_pos hin]
      apply List.get?_set_ne
      intro hcontra
      have hf := flat_inj hb.2 hin.2 hcontra
      exact heq ⟨hf.1.symm, hf.2.symm⟩
    · rw [if_neg hin, if_neg hin]

theorem GameBoard.visStateAt_setVis {gb : GameBoard} {x y : Nat} {t : BoardTile}
    (h : gb.get x y = some t) (v : Visibility) (x' y' : Nat) :
    (gb.setVis x y v).visStateAt x' y' =
      if x' = x ∧ y' = y then some v else gb.visStateAt x' y' := by
  unfold GameBoard.visStateAt
  rw [GameBoard.get_setVis h v x' y']
  by_cases heq : x' = x ∧ y' = y
  · rw [if_pos heq, if_pos heq]
    rfl
  · rw [if_neg heq, if_neg heq]

theorem GameBoard.tileAt_setVis {gb : GameBoard} {x y : Nat} {t : BoardTile}
    (h : gb.get x y = some t) (v : Visibility) (x' y' : Nat) :
    (gb.setVis x y v).tileAt x' y' = gb.tileAt x' y' := by
  unfold GameBoard.tileAt
  rw [GameBoard.get_setVis h v x' y']
  by_cases heq : x' = x ∧ y' = y
  · rw [if_pos heq]
    rcases heq with ⟨rfl, rfl⟩
    rw [h]
    rfl
  · rw [if_neg heq]

theorem countP_set_eq {α : Type} (p : α → Bool) (l : List α) (i : Nat) (a b : α)
    (h : l.get? i = some b) :
    (l.set i a).countP p + (if p b then 1 else 0) =
      l.countP p + (if p a then 1 else 0) := by
  induction l generalizing i with
  | nil => simp at h
  | cons hd tl ih =>
    cases i with
    | zero =>
      simp only [List.get?] at h
      injection h with h
      subst h
      simp only [List.set, List.countP_cons]
      omega
    | succ n =>
      simp only [List.get?] at h
      simp only [List.set, List.countP_cons]
      have := ih n h
      omega

/-! ### The 3x3 neighborhood -/

theorem GameBoard.mem_normalize_iff {gb : GameBoard} {ox oy px py : Nat} :
    (px, py) ∈ gb.normalize_around_3x3 ox oy ↔
      px < gb.width ∧ py < gb.height ∧
        ox ≤ px + 1 ∧ px ≤ ox + 1 ∧ oy ≤ py + 1 ∧ py ≤ oy + 1 ∧
        ¬(px = ox ∧ py = oy) := by
  unfold GameBoard.normalize_around_3x3
  simp only [List.mem_flatMap, List.mem_filterMap, List.mem_range]
  constructor
  · rintro ⟨dy, hdy, dx, hdx, hif⟩
    split at hif
    · rename_i hcond
      obtain ⟨hx0, hy0, hxw, hyh, hne⟩ := hcond
      injection hif with hif
      rw [Prod.mk.injEq] at hif
      obtain ⟨hx, hy⟩ := hif
      refine ⟨by omega, by omega, by omega, by omega, by omega, by omega, ?_⟩
      intro hpq
      obtain ⟨hpx, hpy⟩ := hpq
      exact hne ⟨by omega, by omega⟩
    · exact absurd hif (by simp)
  · rintro ⟨hpw, hph, h1, h2, h3, h4, hne⟩
    refine ⟨py + 1 - oy, by omega, px + 1 - ox, by omega, ?_⟩
    rw [if_pos ?_]
    · rw [Option.some_inj, Prod.mk.injEq]
      constructor <;> omega
    · refine ⟨by omega, by omega, by omega, by omega, ?_⟩
      intro hpq
      obtain ⟨hpx, hpy⟩ := hpq
      exact hne ⟨by omega, by omega⟩

theorem GameBoard.mem_allCoords_iff {gb : GameBoard} {px py : Nat} :
    (px, py) ∈ gb.allCoords ↔ px < gb.width ∧ py < gb.height := by
  unfold GameBoard.allCoords
  simp only [List.mem_flatMap, List.mem_map, List.mem_range, Prod.mk.injEq]
  constructor
  · rintro ⟨y, hy, x, hx, rfl, rfl⟩
    exact ⟨hx, hy⟩
  · rintro ⟨hx, hy⟩
    exact ⟨py, hy, px, hx, rfl, rfl⟩

theorem GameBoard.adj_bounds {gb : GameBoard} {p q : Nat × Nat} (h : gb.Adj p q) :
    q.1 < gb.width ∧ q.2 < gb.height := by
  unfold GameBoard.Adj at h
  rw [show q = (q.1, q.2) from rfl, GameBoard.mem_normalize_iff] at h
  exact ⟨h.1, h.2.1⟩

theorem GameBoard.normalize_congr {b b0 : GameBoard} (hw : b.width = b0.width)
    (hh : b.height = b0.height) (ox oy : Nat) :
    b.normalize_around_3x3 ox oy = b0.normalize_around_3x3 ox oy := by
  unfold GameBoard.normalize_around_3x3
  simp only [hw, hh]

theorem GameBoard.adj_congr {b b0 : GameBoard} (hw : b.width = b0.width)
    (hh : b.height = b0.height) (p q : Nat × Nat) :
    b.Adj p q ↔ b0.Adj p q := by
  unfold GameBoard.Adj
  rw [GameBoard.normalize_congr hw hh]

/-! ### Flood-fill simulation relation -/

theorem GameBoard.floodSim_refl (b : GameBoard) : GameBoard.FloodSim b b where
  width_eq := rfl
  height_eq := rfl
  bombs_eq := rfl
  len_eq := rfl
  tile_eq := fun _ _ => rfl
  mono := fun _ _ h => h
  flag_eq := fun _ _ => Iff.rfl
  sound := fun _ _ h => Or.inl h

theorem GameBoard.FloodSim.get_none_iff {b0 b : GameBoard} (hs : GameBoard.FloodSim b0 b)
    (x y : Nat) : b.get x y = none ↔ b0.get x y = none := by
  unfold GameBoard.get
  rw [hs.width_eq, hs.height_eq]
  by_cases hin : y < b0.height ∧ x < b0.width
  · rw [if_pos hin, if_pos hin, List.get?_eq_none, List.get?_eq_none, hs.len_eq]
  · rw [if_neg hin, if_neg hin]

theorem GameBoard.FloodSim.get_some_exists {b0 b : GameBoard} (hs : GameBoard.FloodSim b0 b)
    {x y : Nat} {u : BoardTile} (h : b.get x y = some u) : ∃ u0, b0.get x y = some u0 := by
  cases hu0 : b0.get x y with
  | some u0 => exact ⟨u0, rfl⟩
  | none =>
    rw [← hs.get_none_iff] at hu0
    rw [hu0] at h
    exact absurd h (by simp)

theorem GameBoard.FloodSim.vis_back_notVisible {b0 b : GameBoard}
    (hs : GameBoard.FloodSim b0 b) {x y : Nat}
    (h : b.visStateAt x y = some .NotVisible) :
    b0.visStateAt x y = some .NotVisible := by
  unfold GameBoard.visStateAt at h
  cases hu : b.get x y with
  | none => rw [hu] at h; exact absurd h (by simp)
  | some u =>
    rw [hu] at h
    obtain ⟨u0, hu0⟩ := hs.get_some_exists hu
    cases hv0 : u0.visible with
    | Visible =>
      have := hs.mono x y (by unfold GameBoard.visStateAt; rw [hu0]; simp [hv0])
      unfold GameBoard.visStateAt at this
      rw [hu] at this
      simp at this h
      rw [this] at h
      exact absurd h (by simp)
    | Flagged =>
      have := (hs.flag_eq x y).mpr (by unfold GameBoard.visStateAt; rw [hu0]; simp [hv0])
      unfold GameBoard.visStateAt at this
      rw [hu] at this
      simp at this h
      rw [this] at h
      exact absurd h (by simp)
    | NotVisible =>
      unfold GameBoard.visStateAt
      rw [hu0]
      simp [hv0]

theorem GameBoard.FloodSim.zreach {b0 b : GameBoard} (hs : GameBoard.FloodSim b0 b)
    {p : Nat × Nat} (h : GameBoard.ZReach b p) : GameBoard.ZReach b0 p := by
  induction h with
  | base p hv hz =>
    rw [hs.tile_eq] at hz
    rcases hs.sound p.1 p.2 hv with h0 | ⟨hnv, p', hzr, hadj⟩
    · exact GameBoard.ZReach.base p h0 hz
    · exact GameBoard.ZReach.step p' p hzr (by rwa [show ((p.1, p.2) : Nat × Nat) = p from rfl] at hadj) hnv hz
  | step p q hp hadj hq hqz ih =>
    refine GameBoard.ZReach.step p q ih ?_ (hs.vis_back_notVisible hq) (hs.tile_eq q.1 q.2 ▸ hqz)
    rwa [GameBoard.adj_congr hs.width_eq hs.height_eq] at hadj

theorem GameBoard.FloodSim.trans {b0 b1 b2 : GameBoard}
    (h01 : GameBoard.FloodSim b0 b1) (h12 : GameBoard.FloodSim b1 b2) :
    GameBoard.FloodSim b0 b2 where
  width_eq := h12.width_eq.trans h01.width_eq
  height_eq := h12.height_eq.trans h01.height_eq
  bombs_eq := h12.bombs_eq.trans h01.bombs_eq
  len_eq := h12.len_eq.trans h01.len_eq
  tile_eq := fun x y => (h12.tile_eq x y).trans (h01.tile_eq x y)
  mono := fun x y h => h12.mono x y (h01.mono x y h)
  flag_eq := fun x y => (h12.flag_eq x y).trans (h01.flag_eq x y)
  sound := by
    intro x y h
    rcases h12.sound x y h with h1 | ⟨hnv, p, hzr, hadj⟩
    · exact h01.sound x y h1
    · refine Or.inr ⟨h01.vis_back_notVisible hnv, p, h01.zreach hzr, ?_⟩
      rwa [GameBoard.adj_congr h01.width_eq h01.height_eq] at hadj

/-! ### Elementary flood-fill steps -/

theorem GameBoard.visStateAt_of_get {gb : GameBoard} {x y : Nat} {u : BoardTile}
    (h : gb.get x y = some u) : gb.visStateAt x y = some u.visible := by
  unfold GameBoard.visStateAt
  rw [h]
  rfl

theorem GameBoard.tileAt_of_get {gb : GameBoard} {x y : Nat} {u : BoardTile}
    (h : gb.get x y = some u) : gb.tileAt x y = some u.tile := by
  unfold GameBoard.tileAt
  rw [h]
  rfl

theorem GameBoard.visStateAt_some_elim {gb : GameBoard} {x y : Nat} {v : Visibility}
    (h : gb.visStateAt x y = some v) : ∃ u, gb.get x y = some u ∧ u.visible = v := by
  unfold GameBoard.visStateAt at h
  cases hu : gb.get x y with
  | none => rw [hu] at h; exact absurd h (by simp)
  | some u =>
    rw [hu] at h
    simp at h
    exact ⟨u, rfl, h⟩

theorem GameBoard.tileAt_some_elim {gb : GameBoard} {x y : Nat} {v : Tile}
    (h : gb.tileAt x y = some v) : ∃ u, gb.get x y = some u ∧ u.tile = v := by
  unfold GameBoard.tileAt at h
  cases hu : gb.get x y with
  | none => rw [hu] at h; exact absurd h (by simp)
  | some u =>
    rw [hu] at h
    simp at h
    exact ⟨u, rfl, h⟩

theorem GameBoard.tryOpen_open {b : GameBoard} {acc : List (Nat × Nat)} {q : Nat × Nat}
    {u : BoardTile} (hu : b.get q.1 q.2 = some u) (hv : u.visible = .NotVisible) :
    GameBoard.tryOpen (b, acc) q = (b.setVis q.1 q.2 .Visible, acc ++ [q]) := by
  simp [GameBoard.tryOpen, hu, hv]

theorem GameBoard.tryOpen_skip_none {b : GameBoard} {acc : List (Nat × Nat)} {q : Nat × Nat}
    (hu : b.get q.1 q.2 = none) : GameBoard.tryOpen (b, acc) q = (b, acc) := by
  simp [GameBoard.tryOpen, hu]

theorem GameBoard.tryOpen_skip {b : GameBoard} {acc : List (Nat × Nat)} {q : Nat × Nat}
    {u : BoardTile} (hu : b.get q.1 q.2 = some u) (hv : u.visible ≠ .NotVisible) :
    GameBoard.tryOpen (b, acc) q = (b, acc) := by
  simp [GameBoard.tryOpen, hu, hv]

theorem GameBoard.zreach_of_visZero {b0 b : GameBoard} (hs : GameBoard.FloodSim b0 b)
    {p : Nat × Nat} (hvis : b.visStateAt p.1 p.2 = some .Visible)
    (hz0 : b0.tileAt p.1 p.2 = some .Zero) : GameBoard.ZReach b0 p := by
  rcases hs.sound p.1 p.2 hvis with h0 | ⟨hnv, p', hzr, hadj⟩
  · exact GameBoard.ZReach.base p h0 hz0
  · exact GameBoard.ZReach.step p' p hzr
      (by rwa [show ((p.1, p.2) : Nat × Nat) = p from rfl] at hadj) hnv hz0

theorem GameBoard.floodSim_setVis_open {b0 b : GameBoard} (hs : GameBoard.FloodSim b0 b)
    {q : Nat × Nat} {u : BoardTile} (hu : b.get q.1 q.2 = some u)
    (hv : u.visible = .NotVisible) {p : Nat × Nat} (hadj : b0.Adj p q)
    (hpvis : b.visStateAt p.1 p.2 = some .Visible)
    (hpz0 : b0.tileAt p.1 p.2 = some .Zero) :
    GameBoard.FloodSim b0 (b.setVis q.1 q.2 .Visible) := by
  have hqnv : b.visStateAt q.1 q.2 = some .NotVisible := by
    rw [GameBoard.visStateAt_of_get hu, hv]
  have hq0nv : b0.visStateAt q.1 q.2 = some .NotVisible := hs.vis_back_notVisible hqnv
  refine
    { width_eq := ?_, height_eq := ?_, bombs_eq := ?_, len_eq := ?_
      tile_eq := ?_, mono := ?_, flag_eq := ?_, sound := ?_ }
  · rw [GameBoard.setVis_width]; exact hs.width_eq
  · rw [GameBoard.setVis_height]; exact hs.height_eq
  · rw [GameBoard.setVis_bombs]; exact hs.bombs_eq
  · rw [GameBoard.setVis_length]; exact hs.len_eq
  · intro x y
    rw [GameBoard.tileAt_setVis hu]
    exact hs.tile_eq x y
  · intro x y h0
    rw [GameBoard.visStateAt_setVis hu]
    by_cases heq : x = q.1 ∧ y = q.2
    · rw [if_pos heq]
    · rw [if_neg heq]
      exact hs.mono x y h0
  · intro x y
    rw [GameBoard.visStateAt_setVis hu]
    by_cases heq : x = q.1 ∧ y = q.2
    · rw [if_pos heq]
      obtain ⟨rfl, rfl⟩ := heq
      constructor
      · intro h
        exact absurd h (by simp)
      · intro h
        rw [hq0nv] at h
        exact absurd h (by simp)
    · rw [if_neg heq]
      exact hs.flag_eq x y
  · intro x y h
    rw [GameBoard.visStateAt_setVis hu] at h
    by_cases heq : x = q.1 ∧ y = q.2
    · obtain ⟨rfl, rfl⟩ := heq
      refine Or.inr ⟨hq0nv, p, GameBoard.zreach_of_visZero hs hpvis hpz0, ?_⟩
      rwa [show ((q.1, q.2) : Nat × Nat) = q from rfl]
    · rw [if_neg heq] at h
      exact hs.sound x y h

theorem GameBoard.tryOpen_mono_visible (s : GameBoard × List (Nat × Nat)) (q : Nat × Nat)
    {x y : Nat} (h : s.1.visStateAt x y = some .Visible) :
    (GameBoard.tryOpen s q).1.visStateAt x y = some .Visible := by
  obtain ⟨b, acc⟩ := s
  cases hu : b.get q.1 q.2 with
  | none => rw [GameBoard.tryOpen_skip_none hu]; exact h
  | some u =>
    by_cases hv : u.visible = .NotVisible
    · rw [GameBoard.tryOpen_open hu hv]
      simp only
      rw [GameBoard.visStateAt_setVis hu]
      by_cases heq : x = q.1 ∧ y = q.2
      · rw [if_pos heq]
      · rw [if_neg heq]
        exact h
    · rw [GameBoard.tryOpen_skip hu hv]
      exact h

theorem GameBoard.floodSim_foldl_tryOpen {b0 : GameBoard} {p : Nat × Nat}
    (hpz0 : b0.tileAt p.1 p.2 = some .Zero) :
    ∀ (l : List (Nat × Nat)), (∀ q ∈ l, b0.Adj p q) →
    ∀ (s : GameBoard × List (Nat × Nat)), GameBoard.FloodSim b0 s.1 →
      s.1.visStateAt p.1 p.2 = some .Visible →
      GameBoard.FloodSim b0 (l.foldl GameBoard.tryOpen s).1 := by
  intro l
  induction l with
  | nil => intro _ s hs _; exact hs
  | cons q rest ih =>
    intro hl s hs hp
    simp only [List.foldl_cons]
    have hnext : GameBoard.FloodSim b0 (GameBoard.tryOpen s q).1 := by
      obtain ⟨b, acc⟩ := s
      cases hu : b.get q.1 q.2 with
      | none => rw [GameBoard.tryOpen_skip_none hu]; exact hs
      | some u =>
        by_cases hv : u.visible = .NotVisible
        · rw [GameBoard.tryOpen_open hu hv]
          exact GameBoard.floodSim_setVis_open hs hu hv
            (hl q (List.mem_cons_self q rest)) hp hpz0
        · rw [GameBoard.tryOpen_skip hu hv]
          exact hs
    exact ih (fun q' hq' => hl q' (List.mem_cons_of_mem _ hq')) (GameBoard.tryOpen s q)
      hnext (GameBoard.tryOpen_mono_visible s q hp)

theorem GameBoard.openNbrs_eq_fold {b : GameBoard} {acc : List (Nat × Nat)} {p : Nat × Nat}
    {t : BoardTile} (hget : b.get p.1 p.2 = some t)
    (hc : t.visible = Visibility.Visible ∧ t.tile = Tile.Zero) :
    GameBoard.openNbrsOfZero (b, acc) p =
      (b.normalize_around_3x3 p.1 p.2).foldl GameBoard.tryOpen (b, acc) := by
  simp [GameBoard.openNbrsOfZero, hget, hc.1, hc.2]

theorem GameBoard.openNbrs_skip_none {b : GameBoard} {acc : List (Nat × Nat)} {p : Nat × Nat}
    (hget : b.get p.1 p.2 = none) : GameBoard.openNbrsOfZero (b, acc) p = (b, acc) := by
  simp [GameBoard.openNbrsOfZero, hget]

theorem GameBoard.openNbrs_skip {b : GameBoard} {acc : List (Nat × Nat)} {p : Nat × Nat}
    {t : BoardTile} (hget : b.get p.1 p.2 = some t)
    (hc : ¬(t.visible = Visibility.Visible ∧ t.tile = Tile.Zero)) :
    GameBoard.openNbrsOfZero (b, acc) p = (b, acc) := by
  simp only [GameBoard.openNbrsOfZero, hget]
  rw [if_neg hc]

theorem GameBoard.floodSim_openNbrs {b0 : GameBoard}
    (s : GameBoard × List (Nat × Nat)) (p : Nat × Nat)
    (hs : GameBoard.FloodSim b0 s.1) :
    GameBoard.FloodSim b0 (GameBoard.openNbrsOfZero s p).1 := by
  obtain ⟨b, acc⟩ := s
  cases hget : b.get p.1 p.2 with
  | none => rw [GameBoard.openNbrs_skip_none hget]; exact hs
  | some t =>
    by_cases hc : t.visible = Visibility.Visible ∧ t.tile = Tile.Zero
    · rw [GameBoard.openNbrs_eq_fold hget hc]
      have hpz0 : b0.tileAt p.1 p.2 = some .Zero := by
        rw [← hs.tile_eq p.1 p.2, GameBoard.tileAt_of_get hget, hc.2]
      have hl : ∀ q ∈ b.normalize_around_3x3 p.1 p.2, b0.Adj p q := by
        intro q hq
        unfold GameBoard.Adj
        rwa [GameBoard.normalize_congr hs.width_eq hs.height_eq p.1 p.2] at hq
      exact GameBoard.floodSim_foldl_tryOpen hpz0 _ hl (b, acc) hs
        (by rw [GameBoard.visStateAt_of_get hget, hc.1])
    · rw [GameBoard.openNbrs_skip hget hc]
      exact hs

theorem GameBoard.floodSim_foldl_openNbrs {b0 : GameBoard} :
    ∀ (l : List (Nat × Nat)) (s : GameBoard × List (Nat × Nat)),
      GameBoard.FloodSim b0 s.1 →
      GameBoard.FloodSim b0 (l.foldl GameBoard.openNbrsOfZero s).1 := by
  intro l
  induction l with
  | nil => intro s hs; exact hs
  | cons p rest ih =>
    intro s hs
    simp only [List.foldl_cons]
    exact ih _ (GameBoard.floodSim_openNbrs s p hs)

theorem GameBoard.floodSim_inner {b0 b : GameBoard} (hs : GameBoard.FloodSim b0 b) :
    GameBoard.FloodSim b0 b.inner_open_visible.1 := by
  unfold GameBoard.inner_open_visible
  exact GameBoard.floodSim_foldl_openNbrs _ _ hs

/-! ### Flood-fill accounting and fixpoint -/

theorem GameBoard.notVisCount_setVis_open {b : GameBoard} {q : Nat × Nat} {u : BoardTile}
    (hu : b.get q.1 q.2 = some u) (hv : u.visible = .NotVisible) :
    (b.setVis q.1 q.2 .Visible).notVisCount + 1 = b.notVisCount := by
  have hc := GameBoard.get_some_cells hu
  have hset : (b.setVis q.1 q.2 .Visible).cells =
      b.cells.set (q.2 * b.width + q.1) { u with visible := .Visible } := by
    unfold GameBoard.setVis
    rw [hc]
  unfold GameBoard.notVisCount
  rw [hset]
  have := countP_set_eq (fun t => decide (t.visible = Visibility.NotVisible))
    b.cells (q.2 * b.width + q.1) { u with visible := .Visible } u hc
  simp [hv] at this
  omega

theorem GameBoard.tryOpen_sum (s : GameBoard × List (Nat × Nat)) (q : Nat × Nat) :
    (GameBoard.tryOpen s q).1.notVisCount + (GameBoard.tryOpen s q).2.length =
      s.1.notVisCount + s.2.length := by
  obtain ⟨b, acc⟩ := s
  cases hu : b.get q.1 q.2 with
  | none => rw [GameBoard.tryOpen_skip_none hu]
  | some u =>
    by_cases hv : u.visible = .NotVisible
    · rw [GameBoard.tryOpen_open hu hv]
      simp only [List.length_append, List.length_cons, List.length_nil]
      have := GameBoard.notVisCount_setVis_open hu hv
      omega
    · rw [GameBoard.tryOpen_skip hu hv]

theorem GameBoard.foldl_tryOpen_sum :
    ∀ (l : List (Nat × Nat)) (s : GameBoard × List (Nat × Nat)),
      (l.foldl GameBoard.tryOpen s).1.notVisCount + (l.foldl GameBoard.tryOpen s).2.length =
        s.1.notVisCount + s.2.length := by
  intro l
  induction l with
  | nil => intro s; rfl
  | cons q rest ih =>
    intro s
    simp only [List.foldl_cons]
    rw [ih (GameBoard.tryOpen s q)]
    exact GameBoard.tryOpen_sum s q

theorem GameBoard.openNbrs_sum (s : GameBoard × List (Nat × Nat)) (p : Nat × Nat) :
    (GameBoard.openNbrsOfZero s p).1.notVisCount + (GameBoard.openNbrsOfZero s p).2.length =
      s.1.notVisCount + s.2.length := by
  obtain ⟨b, acc⟩ := s
  cases hget : b.get p.1 p.2 with
  | none => rw [GameBoard.openNbrs_skip_none hget]
  | some t =>
    by_cases hc : t.visible = Visibility.Visible ∧ t.tile = Tile.Zero
    · rw [GameBoard.openNbrs_eq_fold hget hc]
      exact GameBoard.foldl_tryOpen_sum _ (b, acc)
    · rw [GameBoard.openNbrs_skip hget hc]

theorem GameBoard.foldl_openNbrs_sum :
    ∀ (l : List (Nat × Nat)) (s : GameBoard × List (Nat × Nat)),
      (l.foldl GameBoard.openNbrsOfZero s).1.notVisCount +
          (l.foldl GameBoard.openNbrsOfZero s).2.length =
        s.1.notVisCount + s.2.length := by
  intro l
  induction l with
  | nil => intro s; rfl
  | cons p rest ih =>
    intro s
    simp only [List.foldl_cons]
    rw [ih (GameBoard.openNbrsOfZero s p)]
    exact GameBoard.openNbrs_sum s p

theorem GameBoard.inner_open_visible_sum (b : GameBoard) :
    b.inner_open_visible.1.notVisCount + b.inner_open_visible.2.length = b.notVisCount := by
  unfold GameBoard.inner_open_visible
  rw [GameBoard.foldl_openNbrs_sum]
  simp

theorem GameBoard.tryOpen_acc (s : GameBoard × List (Nat × Nat)) (q : Nat × Nat) :
    ∃ d, (GameBoard.tryOpen s q).2 = s.2 ++ d := by
  obtain ⟨b, acc⟩ := s
  cases hu : b.get q.1 q.2 with
  | none => exact ⟨[], by rw [GameBoard.tryOpen_skip_none hu]; simp⟩
  | some u =>
    by_cases hv : u.visible = .NotVisible
    · exact ⟨[q], by rw [GameBoard.tryOpen_open hu hv]⟩
    · exact ⟨[], by rw [GameBoard.tryOpen_skip hu hv]; simp⟩

theorem GameBoard.foldl_tryOpen_acc :
    ∀ (l : List (Nat × Nat)) (s : GameBoard × List (Nat × Nat)),
      ∃ d, (l.foldl GameBoard.tryOpen s).2 = s.2 ++ d := by
  intro l
  induction l with
  | nil => intro s; exact ⟨[], by simp⟩
  | cons q rest ih =>
    intro s
    simp only [List.foldl_cons]
    obtain ⟨d1, hd1⟩ := GameBoard.tryOpen_acc s q
    obtain ⟨d2, hd2⟩ := ih (GameBoard.tryOpen s q)
    exact ⟨d1 ++ d2, by rw [hd2, hd1, List.append_assoc]⟩

theorem GameBoard.openNbrs_acc (s : GameBoard × List (Nat × Nat)) (p : Nat × Nat) :
    ∃ d, (GameBoard.openNbrsOfZero s p).2 = s.2 ++ d := by
  obtain ⟨b, acc⟩ := s
  cases hget : b.get p.1 p.2 with
  | none => exact ⟨[], by rw [GameBoard.openNbrs_skip_none hget]; simp⟩
  | some t =>
    by_cases hc : t.visible = Visibility.Visible ∧ t.tile = Tile.Zero
    · rw [GameBoard.openNbrs_eq_fold hget hc]
      exact GameBoard.foldl_tryOpen_acc _ (b, acc)
    · exact ⟨[], by rw [GameBoard.openNbrs_skip hget hc]; simp⟩

theorem GameBoard.foldl_openNbrs_acc :
    ∀ (l : List (Nat × Nat)) (s : GameBoard × List (Nat × Nat)),
      ∃ d, (l.foldl GameBoard.openNbrsOfZero s).2 = s.2 ++ d := by
  intro l
  induction l with
  | nil => intro s; exact ⟨[], by simp⟩
  | cons p rest ih =>
    intro s
    simp only [List.foldl_cons]
    obtain ⟨d1, hd1⟩ := GameBoard.openNbrs_acc s p
    obtain ⟨d2, hd2⟩ := ih (GameBoard.openNbrsOfZero s p)
    exact ⟨d1 ++ d2, by rw [hd2, hd1, List.append_assoc]⟩

theorem GameBoard.foldl_tryOpen_noop :
    ∀ (l : List (Nat × Nat)) (b : GameBoard) (acc : List (Nat × Nat)),
      (l.foldl GameBoard.tryOpen (b, acc)).2 = acc →
      (l.foldl GameBoard.tryOpen (b, acc)).1 = b ∧
        ∀ q ∈ l, b.visStateAt q.1 q.2 ≠ some .NotVisible := by
  intro l
  induction l with
  | nil => intro b acc _; exact ⟨rfl, by simp⟩
  | cons q rest ih =>
    intro b acc hacc
    simp only [List.foldl_cons] at hacc ⊢
    cases hu : b.get q.1 q.2 with
    | none =>
      rw [GameBoard.tryOpen_skip_none hu] at hacc ⊢
      obtain ⟨h1, h2⟩ := ih b acc hacc
      refine ⟨h1, fun q' hq' => ?_⟩
      rcases List.mem_cons.mp hq' with rfl | hq'
      · unfold GameBoard.visStateAt
        rw [hu]
        simp
      · exact h2 q' hq'
    | some u =>
      by_cases hv : u.visible = .NotVisible
      · exfalso
        rw [GameBoard.tryOpen_open hu hv] at hacc
        obtain ⟨d, hd⟩ := GameBoard.foldl_tryOpen_acc rest _
        rw [hd] at hacc
        have := congrArg List.length hacc
        simp [List.length_append] at this
      · rw [GameBoard.tryOpen_skip hu hv] at hacc ⊢
        obtain ⟨h1, h2⟩ := ih b acc hacc
        refine ⟨h1, fun q' hq' => ?_⟩
        rcases List.mem_cons.mp hq' with rfl | hq'
        · rw [GameBoard.visStateAt_of_get hu]
          exact fun hcon => hv (Option.some.inj hcon)
        · exact h2 q' hq'

theorem GameBoard.foldl_openNbrs_noop :
    ∀ (l : List (Nat × Nat)) (b : GameBoard) (acc : List (Nat × Nat)),
      (l.foldl GameBoard.openNbrsOfZero (b, acc)).2 = acc →
      (l.foldl GameBoard.openNbrsOfZero (b, acc)).1 = b ∧
        ∀ p ∈ l, ∀ t, b.get p.1 p.2 = some t → t.visible = .Visible → t.tile = .Zero →
          ∀ q ∈ b.normalize_around_3x3 p.1 p.2, b.visStateAt q.1 q.2 ≠ some .NotVisible := by
  intro l
  induction l with
  | nil => intro b acc _; exact ⟨rfl, by simp⟩
  | cons p rest ih =>
    intro b acc hacc
    simp only [List.foldl_cons] at hacc ⊢
    cases hget : b.get p.1 p.2 with
    | none =>
      rw [GameBoard.openNbrs_skip_none hget] at hacc ⊢
      obtain ⟨h1, h2⟩ := ih b acc hacc
      refine ⟨h1, fun p' hp' => ?_⟩
      rcases List.mem_cons.mp hp' with rfl | hp'
      · intro t ht
        rw [hget] at ht
        exact absurd ht (by simp)
      · exact h2 p' hp'
    | some t =>
      by_cases hc : t.visible = Visibility.Visible ∧ t.tile = Tile.Zero
      · rw [GameBoard.openNbrs_eq_fold hget hc] at hacc ⊢
        obtain ⟨d1, hd1⟩ :=
          GameBoard.foldl_tryOpen_acc (b.normalize_around_3x3 p.1 p.2) (b, acc)
        obtain ⟨d2, hd2⟩ := GameBoard.foldl_openNbrs_acc rest
          ((b.normalize_around_3x3 p.1 p.2).foldl GameBoard.tryOpen (b, acc))
        rw [hd2, hd1, List.append_assoc] at hacc
        have hlen := congrArg List.length hacc
        simp only [List.length_append] at hlen
        have hd1nil : d1 = [] := List.eq_nil_of_length_eq_zero (by omega)
        have hd2nil : d2 = [] := List.eq_nil_of_length_eq_zero (by omega)
        have hs2 : ((b.normalize_around_3x3 p.1 p.2).foldl GameBoard.tryOpen (b, acc)).2 = acc := by
          rw [hd1, hd1nil, List.append_nil]
        obtain ⟨hb1, hnoop⟩ := GameBoard.foldl_tryOpen_noop _ b acc hs2
        have hs1 : ((b.normalize_around_3x3 p.1 p.2).foldl GameBoard.tryOpen (b, acc)) = (b, acc) :=
          Prod.ext hb1 hs2
        have hacc2 : (rest.foldl GameBoard.openNbrsOfZero (b, acc)).2 = acc := by
          rw [← hs1, hd2, hd2nil, List.append_nil, hs2]
        rw [hs1]
        obtain ⟨h1, h2⟩ := ih b acc hacc2
        refine ⟨h1, fun p' hp' => ?_⟩
        rcases List.mem_cons.mp hp' with rfl | hp'
        · intro t' ht' _ _ q hq
          exact hnoop q hq
        · exact h2 p' hp'
      · rw [GameBoard.openNbrs_skip hget hc] at hacc ⊢
        obtain ⟨h1, h2⟩ := ih b acc hacc
        refine ⟨h1, fun p' hp' => ?_⟩
        rcases List.mem_cons.mp hp' with rfl | hp'
        · intro t' ht' hv' hz' _ _
          rw [hget] at ht'
          injection ht' with ht'
          subst ht'
          exact absurd ⟨hv', hz'⟩ hc
        · exact h2 p' hp'

theorem GameBoard.inner_open_visible_nil {b b' : GameBoard}
    (h : b.inner_open_visible = (b', [])) : b' = b ∧ b.FloodFix := by
  unfold GameBoard.inner_open_visible at h
  have h2 : (b.allCoords.foldl GameBoard.openNbrsOfZero (b, [])).2 = [] := by rw [h]
  obtain ⟨h1, hper⟩ := GameBoard.foldl_openNbrs_noop b.allCoords b [] h2
  constructor
  · have := congrArg Prod.fst h
    simp at this
    rw [← this, h1]
  · intro x y hvis hz q hq
    obtain ⟨u, hu, huv⟩ := GameBoard.visStateAt_some_elim hvis
    obtain ⟨u', hu', hut⟩ := GameBoard.tileAt_some_elim hz
    rw [hu] at hu'
    injection hu' with hu'
    subst hu'
    have hb := GameBoard.get_some_bounds hu
    have hmem : (x, y) ∈ b.allCoords := GameBoard.mem_allCoords_iff.mpr ⟨hb.2, hb.1⟩
    exact hper (x, y) hmem u hu huv hut q hq

theorem GameBoard.open_visible_go_sim :
    ∀ (fuel : Nat) (b : GameBoard), GameBoard.FloodSim b (GameBoard.open_visible_go fuel b).1 := by
  intro fuel
  induction fuel with
  | zero => intro b; exact GameBoard.floodSim_refl b
  | succ fuel ih =>
    intro b
    unfold GameBoard.open_visible_go
    by_cases hnil : b.inner_open_visible.2 = []
    · rw [if_pos hnil]
      exact GameBoard.floodSim_inner (GameBoard.floodSim_refl b)
    · rw [if_neg hnil]
      exact GameBoard.FloodSim.trans
        (GameBoard.floodSim_inner (GameBoard.floodSim_refl b))
        (ih b.inner_open_visible.1)

theorem GameBoard.open_visible_go_fix :
    ∀ (fuel : Nat) (b : GameBoard), b.notVisCount < fuel →
      GameBoard.FloodFix (GameBoard.open_visible_go fuel b).1 := by
  intro fuel
  induction fuel with
  | zero => intro b h; exact absurd h (by omega)
  | succ fuel ih =>
    intro b hlt
    unfold GameBoard.open_visible_go
    by_cases hnil : b.inner_open_visible.2 = []
    · rw [if_pos hnil]
      have hinner : b.inner_open_visible = (b.inner_open_visible.1, []) := Prod.ext rfl hnil
      obtain ⟨heq, hfix⟩ := GameBoard.inner_open_visible_nil hinner
      rw [heq]
      exact hfix
    · rw [if_neg hnil]
      have hsum := GameBoard.inner_open_visible_sum b
      have hpos : 0 < b.inner_open_visible.2.length := by
        cases hl : b.inner_open_visible.2 with
        | nil => exact absurd hl hnil
        | cons a as => simp
      exact ih b.inner_open_visible.1 (by omega)

theorem GameBoard.open_visible_sim (b : GameBoard) :
    GameBoard.FloodSim b b.open_visible.1 :=
  GameBoard.open_visible_go_sim _ b

theorem GameBoard.open_visible_fix (b : GameBoard) :
    GameBoard.FloodFix b.open_visible.1 :=
  GameBoard.open_visible_go_fix _ b (Nat.lt_succ_self _)

/-! ### Flood-fill completeness -/

theorem GameBoard.FloodSim.wf {b0 b : GameBoard} (hs : GameBoard.FloodSim b0 b)
    (hwf : b0.WF) : b.WF := by
  unfold GameBoard.WF at hwf ⊢
  rw [hs.len_eq, hs.width_eq, hs.height_eq]
  exact hwf

theorem GameBoard.floodfix_adj_open {b0 bf : GameBoard} (hs : GameBoard.FloodSim b0 bf)
    (hfix : bf.FloodFix) (hwf : b0.WF) {p q : Nat × Nat}
    (hpvis : bf.visStateAt p.1 p.2 = some .Visible)
    (hpz : bf.tileAt p.1 p.2 = some .Zero)
    (hadj : b0.Adj p q)
    (hq0 : b0.visStateAt q.1 q.2 = some .NotVisible) :
    bf.visStateAt q.1 q.2 = some .Visible := by
  have hadjf : bf.Adj p q := (GameBoard.adj_congr hs.width_eq hs.height_eq p q).mpr hadj
  have hb := GameBoard.adj_bounds hadjf
  obtain ⟨u, hu⟩ := GameBoard.get_isSome_of_WF (hs.wf hwf) hb.2 hb.1
  have hqn := hfix p.1 p.2 hpvis hpz q hadjf
  cases huv : u.visible with
  | Visible => rw [GameBoard.visStateAt_of_get hu, huv]
  | NotVisible =>
    exact absurd (by rw [GameBoard.visStateAt_of_get hu, huv]) hqn
  | Flagged =>
    have : bf.visStateAt q.1 q.2 = some .Flagged := by
      rw [GameBoard.visStateAt_of_get hu, huv]
    have := (hs.flag_eq q.1 q.2).mp this
    rw [hq0] at this
    exact absurd this (by simp)

theorem GameBoard.floodfix_zreach_open {b0 bf : GameBoard} (hs : GameBoard.FloodSim b0 bf)
    (hfix : bf.FloodFix) (hwf : b0.WF) {p : Nat × Nat} (hzr : GameBoard.ZReach b0 p) :
    bf.visStateAt p.1 p.2 = some .Visible ∧ b0.tileAt p.1 p.2 = some .Zero := by
  induction hzr with
  | base p hv hz => exact ⟨hs.mono p.1 p.2 hv, hz⟩
  | step p q hp hadj hq hqz ih =>
    refine ⟨?_, hqz⟩
    exact GameBoard.floodfix_adj_open hs hfix hwf ih.1
      (by rw [hs.tile_eq]; exact ih.2) hadj hq

theorem GameBoard.open_visible_exact {b : GameBoard} (hwf : b.WF) (x y : Nat) :
    b.open_visible.1.visStateAt x y = some .Visible ↔
      (b.visStateAt x y = some .Visible ∨
        (b.visStateAt x y = some .NotVisible ∧
          ∃ p, GameBoard.ZReach b p ∧ b.Adj p (x, y))) := by
  constructor
  · exact (GameBoard.open_visible_sim b).sound x y
  · rintro (h | ⟨hnv, p, hzr, hadj⟩)
    · exact (GameBoard.open_visible_sim b).mono x y h
    · obtain ⟨hpvis, hpz⟩ :=
        GameBoard.floodfix_zreach_open (GameBoard.open_visible_sim b)
          (GameBoard.open_visible_fix b) hwf hzr
      exact GameBoard.floodfix_adj_open (GameBoard.open_visible_sim b)
        (GameBoard.open_visible_fix b) hwf hpvis
        (by rw [(GameBoard.open_visible_sim b).tile_eq]; exact hpz) hadj hnv

/-! ### C6: the clearing-capacity check -/

theorem validate_board_clearing_eq (x y bombs cx cy : Nat)
    (hx : x ≤ 10000) (hy : y ≤ 10000) (hbombs : bombs ≤ 100000000)
    (hba : bombs ≤ x * y) (hx0 : x ≠ 0) (hy0 : y ≠ 0) (hcx : cx < x) (hcy : cy < y) :
    validate_board x y bombs true (some (cx, cy)) =
      if x * y - bombs < 9 then .error .BombOverflow else .ok () := by
  have hsize : validate_size_constraints x y bombs = .ok () := by
    unfold validate_size_constraints
    rw [if_neg (by omega)]
  unfold validate_board
  rw [hsize]
  simp only
  rw [if_neg (by omega), if_neg (by simp [hx0, hy0])]
  rw [if_neg (not_not_intro ⟨hcx, hcy⟩)]
  by_cases h9 : x * y - bombs < 9
  · rw [if_pos ⟨trivial, h9⟩, if_pos h9]
  · rw [if_neg (fun hc => h9 hc.2), if_neg h9]

/-- C6 counterexample: on a 2x2 board with 0 mines and clearing (0,0),
the edge-clipped protected set has 4 cells and area - mine_count = 4 of
the cells can host it, yet the engine rejects the configuration with
BombOverflow because its check compares against the constant 9, not the
protected-set size.  The claim predicts success here; the code fails. -/
theorem clearing_overflow_cex :
    GameBoard.with_clearing 2 2 0 0 0 [] (fun _ => 0) 1 =
      some (.error .BombOverflow) ∧
    ((GameBoard.blank_board 2 2 0).protectedList 0 0).length = 4 ∧
    ((GameBoard.blank_board 2 2 0).protectedList 0 0).length ≤ 2 * 2 - 0 := by
  refine ⟨by decide, by decide, by decide⟩

/-- C6 (amended): for a configuration that passes every other validation
check (size ceilings, bombs within area, non-zero dimensions, clearing in
bounds), with_clearing fails with BombOverflow exactly when
area - mine_count < 9 - the constant 9, regardless of how edge clipping
shrinks the protected set - and otherwise never returns an error (it
returns a populated board whenever the reroute loop converges within the
modelled fuel). -/
theorem with_clearing_overflow_const9 (x y bombs cx cy : Nat) (arr : List Bool)
    (rng : Nat → Nat) (fuel : Nat)
    (hx : x ≤ 10000) (hy : y ≤ 10000) (hbombs : bombs ≤ 100000000)
    (hba : bombs ≤ x * y) (hx0 : x ≠ 0) (hy0 : y ≠ 0) (hcx : cx < x) (hcy : cy < y) :
    (x * y - bombs < 9 →
      GameBoard.with_clearing x y bombs cx cy arr rng fuel =
        some (.error .BombOverflow)) ∧
    (9 ≤ x * y - bombs →
      ∀ r, GameBoard.with_clearing x y bombs cx cy arr rng fuel = some r →
        ∃ b, r = .ok b) := by
  have hval := validate_board_clearing_eq x y bombs cx cy hx hy hbombs hba hx0 hy0 hcx hcy
  constructor
  · intro hlt
    unfold GameBoard.with_clearing
    rw [hval, if_pos hlt]
  · intro hge r hr
    unfold GameBoard.with_clearing at hr
    rw [hval, if_neg (by omega)] at hr
    simp only at hr
    unfold GameBoard.populate_without at hr
    rw [if_neg (show ¬((GameBoard.blank_board x y bombs).area -
        (GameBoard.blank_board x y bombs).bombs < 9) from by
      unfold GameBoard.blank_board GameBoard.area
      simp only
      omega)] at hr
    split at hr
    · exact absurd hr (by simp)
    · rename_i arr' heq
      injection hr with hr
      exact ⟨_, hr.symm⟩

/-- C6 witness: the amended theorem applied to the 5x5 board with one
mine and clearing (2,2). -/
theorem with_clearing_overflow_const9_witness :
    (5 * 5 - 1 < 9 →
      GameBoard.with_clearing 5 5 1 2 2 exCenterBombArr (fun _ => 0) 2 =
        some (.error .BombOverflow)) ∧
    (9 ≤ 5 * 5 - 1 →
      ∀ r, GameBoard.with_clearing 5 5 1 2 2 exCenterBombArr (fun _ => 0) 2 = some r →
        ∃ b, r = .ok b) :=
  with_clearing_overflow_const9 5 5 1 2 2 exCenterBombArr (fun _ => 0) 2
    (by decide) (by decide) (by decide) (by decide) (by decide) (by decide)
    (by decide) (by decide)

/-! ### C5: undoing an Open record -/

theorem GameBoard.undo_open_go_cons_none {b : GameBoard} {q : Nat × Nat}
    {rest : List (Nat × Nat)} (hu : b.get q.1 q.2 = none) :
    GameBoard.undo_open_go b (q :: rest) = (b, .error .OutOfBounds) := by
  simp [GameBoard.undo_open_go, hu]

theorem GameBoard.undo_open_go_cons_vis {b : GameBoard} {q : Nat × Nat}
    {rest : List (Nat × Nat)} {t : BoardTile} (hu : b.get q.1 q.2 = some t)
    (hv : t.visible = Visibility.Visible) :
    GameBoard.undo_open_go b (q :: rest) =
      GameBoard.undo_open_go (b.setVis q.1 q.2 .NotVisible) rest := by
  simp [GameBoard.undo_open_go, hu, hv]

theorem GameBoard.undo_open_go_cons_notvis {b : GameBoard} {q : Nat × Nat}
    {rest : List (Nat × Nat)} {t : BoardTile} (hu : b.get q.1 q.2 = some t)
    (hv : ¬t.visible = Visibility.Visible) :
    GameBoard.undo_open_go b (q :: rest) = (b, .error .AlreadyClosed) := by
  simp [GameBoard.undo_open_go, hu, hv]

theorem GameBoard.undo_open_go_preserves_notvis :
    ∀ (cs : List (Nat × Nat)) (b : GameBoard) {x y : Nat},
      b.visStateAt x y = some .NotVisible →
      (GameBoard.undo_open_go b cs).1.visStateAt x y = some .NotVisible := by
  intro cs
  induction cs with
  | nil => intro b x y h; exact h
  | cons q rest ih =>
    intro b x y h
    cases hu : b.get q.1 q.2 with
    | none =>
      rw [GameBoard.undo_open_go_cons_none hu]
      exact h
    | some t =>
      by_cases hv : t.visible = Visibility.Visible
      · rw [GameBoard.undo_open_go_cons_vis hu hv]
        apply ih
        rw [GameBoard.visStateAt_setVis hu]
        by_cases heq : x = q.1 ∧ y = q.2
        · rw [if_pos heq]
        · rw [if_neg heq]; exact h
      · rw [GameBoard.undo_open_go_cons_notvis hu hv]
        exact h

theorem GameBoard.undo_open_go_ok :
    ∀ (cs : List (Nat × Nat)) (b b' : GameBoard),
      GameBoard.undo_open_go b cs = (b', .ok ()) →
      (∀ q ∈ cs, b.visStateAt q.1 q.2 = some .Visible) ∧
      (∀ q ∈ cs, b'.visStateAt q.1 q.2 = some .NotVisible) ∧
      (∀ x y, (∀ q ∈ cs, ¬(x = q.1 ∧ y = q.2)) → b'.get x y = b.get x y) := by
  intro cs
  induction cs with
  | nil =>
    intro b b' h
    unfold GameBoard.undo_open_go at h
    injection h with h1 _
    subst h1
    exact ⟨by simp, by simp, fun _ _ _ => rfl⟩
  | cons q rest ih =>
    intro b b' h
    cases hu : b.get q.1 q.2 with
    | none =>
      rw [GameBoard.undo_open_go_cons_none hu] at h
      exact absurd (congrArg Prod.snd h) (by simp)
    | some t =>
      by_cases hv : t.visible = Visibility.Visible
      · rw [GameBoard.undo_open_go_cons_vis hu hv] at h
        obtain ⟨ih1, ih2, ih3⟩ := ih _ _ h
        have hq1 : (b.setVis q.1 q.2 .NotVisible).visStateAt q.1 q.2 = some .NotVisible := by
          rw [GameBoard.visStateAt_setVis hu, if_pos ⟨rfl, rfl⟩]
        refine ⟨?_, ?_, ?_⟩
        · intro q' hq'
          rcases List.mem_cons.mp hq' with rfl | hq'
          · rw [GameBoard.visStateAt_of_get hu, hv]
          · have h1 := ih1 q' hq'
            rw [GameBoard.visStateAt_setVis hu] at h1
            by_cases heq : q'.1 = q.1 ∧ q'.2 = q.2
            · rw [if_pos heq] at h1
              exact absurd h1 (by simp)
            · rwa [if_neg heq] at h1
        · intro q' hq'
          rcases List.mem_cons.mp hq' with rfl | hq'
          · have hpres := GameBoard.undo_open_go_preserves_notvis rest
              (b.setVis q'.1 q'.2 .NotVisible) hq1
            rw [h] at hpres
            exact hpres
          · exact ih2 q' hq'
        · intro x y hne
          rw [ih3 x y (fun q' hq' => hne q' (List.mem_cons_of_mem _ hq'))]
          rw [GameBoard.get_setVis hu]
          rw [if_neg (hne q (List.mem_cons_self q rest))]
      · rw [GameBoard.undo_open_go_cons_notvis hu hv] at h
        exact absurd (congrArg Prod.snd h) (by simp)

theorem GameBoard.undo_open_go_err :
    ∀ (cs : List (Nat × Nat)) (b b' : GameBoard) (e : UndoError),
      GameBoard.undo_open_go b cs = (b', .error e) →
      ∀ x y, b'.get x y ≠ b.get x y →
        (x, y) ∈ cs ∧ ∃ t, b.get x y = some ⟨t, .Visible⟩ ∧
          b'.get x y = some ⟨t, .NotVisible⟩ := by
  intro cs
  induction cs with
  | nil =>
    intro b b' e h
    unfold GameBoard.undo_open_go at h
    exact absurd (congrArg Prod.snd h) (by simp)
  | cons q rest ih =>
    intro b b' e h
    cases hu : b.get q.1 q.2 with
    | none =>
      rw [GameBoard.undo_open_go_cons_none hu] at h
      have hb : b' = b := (congrArg Prod.fst h).symm
      intro x y hne
      rw [hb] at hne
      exact absurd rfl hne
    | some t =>
      by_cases hv : t.visible = Visibility.Visible
      · rw [GameBoard.undo_open_go_cons_vis hu hv] at h
        intro x y hne
        by_cases hch : b'.get x y = (b.setVis q.1 q.2 .NotVisible).get x y
        · rw [GameBoard.get_setVis hu] at hch
          by_cases heq : x = q.1 ∧ y = q.2
          · obtain ⟨rfl, rfl⟩ := heq
            rw [if_pos ⟨rfl, rfl⟩] at hch
            refine ⟨List.mem_cons_self q rest, t.tile, ?_, ?_⟩
            · rw [hu]
              congr 1
              cases t
              simp at hv ⊢
              exact hv
            · rw [hch]
          · rw [if_neg heq] at hch
            rw [hch] at hne
            exact absurd rfl hne
        · obtain ⟨hmem, t', ht', ht''⟩ := ih _ _ _ h x y hch
          rw [GameBoard.get_setVis hu] at ht'
          by_cases heq : x = q.1 ∧ y = q.2
          · rw [if_pos heq] at ht'
            injection ht' with ht'
            exact absurd (congrArg BoardTile.visible ht').symm (by simp)
          · rw [if_neg heq] at ht'
            exact ⟨List.mem_cons_of_mem _ hmem, t', ht', ht''⟩
      · rw [GameBoard.undo_open_go_cons_notvis hu hv] at h
        have hb : b' = b := (congrArg Prod.fst h).symm
        intro x y hne
        rw [hb] at hne
        exact absurd rfl hne

/-- C5 counterexample: undoing an Open record listing an open cell before
a closed one closes the open cell and then fails, leaving the board in a
partially undone state (the claim requires the board to be unchanged on
failure). -/
theorem undo_open_partial_cex :
    (exHalfOpenRow.undo_move (.OpenCell [(0, 0), (1, 0)])).2 = .error .AlreadyClosed ∧
    (exHalfOpenRow.undo_move (.OpenCell [(0, 0), (1, 0)])).1 ≠ exHalfOpenRow ∧
    (exHalfOpenRow.undo_move (.OpenCell [(0, 0), (1, 0)])).1.visStateAt 0 0 =
      some .NotVisible ∧
    exHalfOpenRow.visStateAt 0 0 = some .Visible := by
  refine ⟨by decide, by decide, by decide, by decide⟩

/-- C5 (amended): undo_move on an Open record whose coordinates are all
currently open closes exactly those coordinates and nothing else (and
only then succeeds); if some listed coordinate is not open, the call
fails, but the coordinates processed before the failing one have already
been closed - every cell that changed is a listed cell that went from
open to closed, so the end state can be partially undone. -/
theorem undo_move_open_characterization (b b' : GameBoard) (cs : List (Nat × Nat)) :
    (b.undo_move (.OpenCell cs) = (b', .ok ()) →
      (∀ q ∈ cs, b.visStateAt q.1 q.2 = some .Visible) ∧
      (∀ q ∈ cs, b'.visStateAt q.1 q.2 = some .NotVisible) ∧
      (∀ x y, (∀ q ∈ cs, ¬(x = q.1 ∧ y = q.2)) → b'.get x y = b.get x y)) ∧
    (∀ e, b.undo_move (.OpenCell cs) = (b', .error e) →
      ∀ x y, b'.get x y ≠ b.get x y →
        (x, y) ∈ cs ∧ ∃ t, b.get x y = some ⟨t, .Visible⟩ ∧
          b'.get x y = some ⟨t, .NotVisible⟩) := by
  constructor
  · intro h
    exact GameBoard.undo_open_go_ok cs b b' h
  · intro e h
    exact GameBoard.undo_open_go_err cs b b' e h

/-- C5 witness: the characterization applied to a fully open 2x1 zero
row being undone. -/
theorem undo_move_open_characterization_witness :
    ((GameBoard.mk 0 2 1 [⟨.Zero, .Visible⟩, ⟨.Zero, .Visible⟩]).undo_move
        (.OpenCell [(0, 0), (1, 0)]) =
      ((GameBoard.mk 0 2 1 [⟨.Zero, .NotVisible⟩, ⟨.Zero, .NotVisible⟩]), .ok ()) ∧
      (GameBoard.mk 0 2 1 [⟨.Zero, .NotVisible⟩, ⟨.Zero, .NotVisible⟩]).visStateAt 0 0 =
        some .NotVisible) := by
  have h := (undo_move_open_characterization
    (GameBoard.mk 0 2 1 [⟨.Zero, .Visible⟩, ⟨.Zero, .Visible⟩])
    (GameBoard.mk 0 2 1 [⟨.Zero, .NotVisible⟩, ⟨.Zero, .NotVisible⟩])
    [(0, 0), (1, 0)]).1 (by decide)
  exact ⟨by decide, h.2.1 (0, 0) (by decide)⟩

/-! ### C4 and C10: chorded opening -/

theorem GameBoard.open_around_go_nil (b : GameBoard) (acc : List (Nat × Nat)) :
    GameBoard.open_around_go b [] acc = (b, .ok acc) := rfl

theorem GameBoard.open_around_go_cons_none {b : GameBoard} {q : Nat × Nat}
    {rest acc : List (Nat × Nat)} (hu : b.get q.1 q.2 = none) :
    GameBoard.open_around_go b (q :: rest) acc = GameBoard.open_around_go b rest acc := by
  simp [GameBoard.open_around_go, hu]

theorem GameBoard.open_around_go_cons_vis {b : GameBoard} {q : Nat × Nat}
    {rest acc : List (Nat × Nat)} {t : BoardTile} (hu : b.get q.1 q.2 = some t)
    (hv : t.visible = .Visible) :
    GameBoard.open_around_go b (q :: rest) acc = GameBoard.open_around_go b rest acc := by
  simp [GameBoard.open_around_go, hu, hv]

theorem GameBoard.open_around_go_cons_flag {b : GameBoard} {q : Nat × Nat}
    {rest acc : List (Nat × Nat)} {t : BoardTile} (hu : b.get q.1 q.2 = some t)
    (hv : t.visible = .Flagged) :
    GameBoard.open_around_go b (q :: rest) acc = GameBoard.open_around_go b rest acc := by
  simp [GameBoard.open_around_go, hu, hv]

theorem GameBoard.open_around_go_cons_bomb {b : GameBoard} {q : Nat × Nat}
    {rest acc : List (Nat × Nat)} {t : BoardTile} (hu : b.get q.1 q.2 = some t)
    (hv : t.visible = .NotVisible) (hb : t.tile.is_bomb = true) :
    GameBoard.open_around_go b (q :: rest) acc = (b, .error .BombHit) := by
  simp [GameBoard.open_around_go, hu, hv, hb]

theorem GameBoard.open_around_go_cons_open {b : GameBoard} {q : Nat × Nat}
    {rest acc : List (Nat × Nat)} {t : BoardTile} (hu : b.get q.1 q.2 = some t)
    (hv : t.visible = .NotVisible) (hb : t.tile.is_bomb = false) :
    GameBoard.open_around_go b (q :: rest) acc =
      GameBoard.open_around_go (b.setVis q.1 q.2 .Visible) rest (acc ++ [q]) := by
  simp [GameBoard.open_around_go, hu, hv, hb]

theorem GameBoard.open_around_go_changes :
    ∀ (l : List (Nat × Nat)) (b : GameBoard) (acc : List (Nat × Nat)) (x y : Nat),
      (GameBoard.open_around_go b l acc).1.get x y ≠ b.get x y →
      (x, y) ∈ l ∧ ∃ u, b.get x y = some ⟨u, .NotVisible⟩ ∧ u.is_bomb = false ∧
        (GameBoard.open_around_go b l acc).1.get x y = some ⟨u, .Visible⟩ := by
  intro l
  induction l with
  | nil =>
    intro b acc x y hne
    rw [GameBoard.open_around_go_nil] at hne
    exact absurd rfl hne
  | cons q rest ih =>
    intro b acc x y hne
    cases hu : b.get q.1 q.2 with
    | none =>
      rw [GameBoard.open_around_go_cons_none hu] at hne ⊢
      obtain ⟨hm, hrest⟩ := ih b acc x y hne
      exact ⟨List.mem_cons_of_mem _ hm, hrest⟩
    | some t =>
      cases hv : t.visible with
      | Visible =>
        rw [GameBoard.open_around_go_cons_vis hu hv] at hne ⊢
        obtain ⟨hm, hrest⟩ := ih b acc x y hne
        exact ⟨List.mem_cons_of_mem _ hm, hrest⟩
      | Flagged =>
        rw [GameBoard.open_around_go_cons_flag hu hv] at hne ⊢
        obtain ⟨hm, hrest⟩ := ih b acc x y hne
        exact ⟨List.mem_cons_of_mem _ hm, hrest⟩
      | NotVisible =>
        cases hb : t.tile.is_bomb with
        | true =>
          rw [GameBoard.open_around_go_cons_bomb hu hv hb] at hne
          exact absurd rfl hne
        | false =>
          rw [GameBoard.open_around_go_cons_open hu hv hb] at hne ⊢
          by_cases hch : (GameBoard.open_around_go (b.setVis q.1 q.2 .Visible) rest
              (acc ++ [q])).1.get x y = (b.setVis q.1 q.2 .Visible).get x y
          · rw [hch] at hne ⊢
            rw [GameBoard.get_setVis hu] at hne ⊢
            by_cases heq : x = q.1 ∧ y = q.2
            · obtain ⟨rfl, rfl⟩ := heq
              rw [if_pos ⟨rfl, rfl⟩]
              refine ⟨List.mem_cons_self q rest, t.tile, ?_, hb, rfl⟩
              rw [hu]
              obtain ⟨tt, tv⟩ := t
              simp only at hv ⊢
              rw [hv]
            · rw [if_neg heq] at hne
              exact absurd rfl hne
          · obtain ⟨hm, u, hu', hb', hg'⟩ := ih _ _ x y hch
            rw [GameBoard.get_setVis hu] at hu'
            by_cases heq : x = q.1 ∧ y = q.2
            · rw [if_pos heq] at hu'
              injection hu' with hu'
              exact absurd (congrArg BoardTile.visible hu').symm (by simp)
            · rw [if_neg heq] at hu'
              exact ⟨List.mem_cons_of_mem _ hm, u, hu', hb', hg'⟩

theorem GameBoard.open_around_go_err_bombhit :
    ∀ (l : List (Nat × Nat)) (b b' : GameBoard) (acc : List (Nat × Nat))
      (e : UnopenableError),
      GameBoard.open_around_go b l acc = (b', .error e) → e = .BombHit := by
  intro l
  induction l with
  | nil =>
    intro b b' acc e h
    rw [GameBoard.open_around_go_nil] at h
    exact absurd (congrArg Prod.snd h) (by simp)
  | cons q rest ih =>
    intro b b' acc e h
    cases hu : b.get q.1 q.2 with
    | none => exact ih b b' acc e (by rwa [GameBoard.open_around_go_cons_none hu] at h)
    | some t =>
      cases hv : t.visible with
      | Visible => exact ih b b' acc e (by rwa [GameBoard.open_around_go_cons_vis hu hv] at h)
      | Flagged => exact ih b b' acc e (by rwa [GameBoard.open_around_go_cons_flag hu hv] at h)
      | NotVisible =>
        cases hb : t.tile.is_bomb with
        | true =>
          rw [GameBoard.open_around_go_cons_bomb hu hv hb] at h
          have := congrArg Prod.snd h
          simp at this
          exact this.symm
        | false =>
          exact ih _ b' _ e (by rwa [GameBoard.open_around_go_cons_open hu hv hb] at h)

theorem GameBoard.floodSim_changes {b0 b : GameBoard} (hs : GameBoard.FloodSim b0 b)
    {x y : Nat} (hne : b.get x y ≠ b0.get x y) :
    ∃ u, b0.get x y = some ⟨u, .NotVisible⟩ ∧ b.get x y = some ⟨u, .Visible⟩ := by
  cases hu0 : b0.get x y with
  | none =>
    rw [(hs.get_none_iff x y).mpr hu0] at hne
    rw [hu0] at hne
    exact absurd rfl hne
  | some u0 =>
    cases hu : b.get x y with
    | none =>
      rw [(hs.get_none_iff x y).mp hu] at hu0
      exact absurd hu0 (by simp)
    | some u =>
      have htile : u.tile = u0.tile := by
        have := hs.tile_eq x y
        unfold GameBoard.tileAt at this
        rw [hu, hu0] at this
        simpa using this
      cases hv0 : u0.visible with
      | Visible =>
        have := hs.mono x y (by rw [GameBoard.visStateAt_of_get hu0, hv0])
        rw [GameBoard.visStateAt_of_get hu] at this
        injection this with this
        rw [hu, hu0] at hne
        obtain ⟨ut, uv⟩ := u
        obtain ⟨u0t, u0v⟩ := u0
        simp only at htile this hv0
        rw [htile, this, hv0] at hne
        exact absurd rfl hne
      | Flagged =>
        have := (hs.flag_eq x y).mpr (by rw [GameBoard.visStateAt_of_get hu0, hv0])
        rw [GameBoard.visStateAt_of_get hu] at this
        injection this with this
        rw [hu, hu0] at hne
        obtain ⟨ut, uv⟩ := u
        obtain ⟨u0t, u0v⟩ := u0
        simp only at htile this hv0
        rw [htile, this, hv0] at hne
        exact absurd rfl hne
      | NotVisible =>
        cases hv : u.visible with
        | NotVisible =>
          rw [hu, hu0] at hne
          obtain ⟨ut, uv⟩ := u
          obtain ⟨u0t, u0v⟩ := u0
          simp only at htile hv hv0
          rw [htile, hv, hv0] at hne
          exact absurd rfl hne
        | Flagged =>
          have := (hs.flag_eq x y).mp (by rw [GameBoard.visStateAt_of_get hu, hv])
          rw [GameBoard.visStateAt_of_get hu0, hv0] at this
          exact absurd this (by simp)
        | Visible =>
          obtain ⟨ut, uv⟩ := u
          obtain ⟨u0t, u0v⟩ := u0
          simp only at htile hv hv0
          subst htile
          subst hv
          subst hv0
          exact ⟨ut, rfl, rfl⟩

theorem Tile.as_count_some_nonbomb {t : Tile} {c : Nat} (h : t.as_count = some c) :
    t.is_bomb = false := by
  cases t <;> simp_all [Tile.as_count, Tile.is_bomb]

theorem GameBoard.open_around_oob {b : GameBoard} {x y : Nat}
    (hget : b.get x y = none) :
    b.open_around x y = (b, .error .OutOfBounds) := by
  simp [GameBoard.open_around, hget]

theorem GameBoard.open_around_bomb_target {b : GameBoard} {x y : Nat} {t : BoardTile}
    (hget : b.get x y = some t) (hc : t.tile.as_count = none) :
    b.open_around x y = (b, .error .BombHit) := by
  simp [GameBoard.open_around, hget, hc]

theorem GameBoard.open_around_mismatch {b : GameBoard} {x y : Nat} {t : BoardTile} {c : Nat}
    (hget : b.get x y = some t) (hc : t.tile.as_count = some c)
    (hne : (b.normalize_around_3x3 x y).countP
      (fun q => (b.getD q.1 q.2).visible = Visibility.Flagged) ≠ c) :
    b.open_around x y = (b, .error .FlagCountMismatch) := by
  simp [GameBoard.open_around, hget, hc, hne]

theorem GameBoard.open_around_proceed {b : GameBoard} {x y : Nat} {t : BoardTile} {c : Nat}
    (hget : b.get x y = some t) (hc : t.tile.as_count = some c)
    (heq : (b.normalize_around_3x3 x y).countP
      (fun q => (b.getD q.1 q.2).visible = Visibility.Flagged) = c) :
    b.open_around x y =
      (match b.open_around_go (b.normalize_around_3x3 x y) [] with
       | (gb', .error e) => (gb', .error e)
       | (gb', .ok opened) =>
         (gb'.open_visible.1, .ok (opened ++ gb'.open_visible.2))) := by
  simp [GameBoard.open_around, hget, hc, heq]

/-- C4 counterexample: chording (0,0) on a board where one neighbor is a
closed safe cell and the next is a closed bomb opens the safe neighbor
and then fails with BombHit, so the failed operation has changed a cell's
visibility (the claim requires that no visibility changes on any error). -/
theorem open_around_bombhit_mutates_cex :
    (exChordRow.open_around 0 0).2 = .error .BombHit ∧
    (exChordRow.open_around 0 0).1.visStateAt 0 1 = some .Visible ∧
    exChordRow.visStateAt 0 1 = some .NotVisible := by
  refine ⟨by decide, by decide, by decide⟩

/-- C4 (amended): when open_around fails with FlagCountMismatch or
OutOfBounds, or because the target itself is a mine, nothing has mutated;
but when an about-to-be-opened neighbor is a mine, the neighbors already
processed stay open: on any error, every changed cell is a previously
closed non-mine neighbor of the target that is now open. -/
theorem open_around_error_mutation (b : GameBoard) (x y : Nat) (b' : GameBoard)
    (e : UnopenableError) (h : b.open_around x y = (b', .error e)) :
    (e = .FlagCountMismatch ∨ e = .OutOfBounds → b' = b) ∧
    (∀ t, b.get x y = some t → t.tile.is_bomb = true → b' = b) ∧
    (∀ px py, b'.get px py ≠ b.get px py →
      (px, py) ∈ b.normalize_around_3x3 x y ∧
      ∃ u, b.get px py = some ⟨u, .NotVisible⟩ ∧ u.is_bomb = false ∧
        b'.get px py = some ⟨u, .Visible⟩) := by
  cases hget : b.get x y with
  | none =>
    rw [GameBoard.open_around_oob hget] at h
    have hb : b' = b := (congrArg Prod.fst h).symm
    refine ⟨fun _ => hb, fun _ _ _ => hb, fun px py hne => ?_⟩
    rw [hb] at hne
    exact absurd rfl hne
  | some t =>
    cases hcnt : t.tile.as_count with
    | none =>
      rw [GameBoard.open_around_bomb_target hget hcnt] at h
      have hb : b' = b := (congrArg Prod.fst h).symm
      refine ⟨fun _ => hb, fun _ _ _ => hb, fun px py hne => ?_⟩
      rw [hb] at hne
      exact absurd rfl hne
    | some c =>
      by_cases hmis : (b.normalize_around_3x3 x y).countP
          (fun q => (b.getD q.1 q.2).visible = Visibility.Flagged) = c
      · rw [GameBoard.open_around_proceed hget hcnt hmis] at h
        cases hgo : b.open_around_go (b.normalize_around_3x3 x y) [] with
        | mk gb' res =>
          cases res with
          | ok opened =>
            rw [hgo] at h
            exact absurd (congrArg Prod.snd h) (by simp)
          | error e' =>
            rw [hgo] at h
            have hb : b' = gb' := (congrArg Prod.fst h).symm
            have he : e = e' := by
              have := congrArg Prod.snd h
              simp at this
              exact this.symm
            have hbh : e' = .BombHit :=
              GameBoard.open_around_go_err_bombhit _ b gb' [] e' hgo
            refine ⟨?_, ?_, ?_⟩
            · intro hd
              exfalso
              rcases hd with rfl | rfl <;> simp [hbh] at he
            · intro t' ht' hbt
              injection ht' with ht'
              subst ht'
              rw [Tile.as_count_some_nonbomb hcnt] at hbt
              exact absurd hbt (by simp)
            · intro px py hne
              rw [hb] at hne ⊢
              have := GameBoard.open_around_go_changes
                (b.normalize_around_3x3 x y) b [] px py
              rw [hgo] at this
              exact this hne
      · rw [GameBoard.open_around_mismatch hget hcnt hmis] at h
        have hb : b' = b := (congrArg Prod.fst h).symm
        refine ⟨fun _ => hb, fun _ _ _ => hb, fun px py hne => ?_⟩
        rw [hb] at hne
        exact absurd rfl hne

/-- C4 witness: the characterization applied to the BombHit chord on the
2x2 example board. -/
theorem open_around_error_mutation_witness :
    ((UnopenableError.BombHit = .FlagCountMismatch ∨
        UnopenableError.BombHit = .OutOfBounds) →
      (exChordRow.open_around 0 0).1 = exChordRow) ∧
    (∀ t, exChordRow.get 0 0 = some t → t.tile.is_bomb = true →
      (exChordRow.open_around 0 0).1 = exChordRow) ∧
    (∀ px py, (exChordRow.open_around 0 0).1.get px py ≠ exChordRow.get px py →
      (px, py) ∈ exChordRow.normalize_around_3x3 0 0 ∧
      ∃ u, exChordRow.get px py = some ⟨u, .NotVisible⟩ ∧ u.is_bomb = false ∧
        (exChordRow.open_around 0 0).1.get px py = some ⟨u, .Visible⟩) :=
  open_around_error_mutation exChordRow 0 0 (exChordRow.open_around 0 0).1 .BombHit
    (by decide)

/-! ### C3: the reroute swap and the protected mine count -/

theorem list_getD_eq_get? (l : List Bool) (n : Nat) :
    l.getD n false = (l.get? n).getD false := by
  simp [List.getD_eq_getElem?_getD, List.get?_eq_getElem?]

theorem boolSwap_getD (l : List Bool) (i j m : Nat) (hi : i < l.length)
    (hj : j < l.length) :
    (boolSwap l i j).getD m false =
      if m = i then l.getD j false
      else if m = j then l.getD i false
      else l.getD m false := by
  unfold boolSwap
  rw [list_getD_eq_get?]
  by_cases hmj : m = j
  · subst hmj
    rw [List.get?_set_eq_of_lt _ (by simpa using hj)]
    by_cases hmi : m = i
    · rw [if_pos hmi, hmi]
      rfl
    · rw [if_neg hmi, if_pos rfl]
      rfl
  · rw [List.get?_set_ne _ _ (fun hc => hmj hc.symm)]
    by_cases hmi : m = i
    · subst hmi
      rw [List.get?_set_eq_of_lt _ hi, if_pos rfl]
      rfl
    · rw [List.get?_set_ne _ _ (fun hc => hmi hc.symm), if_neg hmi, if_neg hmj]
      rw [list_getD_eq_get?]

theorem countP_perm_cons {α : Type} [DecidableEq α] (l : List α) (a : α)
    (h : a ∈ l) : ∃ l1, List.Perm l (a :: l1) :=
  ⟨l.erase a, List.perm_cons_erase h⟩

/-- C3 counterexample: on the 5x5 board with clearing (2,2) and the one
mine sitting on the protected center cell, a reroute swap whose random
target is the protected cell (1,2) is a successful swap (the scanned
protected cell held a mine, the target index 11 is a legal gen_range
result), yet the number of mines inside the protected set is 1 both
before and after the swap - it does not strictly decrease. -/
theorem reroute_swap_not_strict_cex :
    exCenterBombArr.getD (flatten 5 (2, 2)) false = true ∧
    ((2 : Nat), (2 : Nat)) ∈ (GameBoard.blank_board 5 5 1).protectedList 2 2 ∧
    flatten 5 (1, 2) = 11 ∧
    ((1 : Nat), (2 : Nat)) ∈ (GameBoard.blank_board 5 5 1).protectedList 2 2 ∧
    (11 : Nat) < 25 ∧
    protMines 5 ((GameBoard.blank_board 5 5 1).protectedList 2 2) exCenterBombArr = 1 ∧
    protMines 5 ((GameBoard.blank_board 5 5 1).protectedList 2 2)
        (boolSwap exCenterBombArr (flatten 5 (2, 2)) 11) = 1 := by
  refine ⟨by decide, by decide, by decide, by decide, by decide, by decide, by decide⟩

/-- C3 (amended): a successful swap of a protected-cell mine never
increases the protected mine count, but it strictly decreases it only
when the random target is a non-mine cell outside the protected set;
a swap whose target is a protected cell, or an already-mined cell, leaves
the protected mine count unchanged, so the loop is not guaranteed to
terminate by a strict-decrease argument alone (termination holds only
with probability one over the rng stream). -/
theorem reroute_swap_characterization (width : Nat) (valid : List (Nat × Nat))
    (arr : List Bool) (p0 : Nat × Nat) (j : Nat)
    (hmem : p0 ∈ valid)
    (hnd : (valid.map (flatten width)).Nodup)
    (htrue : arr.getD (flatten width p0) false = true)
    (hilen : flatten width p0 < arr.length) (hjlen : j < arr.length) :
    ((∃ q ∈ valid, flatten width q = j) ∨ arr.getD j false = true →
      protMines width valid (boolSwap arr (flatten width p0) j) =
        protMines width valid arr) ∧
    (¬(∃ q ∈ valid, flatten width q = j) → arr.getD j false = false →
      protMines width valid (boolSwap arr (flatten width p0) j) + 1 =
        protMines width valid arr) := by
  have hinj := List.inj_on_of_nodup_map hnd
  have hvndp : valid.Nodup := List.Nodup.of_map _ hnd
  constructor
  · intro hcase
    by_cases hjt : arr.getD j false = true
    · -- target already holds a mine: the swap moves a true onto a true,
      -- every protected flat index keeps its value
      unfold protMines
      apply List.countP_congr
      intro q hq
      rw [boolSwap_getD _ _ _ _ hilen hjlen]
      by_cases h1 : flatten width q = flatten width p0
      · rw [if_pos h1, hjt, h1, htrue]
      · rw [if_neg h1]
        by_cases h2 : flatten width q = j
        · rw [if_pos h2, htrue, h2, hjt]
        · rw [if_neg h2]
    · -- the target is a protected non-mine cell: the mine moves from p0
      -- to that cell, the count is conserved
      have hjf : arr.getD j false = false := by
        cases h : arr.getD j false
        · rfl
        · exact absurd h hjt
      rcases hcase with ⟨q0, hq0mem, hq0j⟩ | hT
      swap
      · exact absurd hT hjt
      have hq0ne : q0 ≠ p0 := by
        intro hc
        subst hc
        rw [hq0j] at htrue
        rw [htrue] at hjf
        exact absurd hjf (by simp)
      have hij : flatten width p0 ≠ j := by
        intro hc
        exact hq0ne (hinj hq0mem hmem (hq0j.trans hc.symm))
      obtain ⟨l1, hperm1⟩ := countP_perm_cons valid p0 hmem
      have hq0l1 : q0 ∈ l1 := by
        have := hperm1.mem_iff.mp hq0mem
        rcases List.mem_cons.mp this with rfl | h
        · exact absurd rfl hq0ne
        · exact h
      obtain ⟨l2, hperm2⟩ := countP_perm_cons l1 q0 hq0l1
      have hperm : List.Perm valid (p0 :: q0 :: l2) :=
        hperm1.trans (List.Perm.cons p0 hperm2)
      have hndpq : (p0 :: q0 :: l2).Nodup := hperm.nodup_iff.mp hvndp
      have hrest : l2.countP
          (fun p => (boolSwap arr (flatten width p0) j).getD (flatten width p) false) =
        l2.countP (fun p => arr.getD (flatten width p) false) := by
        apply List.countP_congr
        intro r hr
        have hrv : r ∈ valid := hperm.mem_iff.mpr
          (List.mem_cons_of_mem _ (List.mem_cons_of_mem _ hr))
        have hrnp : r ≠ p0 := by
          intro hc
          subst hc
          exact (List.nodup_cons.mp hndpq).1 (List.mem_cons_of_mem _ hr)
        have hrnq : r ≠ q0 := by
          intro hc
          subst hc
          exact (List.nodup_cons.mp (List.nodup_cons.mp hndpq).2).1 hr
        rw [boolSwap_getD _ _ _ _ hilen hjlen]
        rw [if_neg (fun hc => hrnp (hinj hrv hmem hc))]
        rw [if_neg (fun hc => hrnq (hinj hrv hq0mem (hc.trans hq0j.symm)))]
      have hp0new : (boolSwap arr (flatten width p0) j).getD (flatten width p0) false
          = false := by
        rw [boolSwap_getD _ _ _ _ hilen hjlen, if_pos rfl, hjf]
      have hq0new : (boolSwap arr (flatten width p0) j).getD (flatten width q0) false
          = true := by
        rw [boolSwap_getD _ _ _ _ hilen hjlen]
        rw [if_neg (fun hc => hq0ne (hinj hq0mem hmem hc)), if_pos hq0j, htrue]
      have hq0old : arr.getD (flatten width q0) false = false := by
        rw [hq0j, hjf]
      unfold protMines
      rw [hperm.countP_eq, hperm.countP_eq, List.countP_cons, List.countP_cons,
        List.countP_cons, List.countP_cons, hrest, hp0new, hq0new, htrue, hq0old]
      simp
  · intro hnone hjf
    obtain ⟨l1, hperm1⟩ := countP_perm_cons valid p0 hmem
    have hnd1 : (p0 :: l1).Nodup := hperm1.nodup_iff.mp hvndp
    have hrest : l1.countP
        (fun p => (boolSwap arr (flatten width p0) j).getD (flatten width p) false) =
      l1.countP (fun p => arr.getD (flatten width p) false) := by
      apply List.countP_congr
      intro r hr
      have hrv : r ∈ valid := hperm1.mem_iff.mpr (List.mem_cons_of_mem _ hr)
      have hrnp : r ≠ p0 := by
        intro hc
        subst hc
        exact (List.nodup_cons.mp hnd1).1 hr
      rw [boolSwap_getD _ _ _ _ hilen hjlen]
      rw [if_neg (fun hc => hrnp (hinj hrv hmem hc))]
      rw [if_neg (fun hc => hnone ⟨r, hrv, hc⟩)]
    have hp0new : (boolSwap arr (flatten width p0) j).getD (flatten width p0) false
        = false := by
      rw [boolSwap_getD _ _ _ _ hilen hjlen, if_pos rfl, hjf]
    unfold protMines
    rw [hperm1.countP_eq, hperm1.countP_eq, List.countP_cons, List.countP_cons,
      hrest, hp0new, htrue]
    simp

/-- C3 witness: the characterization applied to the concrete 5x5 swap of
the center mine onto the protected cell (1,2). -/
theorem reroute_swap_characterization_witness :
    protMines 5 ((GameBoard.blank_board 5 5 1).protectedList 2 2)
        (boolSwap exCenterBombArr (flatten 5 (2, 2)) 11) =
      protMines 5 ((GameBoard.blank_board 5 5 1).protectedList 2 2) exCenterBombArr :=
  (reroute_swap_characterization 5 ((GameBoard.blank_board 5 5 1).protectedList 2 2)
    exCenterBombArr (2, 2) 11 (by decide) (by decide) (by decide) (by decide)
    (by decide)).1 (Or.inl ⟨(1, 2), by decide, by decide⟩)

/-! ### C9: input-event dispatch across board variants -/

/-- C9 counterexample: a primary click on a flagged cell is silently
ignored (Ok, no change) by the generic dispatcher used by the plain
engine and the deferred board, but the logged variant rejects the same
input with a FlaggedTile error - the variants do not implement identical
dispatch semantics. -/
theorem do_event_variants_cex :
    BaseGameBoard_do_event exFlagCell (.Mouse1 0 0) = (exFlagCell, .ok ()) ∧
    (LoggedGameBoard.do_event ⟨exFlagCell, []⟩ (.Mouse1 0 0)).2 =
      .error .FlaggedTile ∧
    BaseGameBoard_do_event exOpenCell (.Mouse2 0 0) = (exOpenCell, .ok ()) ∧
    (LoggedGameBoard.do_event ⟨exOpenCell, []⟩ (.Mouse2 0 0)).2 =
      .error .AlreadyOpen := by
  refine ⟨by decide, by decide, by decide, by decide⟩

/-- C9 (amended): the plain engine's dispatcher and the deferred board
(both in its initialized state, which delegates to that dispatcher, and
in its pending state, which never reports a flagged or open tile) ignore
a primary action on a flagged cell and a secondary action on an open cell
- Ok with no state change; the logged variant deviates: it returns
FlaggedTile respectively AlreadyOpen for those inputs, also without
changing the board or appending to the log. -/
theorem do_event_dispatch_variants (b : GameBoard) (L : List KeyEventEffect)
    (x y : Nat) (arr : List Bool) (rng : Nat → Nat) (fuel : Nat) :
    (b.get_board_tile x y = some .Flagged →
      BaseGameBoard_do_event b (.Mouse1 x y) = (b, .ok ()) ∧
      LazyGameBoard.do_event (.Init b) (.Mouse1 x y) arr rng fuel =
        some (.Init b, .ok ()) ∧
      (LoggedGameBoard.do_event ⟨b, L⟩ (.Mouse1 x y)).1.board = b ∧
      (LoggedGameBoard.do_event ⟨b, L⟩ (.Mouse1 x y)).1.events = L ∧
      (LoggedGameBoard.do_event ⟨b, L⟩ (.Mouse1 x y)).2 = .error .FlaggedTile) ∧
    (∀ t, b.get_board_tile x y = some (.Visible t) →
      BaseGameBoard_do_event b (.Mouse2 x y) = (b, .ok ()) ∧
      LazyGameBoard.do_event (.Init b) (.Mouse2 x y) arr rng fuel =
        some (.Init b, .ok ()) ∧
      (LoggedGameBoard.do_event ⟨b, L⟩ (.Mouse2 x y)).1.board = b ∧
      (LoggedGameBoard.do_event ⟨b, L⟩ (.Mouse2 x y)).1.events = L ∧
      (LoggedGameBoard.do_event ⟨b, L⟩ (.Mouse2 x y)).2 = .error .AlreadyOpen) ∧
    (∀ ux uy ubombs : Nat,
      LazyGameBoard.get_board_tile (.Uninit ux uy ubombs) x y ≠ some .Flagged ∧
      ∀ t, LazyGameBoard.get_board_tile (.Uninit ux uy ubombs) x y ≠
        some (.Visible t)) := by
  refine ⟨?_, ?_, ?_⟩
  · intro hflag
    have h1 : BaseGameBoard_do_event b (.Mouse1 x y) = (b, .ok ()) := by
      simp [BaseGameBoard_do_event, hflag]
    refine ⟨h1, ?_, ?_, ?_, ?_⟩
    · simp [LazyGameBoard.do_event, h1]
    · simp [LoggedGameBoard.do_event, hflag]
    · simp [LoggedGameBoard.do_event, hflag]
    · simp [LoggedGameBoard.do_event, hflag]
  · intro t hvis
    have h1 : BaseGameBoard_do_event b (.Mouse2 x y) = (b, .ok ()) := by
      simp [BaseGameBoard_do_event, hvis]
    refine ⟨h1, ?_, ?_, ?_, ?_⟩
    · simp [LazyGameBoard.do_event, h1]
    · simp [LoggedGameBoard.do_event, hvis]
    · simp [LoggedGameBoard.do_event, hvis]
    · simp [LoggedGameBoard.do_event, hvis]
  · intro ux uy ubombs
    constructor
    · simp only [LazyGameBoard.get_board_tile]
      split <;> simp
    · intro t
      simp only [LazyGameBoard.get_board_tile]
      split <;> simp

/-- C9 witness: the dispatch contrast applied to the one-cell flagged
board. -/
theorem do_event_dispatch_variants_witness :
    BaseGameBoard_do_event exFlagCell (.Mouse1 0 0) = (exFlagCell, .ok ()) ∧
    (LoggedGameBoard.do_event ⟨exFlagCell, []⟩ (.Mouse1 0 0)).2 =
      .error .FlaggedTile := by
  have h := (do_event_dispatch_variants exFlagCell [] 0 0 [] (fun _ => 0) 1).1
    (by decide)
  exact ⟨h.1, h.2.2.2.2⟩

/-! ### C8: the deferred board's first move -/

theorem GameBoard.get_none_of_oob {b : GameBoard} {px py : Nat}
    (h : ¬(px < b.width ∧ py < b.height)) : b.get px py = none := by
  unfold GameBoard.get
  rw [if_neg (fun hc => h ⟨hc.2, hc.1⟩)]

theorem GameBoard.open_tile_oob {b : GameBoard} {px py : Nat}
    (h : b.get px py = none) : b.open_tile px py = (b, .error .OutOfBounds) := by
  simp [GameBoard.open_tile, h]

theorem GameBoard.flag_tile_oob {b : GameBoard} {px py : Nat}
    (h : b.get px py = none) : b.flag_tile px py = (b, .error .OutOfBounds) := by
  simp [GameBoard.flag_tile, h]

theorem LazyGameBoard.lazy_call_uninit_oob {α : Type}
    {f : GameBoard → Nat → Nat → GameBoard × Except UnopenableError α}
    {x y bombs px py : Nat} {arr : List Bool} {rng : Nat → Nat} {fuel : Nat}
    (h : ¬(px < x ∧ py < y)) :
    LazyGameBoard.lazy_call f (.Uninit x y bombs) px py arr rng fuel =
      some (.Uninit x y bombs, .error .OutOfBounds) := by
  simp [LazyGameBoard.lazy_call, LazyGameBoard.get_board_tile, h]

theorem LazyGameBoard.lazy_call_uninit_delegate {α : Type}
    {f : GameBoard → Nat → Nat → GameBoard × Except UnopenableError α}
    {x y bombs px py : Nat} {arr : List Bool} {rng : Nat → Nat} {fuel : Nat}
    {b : GameBoard} (hin : px < x ∧ py < y)
    (hwc : GameBoard.with_clearing x y bombs px py arr rng fuel = some (.ok b)) :
    LazyGameBoard.lazy_call f (.Uninit x y bombs) px py arr rng fuel =
      some (.Init (f b px py).1, (f b px py).2) := by
  simp [LazyGameBoard.lazy_call, LazyGameBoard.get_board_tile, hin, hwc]

theorem LazyGameBoard.lazy_call_uninit_panic {α : Type}
    {f : GameBoard → Nat → Nat → GameBoard × Except UnopenableError α}
    {x y bombs px py : Nat} {arr : List Bool} {rng : Nat → Nat} {fuel : Nat}
    {e : NewBoardError} (hin : px < x ∧ py < y)
    (hwc : GameBoard.with_clearing x y bombs px py arr rng fuel = some (.error e)) :
    LazyGameBoard.lazy_call f (.Uninit x y bombs) px py arr rng fuel = none := by
  simp [LazyGameBoard.lazy_call, LazyGameBoard.get_board_tile, hin, hwc]

/-- C8 counterexample: new_uninit accepts a 3x3 board with 9 bombs (its
validation runs without the clearing rule), but the first in-bounds move
does not construct-and-delegate as the claim states: with_clearing fails
the clearing check and the lazy_call macro unwraps that error - the
process panics (modelled as none) instead of the pending board turning
into an initialized one. -/
theorem lazy_unwrap_panic_cex :
    LazyGameBoard.new_uninit 3 3 9 = .ok (.Uninit 3 3 9) ∧
    LazyGameBoard.open_tile (.Uninit 3 3 9) 1 1 (List.replicate 9 true)
      (fun _ => 0) 1 = none := by
  refine ⟨by decide, by decide⟩

/-- C8 (amended): on a pending deferred board, every mutating call with
out-of-bounds coordinates fails with the same OutOfBounds error an
initialized board of those dimensions returns, leaving the state pending;
an in-bounds first call constructs the real board with that coordinate as
the clearing origin, stores it and delegates - but only provided that
construction succeeds (area - mine_count at least 9, converging reroute):
otherwise the construction error is unwrapped and the process panics
rather than returning the error. -/
theorem lazy_first_move_characterization (x y bombs px py : Nat) (arr : List Bool)
    (rng : Nat → Nat) (fuel : Nat) :
    (¬(px < x ∧ py < y) →
      LazyGameBoard.open_tile (.Uninit x y bombs) px py arr rng fuel =
        some (.Uninit x y bombs, .error .OutOfBounds) ∧
      LazyGameBoard.open_around (.Uninit x y bombs) px py arr rng fuel =
        some (.Uninit x y bombs, .error .OutOfBounds) ∧
      LazyGameBoard.flag_tile (.Uninit x y bombs) px py arr rng fuel =
        some (.Uninit x y bombs, .error .OutOfBounds) ∧
      (∀ b : GameBoard, b.width = x → b.height = y →
        b.open_tile px py = (b, .error .OutOfBounds) ∧
        b.open_around px py = (b, .error .OutOfBounds) ∧
        b.flag_tile px py = (b, .error .OutOfBounds))) ∧
    (px < x ∧ py < y → ∀ b : GameBoard,
      GameBoard.with_clearing x y bombs px py arr rng fuel = some (.ok b) →
        LazyGameBoard.open_tile (.Uninit x y bombs) px py arr rng fuel =
          some (.Init (b.open_tile px py).1, (b.open_tile px py).2) ∧
        LazyGameBoard.open_around (.Uninit x y bombs) px py arr rng fuel =
          some (.Init (b.open_around px py).1, (b.open_around px py).2) ∧
        LazyGameBoard.flag_tile (.Uninit x y bombs) px py arr rng fuel =
          some (.Init (b.flag_tile px py).1, (b.flag_tile px py).2)) ∧
    (px < x ∧ py < y → ∀ e : NewBoardError,
      GameBoard.with_clearing x y bombs px py arr rng fuel = some (.error e) →
        LazyGameBoard.open_tile (.Uninit x y bombs) px py arr rng fuel = none ∧
        LazyGameBoard.open_around (.Uninit x y bombs) px py arr rng fuel = none ∧
        LazyGameBoard.flag_tile (.Uninit x y bombs) px py arr rng fuel = none) := by
  refine ⟨?_, ?_, ?_⟩
  · intro hob
    refine ⟨LazyGameBoard.lazy_call_uninit_oob hob,
      LazyGameBoard.lazy_call_uninit_oob hob,
      LazyGameBoard.lazy_call_uninit_oob hob, ?_⟩
    intro b hw hh
    have hget : b.get px py = none := by
      apply GameBoard.get_none_of_oob
      rw [hw, hh]
      exact hob
    exact ⟨GameBoard.open_tile_oob hget, GameBoard.open_around_oob hget,
      GameBoard.flag_tile_oob hget⟩
  · intro hin b hwc
    exact ⟨LazyGameBoard.lazy_call_uninit_delegate hin hwc,
      LazyGameBoard.lazy_call_uninit_delegate hin hwc,
      LazyGameBoard.lazy_call_uninit_delegate hin hwc⟩
  · intro hin e hwc
    exact ⟨LazyGameBoard.lazy_call_uninit_panic hin hwc,
      LazyGameBoard.lazy_call_uninit_panic hin hwc,
      LazyGameBoard.lazy_call_uninit_panic hin hwc⟩

/-- C8 witness: the characterization applied to an out-of-bounds first
move on a pending 3x3 board. -/
theorem lazy_first_move_characterization_witness :
    LazyGameBoard.open_tile (.Uninit 3 3 9) 5 5 [] (fun _ => 0) 1 =
      some (.Uninit 3 3 9, .error .OutOfBounds) :=
  ((lazy_first_move_characterization 3 3 9 5 5 [] (fun _ => 0) 1).1
    (by decide)).1

/-! ### C10: chording a closed target -/

theorem GameBoard.open_around_go_shape :
    ∀ (l : List (Nat × Nat)) (b : GameBoard) (acc : List (Nat × Nat)),
      (GameBoard.open_around_go b l acc).1.width = b.width ∧
      (GameBoard.open_around_go b l acc).1.height = b.height ∧
      (GameBoard.open_around_go b l acc).1.cells.length = b.cells.length := by
  intro l
  induction l with
  | nil => intro b acc; rw [GameBoard.open_around_go_nil]; exact ⟨rfl, rfl, rfl⟩
  | cons q rest ih =>
    intro b acc
    cases hu : b.get q.1 q.2 with
    | none => rw [GameBoard.open_around_go_cons_none hu]; exact ih b acc
    | some t =>
      cases hv : t.visible with
      | Visible => rw [GameBoard.open_around_go_cons_vis hu hv]; exact ih b acc
      | Flagged => rw [GameBoard.open_around_go_cons_flag hu hv]; exact ih b acc
      | NotVisible =>
        cases hb : t.tile.is_bomb with
        | true =>
          rw [GameBoard.open_around_go_cons_bomb hu hv hb]
          exact ⟨rfl, rfl, rfl⟩
        | false =>
          rw [GameBoard.open_around_go_cons_open hu hv hb]
          obtain ⟨h1, h2, h3⟩ := ih (b.setVis q.1 q.2 .Visible) (acc ++ [q])
          rw [h1, h2, h3]
          exact ⟨GameBoard.setVis_width b q.1 q.2 _,
            GameBoard.setVis_height b q.1 q.2 _,
            GameBoard.setVis_length b q.1 q.2 _⟩

theorem GameBoard.open_around_go_mono_visible {l : List (Nat × Nat)} {b : GameBoard}
    {acc : List (Nat × Nat)} {x y : Nat} (h : b.visStateAt x y = some .Visible) :
    (GameBoard.open_around_go b l acc).1.visStateAt x y = some .Visible := by
  by_cases hch : (GameBoard.open_around_go b l acc).1.get x y = b.get x y
  · unfold GameBoard.visStateAt at h ⊢
    rw [hch]
    exact h
  · obtain ⟨_, u, _, _, hg⟩ := GameBoard.open_around_go_changes l b acc x y hch
    rw [GameBoard.visStateAt_of_get hg]

theorem GameBoard.open_around_go_safe :
    ∀ (l : List (Nat × Nat)) (b : GameBoard) (acc : List (Nat × Nat)),
      (∀ q ∈ l, ∀ u, b.get q.1 q.2 = some u → u.visible = .NotVisible →
        u.tile.is_bomb = false) →
      ∃ b2 opened2, GameBoard.open_around_go b l acc = (b2, .ok opened2) ∧
        (∀ q ∈ l, ∀ u, b.get q.1 q.2 = some u → u.visible = .NotVisible →
          b2.visStateAt q.1 q.2 = some .Visible) := by
  intro l
  induction l with
  | nil =>
    intro b acc _
    exact ⟨b, acc, GameBoard.open_around_go_nil b acc, by simp⟩
  | cons q rest ih =>
    intro b acc hsafe
    cases hu : b.get q.1 q.2 with
    | none =>
      obtain ⟨b2, o2, hgo, hop⟩ := ih b acc
        (fun q' hq' => hsafe q' (List.mem_cons_of_mem _ hq'))
      refine ⟨b2, o2, by rwa [GameBoard.open_around_go_cons_none hu], ?_⟩
      intro q' hq' u hu' hv'
      rcases List.mem_cons.mp hq' with rfl | hq'
      · rw [hu] at hu'
        exact absurd hu' (by simp)
      · exact hop q' hq' u hu' hv'
    | some t =>
      cases hv : t.visible with
      | Visible =>
        obtain ⟨b2, o2, hgo, hop⟩ := ih b acc
          (fun q' hq' => hsafe q' (List.mem_cons_of_mem _ hq'))
        refine ⟨b2, o2, by rwa [GameBoard.open_around_go_cons_vis hu hv], ?_⟩
        intro q' hq' u hu' hv'
        rcases List.mem_cons.mp hq' with rfl | hq'
        · rw [hu] at hu'
          injection hu' with hu'
          rw [← hu', hv] at hv'
          exact absurd hv' (by simp)
        · exact hop q' hq' u hu' hv'
      | Flagged =>
        obtain ⟨b2, o2, hgo, hop⟩ := ih b acc
          (fun q' hq' => hsafe q' (List.mem_cons_of_mem _ hq'))
        refine ⟨b2, o2, by rwa [GameBoard.open_around_go_cons_flag hu hv], ?_⟩
        intro q' hq' u hu' hv'
        rcases List.mem_cons.mp hq' with rfl | hq'
        · rw [hu] at hu'
          injection hu' with hu'
          rw [← hu', hv] at hv'
          exact absurd hv' (by simp)
        · exact hop q' hq' u hu' hv'
      | NotVisible =>
        have hb : t.tile.is_bomb = false :=
          hsafe q (List.mem_cons_self q rest) t hu hv
        have hsafe' : ∀ q' ∈ rest, ∀ u,
            (b.setVis q.1 q.2 .Visible).get q'.1 q'.2 = some u →
            u.visible = .NotVisible → u.tile.is_bomb = false := by
          intro q' hq' u hu' hv'
          rw [GameBoard.get_setVis hu] at hu'
          by_cases heq : q'.1 = q.1 ∧ q'.2 = q.2
          · rw [if_pos heq] at hu'
            injection hu' with hu'
            rw [← hu'] at hv'
            exact absurd hv' (by simp)
          · rw [if_neg heq] at hu'
            exact hsafe q' (List.mem_cons_of_mem _ hq') u hu' hv'
        obtain ⟨b2, o2, hgo, hop⟩ := ih (b.setVis q.1 q.2 .Visible) (acc ++ [q]) hsafe'
        refine ⟨b2, o2, by rwa [GameBoard.open_around_go_cons_open hu hv hb], ?_⟩
        intro q' hq' u hu' hv'
        rcases List.mem_cons.mp hq' with rfl | hq'
        · have hb1 : (b.setVis q'.1 q'.2 .Visible).visStateAt q'.1 q'.2 =
              some .Visible := by
            rw [GameBoard.visStateAt_setVis hu, if_pos ⟨rfl, rfl⟩]
          have := @GameBoard.open_around_go_mono_visible rest
            (b.setVis q'.1 q'.2 .Visible) (acc ++ [q']) q'.1 q'.2 hb1
          rwa [hgo] at this
        · by_cases heq : q'.1 = q.1 ∧ q'.2 = q.2
          · have hb1 : (b.setVis q.1 q.2 .Visible).visStateAt q'.1 q'.2 =
                some .Visible := by
              rw [GameBoard.visStateAt_setVis hu, if_pos heq]
            have := @GameBoard.open_around_go_mono_visible rest
              (b.setVis q.1 q.2 .Visible) (acc ++ [q]) q'.1 q'.2 hb1
            rwa [hgo] at this
          · apply hop q' hq' u _ hv'
            rw [GameBoard.get_setVis hu, if_neg heq]
            exact hu'

/-- C10 counterexample: a closed, non-mine, flag-count-matching target in
bounds does not make open_around succeed: with an unflagged closed bomb
neighbor the chord aborts with BombHit, so the claim's success assertion
fails. -/
theorem open_around_closed_target_cex :
    exChordClosed.get 0 0 = some ⟨.One, .NotVisible⟩ ∧
    Tile.as_count .One = some 1 ∧
    (exChordClosed.normalize_around_3x3 0 0).countP
      (fun q => (exChordClosed.getD q.1 q.2).visible = Visibility.Flagged) = 1 ∧
    (exChordClosed.open_around 0 0).2 = .error .BombHit := by
  refine ⟨by decide, by decide, by decide, by decide⟩

/-- C10 (amended): open_around never inspects the target's own
visibility: for a closed or even flagged target whose displayed value
matches the flagged-neighbor count and is not a mine, and whose closed
unflagged neighbors are all non-mines, the chord succeeds, opens every
closed unflagged neighbor, and leaves a flagged target flagged; a closed
target itself becomes open only when the flood fill reaches it through an
adjacent open zero cell. -/
theorem open_around_closed_target (b : GameBoard) (x y : Nat) (t : BoardTile)
    (hwf : b.WF) (ht : b.get x y = some t) (htv : t.visible ≠ .Visible)
    (c : Nat) (hcount : t.tile.as_count = some c)
    (hflags : (b.normalize_around_3x3 x y).countP
      (fun q => (b.getD q.1 q.2).visible = Visibility.Flagged) = c)
    (hsafe : ∀ q ∈ b.normalize_around_3x3 x y, ∀ u, b.get q.1 q.2 = some u →
      u.visible = .NotVisible → u.tile.is_bomb = false) :
    ∃ b' opened, b.open_around x y = (b', .ok opened) ∧
      (∀ q ∈ b.normalize_around_3x3 x y, ∀ u, b.get q.1 q.2 = some u →
        u.visible = .NotVisible → b'.visStateAt q.1 q.2 = some .Visible) ∧
      (t.visible = .Flagged → b'.visStateAt x y = some .Flagged) ∧
      (t.visible = .NotVisible → b'.visStateAt x y = some .Visible →
        ∃ p, b'.Adj p (x, y) ∧ b'.visStateAt p.1 p.2 = some .Visible ∧
          b'.tileAt p.1 p.2 = some .Zero) := by
  obtain ⟨b2, o2, hgo, hop⟩ :=
    GameBoard.open_around_go_safe (b.normalize_around_3x3 x y) b [] hsafe
  have hres : b.open_around x y =
      (b2.open_visible.1, .ok (o2 ++ b2.open_visible.2)) := by
    rw [GameBoard.open_around_proceed ht hcount hflags, hgo]
  have hsim := GameBoard.open_visible_sim b2
  have hfix := GameBoard.open_visible_fix b2
  have hshape := GameBoard.open_around_go_shape (b.normalize_around_3x3 x y) b []
  rw [hgo] at hshape
  have hwf2 : b2.WF := by
    unfold GameBoard.WF at hwf ⊢
    rw [hshape.1, hshape.2.1, hshape.2.2]
    exact hwf
  have htgt2 : b2.get x y = b.get x y := by
    by_cases hch : b2.get x y = b.get x y
    · exact hch
    · exfalso
      have := GameBoard.open_around_go_changes (b.normalize_around_3x3 x y) b [] x y
      rw [hgo] at this
      obtain ⟨hmem, _⟩ := this hch
      rw [GameBoard.mem_normalize_iff] at hmem
      exact hmem.2.2.2.2.2.2 ⟨rfl, rfl⟩
  refine ⟨b2.open_visible.1, o2 ++ b2.open_visible.2, hres, ?_, ?_, ?_⟩
  · intro q hq u hu hv
    exact hsim.mono q.1 q.2 (hop q hq u hu hv)
  · intro hf
    apply (hsim.flag_eq x y).mpr
    unfold GameBoard.visStateAt
    rw [htgt2, ht]
    simp [hf]
  · intro hnv hvis
    rcases hsim.sound x y hvis with h2 | ⟨_, p, hzr, hadj⟩
    · exfalso
      unfold GameBoard.visStateAt at h2
      rw [htgt2, ht] at h2
      simp [hnv] at h2
    · obtain ⟨hpvis, hpz⟩ := GameBoard.floodfix_zreach_open hsim hfix hwf2 hzr
      refine ⟨p, ?_, hpvis, ?_⟩
      · unfold GameBoard.Adj at hadj ⊢
        rwa [GameBoard.normalize_congr hsim.width_eq hsim.height_eq]
      · rw [hsim.tile_eq]
        exact hpz

/-- C10 witness: chording the closed corner of an all-zero closed 3x3
board succeeds. -/
theorem open_around_closed_target_witness :
    ∃ b' opened, (GameBoard.blank_board 3 3 0).open_around 0 0 = (b', .ok opened) ∧
      (∀ q ∈ (GameBoard.blank_board 3 3 0).normalize_around_3x3 0 0, ∀ u,
        (GameBoard.blank_board 3 3 0).get q.1 q.2 = some u →
        u.visible = .NotVisible → b'.visStateAt q.1 q.2 = some .Visible) ∧
      ((BoardTile.mk .Zero .NotVisible).visible = .Flagged →
        b'.visStateAt 0 0 = some .Flagged) ∧
      ((BoardTile.mk .Zero .NotVisible).visible = .NotVisible →
        b'.visStateAt 0 0 = some .Visible →
        ∃ p, b'.Adj p (0, 0) ∧ b'.visStateAt p.1 p.2 = some .Visible ∧
          b'.tileAt p.1 p.2 = some .Zero) :=
  open_around_closed_target (GameBoard.blank_board 3 3 0) 0 0 ⟨.Zero, .NotVisible⟩
    (by decide) (by decide) (by decide) 0 (by decide) (by decide)
    (by decide)

/-! ### C2: flood fill opens exactly the reachable zero region -/

theorem GameBoard.open_tile_opens {b : GameBoard} {x y : Nat} {t : BoardTile}
    (ht : b.get x y = some t) (hv : t.visible = .NotVisible)
    (hb : t.tile.is_bomb = false) :
    b.open_tile x y =
      ((b.setVis x y .Visible).open_visible.1,
        .ok ((b.setVis x y .Visible).open_visible.2 ++ [(x, y)])) := by
  simp [GameBoard.open_tile, ht, hv, hb]

/-- C2 counterexample: on a 1x3 all-zero row whose middle cell is
flagged, opening the zero cell (0,0) opens only (0,0): the flagged cell
(1,0) belongs to the connected zero region (it is zero and adjacent) yet
stays flagged, and (2,0) in the same region stays closed - the flood fill
does not open the entire connected zero-region. -/
theorem open_zero_flagged_blocks_cex :
    exFlagRow.tileAt 0 0 = some .Zero ∧
    exFlagRow.tileAt 1 0 = some .Zero ∧
    exFlagRow.tileAt 2 0 = some .Zero ∧
    exFlagRow.Adj (0, 0) (1, 0) ∧
    exFlagRow.Adj (1, 0) (2, 0) ∧
    (exFlagRow.open_tile 0 0).2 = .ok [(0, 0)] ∧
    (exFlagRow.open_tile 0 0).1.visStateAt 1 0 = some .Flagged ∧
    (exFlagRow.open_tile 0 0).1.visStateAt 2 0 = some .NotVisible := by
  refine ⟨by decide, by decide, by decide, by decide, by decide, by decide,
    by decide, by decide⟩

/-- C2 (amended): opening a closed zero cell opens exactly the cells
reachable by the flood fill with flags blocking: starting from the board
with the clicked cell opened, a cell ends up open iff it was already open
or it is a closed cell adjacent to a zero cell reachable from some open
zero cell through closed (unflagged) zero cells; flagged cells are never
opened, block propagation, keep their flags, and no tile value changes. -/
theorem open_zero_flood_exact (b : GameBoard) (x y : Nat) (t : BoardTile)
    (hwf : b.WF) (ht : b.get x y = some t) (hv : t.visible = .NotVisible)
    (hz : t.tile = .Zero) (b' : GameBoard) (opened : List (Nat × Nat))
    (hres : b.open_tile x y = (b', .ok opened)) :
    (∀ px py, b'.visStateAt px py = some .Visible ↔
      ((b.setVis x y .Visible).visStateAt px py = some .Visible ∨
        ((b.setVis x y .Visible).visStateAt px py = some .NotVisible ∧
          ∃ p, GameBoard.ZReach (b.setVis x y .Visible) p ∧
            (b.setVis x y .Visible).Adj p (px, py)))) ∧
    (∀ px py, b'.visStateAt px py = some .Flagged ↔
      b.visStateAt px py = some .Flagged) ∧
    (∀ px py, b'.tileAt px py = b.tileAt px py) := by
  have hb : t.tile.is_bomb = false := by rw [hz]; rfl
  rw [GameBoard.open_tile_opens ht hv hb] at hres
  have hb' : b' = (b.setVis x y .Visible).open_visible.1 :=
    (congrArg Prod.fst hres).symm
  subst hb'
  have hwf1 : (b.setVis x y .Visible).WF := by
    unfold GameBoard.WF at hwf ⊢
    rw [GameBoard.setVis_length, GameBoard.setVis_width, GameBoard.setVis_height]
    exact hwf
  have hsim := GameBoard.open_visible_sim (b.setVis x y .Visible)
  refine ⟨?_, ?_, ?_⟩
  · intro px py
    exact GameBoard.open_visible_exact hwf1 px py
  · intro px py
    rw [hsim.flag_eq px py, GameBoard.visStateAt_setVis ht]
    by_cases heq : px = x ∧ py = y
    · rw [if_pos heq]
      obtain ⟨rfl, rfl⟩ := heq
      rw [GameBoard.visStateAt_of_get ht, hv]
      constructor
      · intro h
        exact absurd h (by simp)
      · intro h
        exact absurd h (by simp)
    · rw [if_neg heq]
  · intro px py
    rw [hsim.tile_eq px py, GameBoard.tileAt_setVis ht]

/-- C2 witness: the exact characterization applied to opening the corner
of a flagless 3x1 zero row, which floods the whole row open. -/
theorem open_zero_flood_exact_witness :
    (∀ px py,
      ((GameBoard.blank_board 3 1 0).open_tile 0 0).1.visStateAt px py =
          some .Visible ↔
        (((GameBoard.blank_board 3 1 0).setVis 0 0 .Visible).visStateAt px py =
            some .Visible ∨
          (((GameBoard.blank_board 3 1 0).setVis 0 0 .Visible).visStateAt px py =
              some .NotVisible ∧
            ∃ p, GameBoard.ZReach ((GameBoard.blank_board 3 1 0).setVis 0 0 .Visible) p ∧
              ((GameBoard.blank_board 3 1 0).setVis 0 0 .Visible).Adj p (px, py)))) ∧
    (∀ px py,
      ((GameBoard.blank_board 3 1 0).open_tile 0 0).1.visStateAt px py =
          some .Flagged ↔
        (GameBoard.blank_board 3 1 0).visStateAt px py = some .Flagged) ∧
    (∀ px py,
      ((GameBoard.blank_board 3 1 0).open_tile 0 0).1.tileAt px py =
        (GameBoard.blank_board 3 1 0).tileAt px py) :=
  open_zero_flood_exact (GameBoard.blank_board 3 1 0) 0 0 ⟨.Zero, .NotVisible⟩
    (by decide) (by decide) (by decide) (by decide)
    ((GameBoard.blank_board 3 1 0).open_tile 0 0).1
    (((GameBoard.blank_board 3 1 0).open_tile 0 0).2.toOption.getD [])
    (by decide)

/-! ### Implanting the bomb vector -/

theorem listMapIdx_length {α β : Type} (f : Nat → α → β) :
    ∀ (k : Nat) (l : List α), (listMapIdx f k l).length = l.length := by
  intro k l
  induction l generalizing k with
  | nil => rfl
  | cons a as ih => simp [listMapIdx, ih]

theorem listMapIdx_get? {α β : Type} (f : Nat → α → β) :
    ∀ (l : List α) (k i : Nat),
      (listMapIdx f k l).get? i = (l.get? i).map (f (k + i)) := by
  intro l
  induction l with
  | nil => intro k i; rfl
  | cons a as ih =>
    intro k i
    cases i with
    | zero => simp [listMapIdx]
    | succ n =>
      simp only [listMapIdx, List.get?]
      rw [ih (k + 1) n]
      have : k + 1 + n = k + (n + 1) := by omega
      rw [this]

theorem Tile.ofCount_nonbomb (n : Nat) : (Tile.ofCount n).is_bomb = false := by
  unfold Tile.ofCount
  split <;> rfl

theorem Tile.ofCount_zero_iff (n : Nat) : Tile.ofCount n = .Zero ↔ n = 0 := by
  unfold Tile.ofCount
  split <;> simp_all

theorem Tile.is_bomb_false_of_ne {t : Tile} (h : ¬t = .Bomb) : t.is_bomb = false := by
  cases t <;> simp_all [Tile.is_bomb]

theorem GameBoard.setTileFromArr_dims (gb : GameBoard) (arr : List Bool) :
    (gb.setTileFromArr arr).width = gb.width ∧
    (gb.setTileFromArr arr).height = gb.height ∧
    (gb.setTileFromArr arr).bombs = gb.bombs := ⟨rfl, rfl, rfl⟩

theorem GameBoard.setTileFromArr_length (gb : GameBoard) (arr : List Bool) :
    (gb.setTileFromArr arr).cells.length = min gb.cells.length arr.length := by
  simp [GameBoard.setTileFromArr]

theorem GameBoard.setTileFromArr_get {gb : GameBoard} {arr : List Bool} {x y : Nat}
    {t : BoardTile} (h : gb.get x y = some t)
    (hlen : y * gb.width + x < arr.length) :
    (gb.setTileFromArr arr).get x y =
      some { t with
        tile := if arr.getD (y * gb.width + x) false then Tile.Bomb else Tile.Zero } := by
  have hb := GameBoard.get_some_bounds h
  have hc := GameBoard.get_some_cells h
  obtain ⟨v, hv⟩ : ∃ v, arr.get? (y * gb.width + x) = some v :=
    ⟨_, List.get?_eq_get hlen⟩
  have hgd : arr.getD (y * gb.width + x) false = v := by
    rw [list_getD_eq_get?, hv]
    rfl
  unfold GameBoard.get GameBoard.setTileFromArr
  simp only
  rw [if_pos ⟨hb.1, hb.2⟩, List.get?_zipWith', hc, hv]
  simp only [Option.map_some', Option.some_bind]
  rw [hgd]

theorem GameBoard.recomputeCounts_dims (gb : GameBoard) :
    gb.recomputeCounts.width = gb.width ∧
    gb.recomputeCounts.height = gb.height ∧
    gb.recomputeCounts.bombs = gb.bombs := ⟨rfl, rfl, rfl⟩

theorem GameBoard.recomputeCounts_length (gb : GameBoard) :
    gb.recomputeCounts.cells.length = gb.cells.length := by
  simp [GameBoard.recomputeCounts, listMapIdx_length]

theorem GameBoard.recomputeCounts_get {gb : GameBoard} {x y : Nat} {t : BoardTile}
    (h : gb.get x y = some t) :
    gb.recomputeCounts.get x y =
      some (if t.tile = Tile.Bomb then t
        else { t with tile := Tile.ofCount (gb.computed_bombs_around_tile x y) }) := by
  have hb := GameBoard.get_some_bounds h
  have hc := GameBoard.get_some_cells h
  have hw : 0 < gb.width := by omega
  have h1 : y * gb.width + x = x + y * gb.width := by omega
  have hmod : (y * gb.width + x) % gb.width = x := by
    rw [h1, Nat.add_mul_mod_self_right, Nat.mod_eq_of_lt hb.2]
  have hdiv : (y * gb.width + x) / gb.width = y := by
    rw [h1, Nat.add_mul_div_right _ _ hw, Nat.div_eq_of_lt hb.2]
    omega
  unfold GameBoard.get GameBoard.recomputeCounts
  simp only
  rw [if_pos ⟨hb.1, hb.2⟩, listMapIdx_get? _ _ 0 (y * gb.width + x), hc]
  simp only [Option.map_some', Nat.zero_add, hmod, hdiv]

theorem GameBoard.blank_board_get {x y bombs px py : Nat} (hx : px < x) (hy : py < y) :
    (GameBoard.blank_board x y bombs).get px py =
      some { tile := Tile.Zero, visible := Visibility.NotVisible } := by
  unfold GameBoard.blank_board GameBoard.get
  simp only
  rw [if_pos ⟨hy, hx⟩]
  rw [List.get?_eq_get]
  · simp
  · simp only [List.length_replicate]
    calc py * x + px < py * x + x := by omega
    _ = (py + 1) * x := by ring
    _ ≤ y * x := Nat.mul_le_mul_right _ (by omega)

theorem countP_zipTile :
    ∀ (l : List BoardTile) (arr : List Bool), arr.length = l.length →
      (List.zipWith (fun t b => { t with tile := if b then Tile.Bomb else Tile.Zero })
        l arr).countP (fun t => t.tile.is_bomb) = arr.count true := by
  intro l
  induction l with
  | nil =>
    intro arr h
    have : arr = [] := List.eq_nil_of_length_eq_zero (by simpa using h)
    subst this
    rfl
  | cons hd tl ih =>
    intro arr h
    cases arr with
    | nil => simp at h
    | cons b bs =>
      simp only [List.zipWith, List.countP_cons, List.count_cons]
      rw [ih bs (by simpa using h)]
      cases b <;> simp [Tile.is_bomb]

theorem countP_recompute_isbomb (gb : GameBoard) :
    ∀ (k : Nat) (l : List BoardTile),
      (listMapIdx
        (fun i t =>
          if t.tile = Tile.Bomb then t
          else { t with tile := Tile.ofCount (gb.computed_bombs_around_tile (i % gb.width) (i / gb.width)) })
        k l).countP (fun t => t.tile.is_bomb) =
      l.countP (fun t => t.tile.is_bomb) := by
  intro k l
  induction l generalizing k with
  | nil => rfl
  | cons hd tl ih =>
    simp only [listMapIdx, List.countP_cons]
    rw [ih (k + 1)]
    by_cases hb : hd.tile = Tile.Bomb
    · rw [if_pos hb]
    · rw [if_neg hb]
      simp only [Tile.ofCount_nonbomb, Tile.is_bomb_false_of_ne hb]

theorem GameBoard.implant_bomb_count {gb : GameBoard} {arr : List Bool}
    (hlen : arr.length = gb.cells.length) :
    (gb._populate_implant arr).cells.countP (fun t => t.tile.is_bomb) =
      arr.count true := by
  unfold GameBoard._populate_implant GameBoard.recomputeCounts
  simp only
  rw [countP_recompute_isbomb]
  unfold GameBoard.setTileFromArr
  simp only
  exact countP_zipTile gb.cells arr hlen

theorem GameBoard.implant_length {gb : GameBoard} {arr : List Bool}
    (hlen : arr.length = gb.cells.length) :
    (gb._populate_implant arr).cells.length = gb.cells.length := by
  unfold GameBoard._populate_implant
  rw [GameBoard.recomputeCounts_length, GameBoard.setTileFromArr_length, hlen]
  simp

theorem GameBoard.implant_dims (gb : GameBoard) (arr : List Bool) :
    (gb._populate_implant arr).width = gb.width ∧
    (gb._populate_implant arr).height = gb.height ∧
    (gb._populate_implant arr).bombs = gb.bombs := ⟨rfl, rfl, rfl⟩

/-! ### The reroute loop preserves the bomb multiset and clears the
protected cells -/

theorem boolSwap_length (l : List Bool) (i j : Nat) :
    (boolSwap l i j).length = l.length := by
  simp [boolSwap]

theorem boolSwap_count (l : List Bool) (i j : Nat) (hi : i < l.length)
    (hj : j < l.length) : (boolSwap l i j).count true = l.count true := by
  obtain ⟨vi, hvi⟩ : ∃ v, l.get? i = some v := ⟨_, List.get?_eq_get hi⟩
  obtain ⟨vj, hvj⟩ : ∃ v, l.get? j = some v := ⟨_, List.get?_eq_get hj⟩
  have hgdi : l.getD i false = vi := by rw [list_getD_eq_get?, hvi]; rfl
  have hgdj : l.getD j false = vj := by rw [list_getD_eq_get?, hvj]; rfl
  unfold boolSwap
  rw [hgdi, hgdj]
  show ((l.set i vj).set j vi).countP (fun x => x == true) =
    l.countP (fun x => x == true)
  have hset : (l.set i vj).get? j = some vj := by
    by_cases hij : i = j
    · subst hij
      rw [List.get?_set_eq_of_lt _ hi]
    · rw [List.get?_set_ne _ _ hij]
      exact hvj
  have h1 := countP_set_eq (fun x => x == true) l i vj vi hvi
  have h2 := countP_set_eq (fun x => x == true) (l.set i vj) j vi vj hset
  omega

theorem rerouteScan_nil (width : Nat) (rng : Nat → Nat)
    (s : List Bool × Nat × Bool) : rerouteScan width rng [] s = s := rfl

theorem rerouteScan_cons (width : Nat) (rng : Nat → Nat) (p : Nat × Nat)
    (rest : List (Nat × Nat)) (arr : List Bool) (k : Nat) (r : Bool) :
    rerouteScan width rng (p :: rest) (arr, k, r) =
      rerouteScan width rng rest
        (if arr.getD (flatten width p) false then
          (boolSwap arr (flatten width p) (rng k), k + 1, true)
        else (arr, k, r)) := by
  unfold rerouteScan
  rw [List.foldl_cons]

theorem rerouteScan_flag (width : Nat) (rng : Nat → Nat) :
    ∀ (valid : List (Nat × Nat)) (arr : List Bool) (k : Nat),
      (rerouteScan width rng valid (arr, k, true)).2.2 = true := by
  intro valid
  induction valid with
  | nil => intro arr k; rfl
  | cons p rest ih =>
    intro arr k
    rw [rerouteScan_cons]
    cases arr.getD (flatten width p) false with
    | true => rw [if_pos rfl]; exact ih _ _
    | false => rw [if_neg (by simp)]; exact ih arr k

theorem rerouteScan_inv (width : Nat) (rng : Nat → Nat) (n : Nat)
    (hrng : ∀ m, rng m < n) :
    ∀ (valid : List (Nat × Nat)), (∀ p ∈ valid, flatten width p < n) →
    ∀ (arr : List Bool) (k : Nat) (r : Bool), arr.length = n →
      (rerouteScan width rng valid (arr, k, r)).1.length = n ∧
      (rerouteScan width rng valid (arr, k, r)).1.count true = arr.count true := by
  intro valid
  induction valid with
  | nil => intro _ arr k r hlen; exact ⟨hlen, rfl⟩
  | cons p rest ih =>
    intro hval arr k r hlen
    have hp : flatten width p < n := hval p (List.mem_cons_self _ _)
    have hrest : ∀ q ∈ rest, flatten width q < n :=
      fun q hq => hval q (List.mem_cons_of_mem _ hq)
    rw [rerouteScan_cons]
    cases h : arr.getD (flatten width p) false with
    | false =>
      rw [if_neg (by simp [h])]
      exact ih hrest arr k r hlen
    | true =>
      rw [if_pos rfl]
      have hswl : (boolSwap arr (flatten width p) (rng k)).length = arr.length :=
        boolSwap_length _ _ _
      have hswc : (boolSwap arr (flatten width p) (rng k)).count true =
          arr.count true :=
        boolSwap_count arr _ _ (by omega) (by rw [hlen]; exact hrng k)
      obtain ⟨h1, h2⟩ := ih hrest (boolSwap arr (flatten width p) (rng k)) (k + 1)
        true (by rw [hswl, hlen])
      exact ⟨h1, by rw [h2, hswc]⟩

theorem rerouteScan_false (width : Nat) (rng : Nat → Nat) :
    ∀ (valid : List (Nat × Nat)) (arr : List Bool) (k : Nat),
      (rerouteScan width rng valid (arr, k, false)).2.2 = false →
      rerouteScan width rng valid (arr, k, false) = (arr, k, false) ∧
      ∀ p ∈ valid, arr.getD (flatten width p) false = false := by
  intro valid
  induction valid with
  | nil => intro arr k _; exact ⟨rfl, by simp⟩
  | cons p rest ih =>
    intro arr k hflag
    rw [rerouteScan_cons] at hflag
    cases h : arr.getD (flatten width p) false with
    | true =>
      exfalso
      rw [if_pos h] at hflag
      rw [rerouteScan_flag width rng rest _ _] at hflag
      simp at hflag
    | false =>
      rw [if_neg (by rw [h]; simp)] at hflag
      obtain ⟨heq, hall⟩ := ih arr k hflag
      refine ⟨by rw [rerouteScan_cons, if_neg (by rw [h]; simp)]; exact heq, ?_⟩
      intro q hq
      rcases List.mem_cons.mp hq with hq | hq
      · rw [hq]; exact h
      · exact hall q hq

theorem rerouteLoop_some (width : Nat) (rng : Nat → Nat)
    (valid : List (Nat × Nat)) (n : Nat) (hrng : ∀ m, rng m < n)
    (hval : ∀ p ∈ valid, flatten width p < n) :
    ∀ (fuel : Nat) (arr : List Bool) (k : Nat) (arr' : List Bool) (k' : Nat),
      rerouteLoop width rng valid fuel arr k = some (arr', k') →
      arr.length = n →
      arr'.length = n ∧ arr'.count true = arr.count true ∧
      ∀ p ∈ valid, arr'.getD (flatten width p) false = false := by
  intro fuel
  induction fuel with
  | zero =>
    intro arr k arr' k' h _
    exact absurd h (by simp [rerouteLoop])
  | succ fuel ih =>
    intro arr k arr' k' h hlen
    unfold rerouteLoop at h
    rcases hscan : rerouteScan width rng valid (arr, k, false) with ⟨a2, k2, r2⟩
    rw [hscan] at h
    obtain ⟨hslen, hscnt⟩ := rerouteScan_inv width rng n hrng valid hval arr k false hlen
    rw [hscan] at hslen hscnt
    cases r2 with
    | true =>
      have h' : rerouteLoop width rng valid fuel a2 k2 = some (arr', k') := h
      obtain ⟨h1, h2, h3⟩ := ih a2 k2 arr' k' h' hslen
      exact ⟨h1, by rw [h2, hscnt], h3⟩
    | false =>
      have h' : (some (a2, k2) : Option (List Bool × Nat)) = some (arr', k') := h
      simp only [Option.some.injEq, Prod.mk.injEq] at h'
      obtain ⟨ha', _⟩ := h'
      obtain ⟨heq, hall⟩ := rerouteScan_false width rng valid arr k
        (by rw [hscan])
      rw [hscan] at heq
      simp only [Prod.mk.injEq] at heq
      refine ⟨?_, ?_, ?_⟩
      · rw [← ha', heq.1, hlen]
      · rw [← ha', heq.1]
      · intro p hp
        rw [← ha', heq.1]
        exact hall p hp

/-! ### Decomposing a successful with_clearing -/

theorem flatten_lt_of_bounds {width height : Nat} {p : Nat × Nat}
    (h1 : p.1 < width) (h2 : p.2 < height) : flatten width p < height * width := by
  unfold flatten
  calc p.2 * width + p.1 < p.2 * width + width := by omega
  _ = (p.2 + 1) * width := by ring
  _ ≤ height * width := Nat.mul_le_mul_right _ (by omega)

theorem validate_board_clearing_bounds {x y bombs cx cy : Nat} {u : Unit}
    (h : validate_board x y bombs true (some (cx, cy)) = .ok u) :
    cx < x ∧ cy < y := by
  unfold validate_board at h
  cases hs : validate_size_constraints x y bombs with
  | error e => rw [hs] at h; exact absurd h (by simp)
  | ok v =>
    rw [hs] at h
    split at h
    · exact absurd h (by simp)
    · split at h
      · exact absurd h (by simp)
      · split at h
        · exact absurd h (by simp)
        · have h' : (if ¬(cx < x ∧ cy < y)
              then (Except.error NewBoardError.SizeConstraintOverflow :
                Except NewBoardError Unit)
              else if true = true ∧ x * y - bombs < 9
                then Except.error NewBoardError.BombOverflow
                else Except.ok ()) = Except.ok u := h
          split at h'
          · exact absurd h' (by simp)
          · rename_i hc
            rw [not_not] at hc
            exact hc

theorem populate_without_ok_elim {gb : GameBoard} {x y fuel : Nat}
    {arr : List Bool} {rng : Nat → Nat} {b : GameBoard}
    (h : gb.populate_without x y arr rng fuel = some (.ok b)) :
    ¬(gb.area - gb.bombs < 9) ∧
    ∃ arr' k', rerouteLoop gb.width rng (gb.protectedList x y) fuel arr 0 =
        some (arr', k') ∧
      b = gb._populate_implant arr' := by
  unfold GameBoard.populate_without at h
  split at h
  · exact absurd h (by simp)
  · rename_i h9
    refine ⟨h9, ?_⟩
    cases hl : rerouteLoop gb.width rng (gb.protectedList x y) fuel arr 0 with
    | none => rw [hl] at h; exact absurd h (by simp)
    | some pr =>
      rw [hl] at h
      obtain ⟨a2, k2⟩ := pr
      simp only [Option.some.injEq, Except.ok.injEq] at h
      exact ⟨a2, k2, rfl, h.symm⟩

theorem with_clearing_ok_elim {x y bombs cx cy fuel : Nat} {arr : List Bool}
    {rng : Nat → Nat} {b : GameBoard}
    (h : GameBoard.with_clearing x y bombs cx cy arr rng fuel = some (.ok b)) :
    cx < x ∧ cy < y ∧
    ∃ arr' k', rerouteLoop x rng
        ((GameBoard.blank_board x y bombs).protectedList cx cy) fuel arr 0 =
        some (arr', k') ∧
      b = (GameBoard.blank_board x y bombs)._populate_implant arr' := by
  unfold GameBoard.with_clearing at h
  cases hv : validate_board x y bombs true (some (cx, cy)) with
  | error e => rw [hv] at h; exact absurd h (by simp)
  | ok u =>
    rw [hv] at h
    obtain ⟨hcx, hcy⟩ := validate_board_clearing_bounds hv
    obtain ⟨_, a2, k2, hl, hb⟩ := populate_without_ok_elim h
    exact ⟨hcx, hcy, a2, k2, hl, hb⟩

theorem mem_protectedList_of_box {x y bombs cx cy px py : Nat}
    (hpx : px < x) (hpy : py < y)
    (h1 : cx ≤ px + 1) (h2 : px ≤ cx + 1) (h3 : cy ≤ py + 1) (h4 : py ≤ cy + 1) :
    (px, py) ∈ (GameBoard.blank_board x y bombs).protectedList cx cy := by
  unfold GameBoard.protectedList
  rw [List.mem_append]
  by_cases hc : px = cx ∧ py = cy
  · right
    simp [hc.1, hc.2]
  · left
    exact GameBoard.mem_normalize_iff.mpr ⟨hpx, hpy, h1, h2, h3, h4, hc⟩

theorem protectedList_flat_lt {x y bombs cx cy : Nat} (hcx : cx < x) (hcy : cy < y) :
    ∀ p ∈ (GameBoard.blank_board x y bombs).protectedList cx cy,
      flatten x p < x * y := by
  intro p hp
  rw [Nat.mul_comm]
  unfold GameBoard.protectedList at hp
  rcases List.mem_append.mp hp with hp | hp
  · rw [show p = (p.1, p.2) from rfl] at hp
    rw [GameBoard.mem_normalize_iff] at hp
    exact flatten_lt_of_bounds hp.1 hp.2.1
  · simp only [List.mem_singleton] at hp
    subst hp
    exact flatten_lt_of_bounds hcx hcy

/-- C1: a successful with_clearing (fed any shuffled multiset of bombs
trues over the area, and any in-range rng stream with which the reroute
loop converges) places no mine on the clearing origin nor on any of its
edge-clipped 3x3 neighbors, and the board's mine cells number exactly the
configured bomb count. -/
theorem populate_without_protected_safe
    (x y bombs cx cy fuel : Nat) (arr : List Bool) (rng : Nat → Nat)
    (b : GameBoard)
    (hres : GameBoard.with_clearing x y bombs cx cy arr rng fuel = some (.ok b))
    (hlen : arr.length = x * y) (hcnt : arr.count true = bombs)
    (hrng : ∀ m, rng m < x * y) :
    (∀ px py, px < x → py < y →
      cx ≤ px + 1 → px ≤ cx + 1 → cy ≤ py + 1 → py ≤ cy + 1 →
      ∃ t, b.get px py = some t ∧ t.tile.is_bomb = false) ∧
    b.cells.countP (fun t => t.tile.is_bomb) = bombs := by
  obtain ⟨hcx, hcy, arr', k', hloop, hb⟩ := with_clearing_ok_elim hres
  obtain ⟨hlen', hcnt', hfix⟩ := rerouteLoop_some x rng _ (x * y) hrng
    (protectedList_flat_lt hcx hcy) fuel arr 0 arr' k' hloop hlen
  have hblen : (GameBoard.blank_board x y bombs).cells.length = y * x := by
    simp [GameBoard.blank_board]
  subst hb
  constructor
  · intro px py hpx hpy h1 h2 h3 h4
    have hget : (GameBoard.blank_board x y bombs).get px py =
        some { tile := Tile.Zero, visible := Visibility.NotVisible } :=
      GameBoard.blank_board_get hpx hpy
    have hidx : py * x + px < arr'.length := by
      rw [hlen', Nat.mul_comm x y]
      exact @flatten_lt_of_bounds x y (px, py) hpx hpy
    have hmid := GameBoard.setTileFromArr_get hget hidx
    rw [show (GameBoard.blank_board x y bombs).width = x from rfl] at hmid
    have hfalse : arr'.getD (py * x + px) false = false :=
      hfix (px, py) (mem_protectedList_of_box hpx hpy h1 h2 h3 h4)
    rw [hfalse] at hmid
    have hfin := GameBoard.recomputeCounts_get hmid
    rw [if_neg (by simp)] at hfin
    exact ⟨_, hfin, Tile.ofCount_nonbomb _⟩
  · rw [GameBoard.implant_bomb_count (by rw [hlen', hblen, Nat.mul_comm]),
      hcnt', hcnt]

/-- The board with_clearing builds on the C1 witness input: 5x5, one
mine shuffled to index 0, clearing at the center. -/
def cleared5x5 : GameBoard :=
  (((GameBoard.with_clearing 5 5 1 2 2 (true :: List.replicate 24 false)
      (fun _ => 0) 1).getD (.error .BombOverflow)).toOption).getD
    (GameBoard.blank_board 0 0 0)

theorem populate_without_protected_safe_witness :
    (true :: List.replicate 24 false).count true = 1 ∧
    ((∀ px py, px < 5 → py < 5 →
        2 ≤ px + 1 → px ≤ 2 + 1 → 2 ≤ py + 1 → py ≤ 2 + 1 →
        ∃ t, cleared5x5.get px py = some t ∧ t.tile.is_bomb = false) ∧
      cleared5x5.cells.countP (fun t => t.tile.is_bomb) = 1) :=
  ⟨by decide,
   populate_without_protected_safe 5 5 1 2 2 1 (true :: List.replicate 24 false)
     (fun _ => 0) cleared5x5 (by decide) (by decide) (by decide)
     (fun _ => Nat.succ_le_succ (Nat.zero_le 24))⟩

/-! ### Counting machinery for the tiles_left invariant -/

theorem countP_congr_get? {α β : Type} (g : α → β) (p : β → Bool) :
    ∀ (l l2 : List α), l.length = l2.length →
      (∀ i, (l.get? i).map g = (l2.get? i).map g) →
      l.countP (fun a => p (g a)) = l2.countP (fun a => p (g a)) := by
  intro l
  induction l with
  | nil =>
    intro l2 hlen _
    have : l2 = [] := List.eq_nil_of_length_eq_zero (by simp at hlen; omega)
    subst this
    rfl
  | cons a as ih =>
    intro l2 hlen hmap
    cases l2 with
    | nil => simp at hlen
    | cons b bs =>
      have h0 := hmap 0
      simp only [List.get?, Option.map_some', Option.some.injEq] at h0
      rw [List.countP_cons, List.countP_cons, ih bs (by simpa using hlen)
        (fun i => hmap (i + 1)), h0]

theorem GameBoard.get?_as_get {b : GameBoard} (hwf : b.WF) (i : Nat)
    (hi : i < b.cells.length) :
    b.get (i % b.width) (i / b.width) = b.cells.get? i := by
  have hw : 0 < b.width := by
    rcases Nat.eq_zero_or_pos b.width with h0 | h0
    · rw [hwf, h0] at hi; simp at hi
    · exact h0
  have hdiv : i / b.width < b.height := by
    apply Nat.div_lt_of_lt_mul
    rw [Nat.mul_comm, ← hwf]
    exact hi
  rw [GameBoard.get_eq_of_bounds hdiv (Nat.mod_lt _ hw)]
  congr 1
  rw [Nat.mul_comm]
  exact Nat.div_add_mod i b.width

theorem countP_disjoint_le {α : Type} (p q : α → Bool) :
    ∀ (l : List α), (∀ a ∈ l, ¬(p a = true ∧ q a = true)) →
      l.countP p + l.countP q ≤ l.length := by
  intro l
  induction l with
  | nil => intro _; simp
  | cons a as ih =>
    intro h
    have ha := h a (List.mem_cons_self _ _)
    have has := ih fun b hb => h b (List.mem_cons_of_mem _ hb)
    rw [List.countP_cons, List.countP_cons, List.length_cons]
    cases hp : p a <;> cases hq : q a <;> simp_all <;> omega

theorem countP_le_of_pointwise {α : Type} (p q : α → Bool) (l : List α)
    (h : ∀ a ∈ l, p a = true → q a = true) : l.countP p ≤ l.countP q :=
  List.countP_mono_left h

theorem countP_pointwise_of_eq {α : Type} (p q : α → Bool) :
    ∀ (l : List α), (∀ a ∈ l, p a = true → q a = true) →
      l.countP q ≤ l.countP p →
      ∀ a ∈ l, q a = true → p a = true := by
  intro l
  induction l with
  | nil => intro _ _ a ha; simp at ha
  | cons a as ih =>
    intro himp hcnt b hb hq
    have htail_imp : ∀ c ∈ as, p c = true → q c = true :=
      fun c hc => himp c (List.mem_cons_of_mem _ hc)
    have htail_le : as.countP p ≤ as.countP q := List.countP_mono_left htail_imp
    rw [List.countP_cons, List.countP_cons] at hcnt
    rcases List.mem_cons.mp hb with hb | hb
    · subst hb
      by_contra hp
      have hp' : p b = false := by
        cases hpb : p b
        · rfl
        · exact absurd hpb hp
      rw [hq, hp'] at hcnt
      simp at hcnt
      omega
    · apply ih htail_imp ?_ b hb hq
      cases hpa : p a
      · rw [hpa] at hcnt
        simp at hcnt
        omega
      · rw [hpa, himp a (List.mem_cons_self _ _) hpa] at hcnt
        simpa using hcnt

theorem length_eq_countP_add {α : Type} (p : α → Bool) :
    ∀ (l : List α), l.length = l.countP p + l.countP (fun a => !(p a)) := by
  intro l
  induction l with
  | nil => rfl
  | cons a as ih =>
    rw [List.length_cons, List.countP_cons, List.countP_cons, ih]
    cases h : p a <;> simp [h] <;> omega

/-! ### The reachable-board invariant -/

theorem GameBoard.zreach_zero {b : GameBoard} {p : Nat × Nat}
    (h : b.ZReach p) : b.tileAt p.1 p.2 = some .Zero := by
  cases h with
  | base _ _ hz => exact hz
  | step _ _ _ _ _ hz => exact hz

theorem GameBoard.tileAt_get?_map {b b' : GameBoard} (hwf : b.WF) (hwf' : b'.WF)
    (hw : b'.width = b.width) (hh : b'.height = b.height)
    (hlen : b'.cells.length = b.cells.length)
    (htile : ∀ x y, b'.tileAt x y = b.tileAt x y) (i : Nat) :
    (b'.cells.get? i).map (·.tile) = (b.cells.get? i).map (·.tile) := by
  by_cases hi : i < b.cells.length
  · have h1 := GameBoard.get?_as_get hwf i hi
    have h2 := GameBoard.get?_as_get hwf' i (by omega)
    have ht := htile (i % b.width) (i / b.width)
    unfold GameBoard.tileAt at ht
    rw [h1] at ht
    rw [hw] at h2
    rw [h2] at ht
    exact ht
  · rw [List.get?_eq_none.mpr (by omega), List.get?_eq_none.mpr (by omega)]

theorem GameBoard.inv_of_shape {b b' : GameBoard} (hinv : b.Inv)
    (hw : b'.width = b.width) (hh : b'.height = b.height)
    (hb : b'.bombs = b.bombs) (hlen : b'.cells.length = b.cells.length)
    (htile : ∀ x y, b'.tileAt x y = b.tileAt x y)
    (hvis : ∀ x y t, b'.get x y = some t → t.visible = .Visible →
      t.tile.is_bomb = false) : b'.Inv := by
  have hwf' : b'.WF := by
    have := hinv.wf
    unfold GameBoard.WF at this ⊢
    rw [hlen, hw, hh]
    exact this
  refine ⟨hwf', ?_, hvis, ?_⟩
  · rw [show (fun t : BoardTile => t.tile.is_bomb) =
        (fun t : BoardTile => Tile.is_bomb ((fun u : BoardTile => u.tile) t))
      from rfl]
    rw [countP_congr_get? (fun u : BoardTile => u.tile) Tile.is_bomb b'.cells
      b.cells hlen
      (GameBoard.tileAt_get?_map hinv.wf hwf' hw hh hlen htile)]
    rw [hb]
    exact hinv.bombs_eq
  · intro x y t hget htz q hadj u hu
    have ht' : b.tileAt x y = some .Zero := by
      rw [← htile, GameBoard.tileAt_of_get hget, htz]
    obtain ⟨t0, ht0, ht0z⟩ : ∃ t0, b.get x y = some t0 ∧ t0.tile = .Zero := by
      unfold GameBoard.tileAt at ht'
      cases hg : b.get x y with
      | none => rw [hg] at ht'; exact absurd ht' (by simp)
      | some t0 =>
        rw [hg] at ht'
        exact ⟨t0, rfl, by simpa using ht'⟩
    have hadj' : b.Adj (x, y) q := by
      rw [← GameBoard.adj_congr hw hh]
      exact hadj
    have hu' : b.tileAt q.1 q.2 = some u.tile := by
      rw [← htile, GameBoard.tileAt_of_get hu]
    obtain ⟨u0, hu0, hu0t⟩ : ∃ u0, b.get q.1 q.2 = some u0 ∧ u0.tile = u.tile := by
      unfold GameBoard.tileAt at hu'
      cases hg : b.get q.1 q.2 with
      | none => rw [hg] at hu'; exact absurd hu' (by simp)
      | some u0 =>
        rw [hg] at hu'
        exact ⟨u0, rfl, by simpa using hu'⟩
    rw [← hu0t]
    exact hinv.zero_consistent x y t0 ht0 ht0z q hadj' u0 hu0

theorem GameBoard.inv_setVis {b : GameBoard} (hinv : b.Inv) {x y : Nat}
    {t : BoardTile} (ht : b.get x y = some t) {v : Visibility}
    (hsafe : v = .Visible → t.tile.is_bomb = false) : (b.setVis x y v).Inv := by
  apply GameBoard.inv_of_shape hinv (b.setVis_width x y v) (b.setVis_height x y v)
    (b.setVis_bombs x y v) (b.setVis_length x y v)
    (GameBoard.tileAt_setVis ht v)
  intro x' y' u hget hvis
  rw [GameBoard.get_setVis ht v x' y'] at hget
  by_cases heq : x' = x ∧ y' = y
  · rw [if_pos heq] at hget
    have : u = { t with visible := v } := by
      injection hget with h
      exact h.symm
    subst this
    simp only at hvis
    exact hsafe hvis
  · rw [if_neg heq] at hget
    exact hinv.vis_nonbomb x' y' u hget hvis

theorem GameBoard.implant_inv {gb : GameBoard} {arr : List Bool} (hwf : gb.WF)
    (hvis : ∀ t ∈ gb.cells, t.visible = Visibility.NotVisible)
    (hlen : arr.length = gb.cells.length) (hcnt : arr.count true = gb.bombs) :
    (gb._populate_implant arr).Inv := by
  have hmidlen : (gb.setTileFromArr arr).cells.length = gb.cells.length := by
    rw [GameBoard.setTileFromArr_length, hlen]
    simp
  have hmidwf : (gb.setTileFromArr arr).WF := by
    unfold GameBoard.WF
    rw [hmidlen]
    exact hwf
  have hflen : (gb._populate_implant arr).cells.length = gb.cells.length := by
    unfold GameBoard._populate_implant
    rw [GameBoard.recomputeCounts_length, hmidlen]
  have hfwf : (gb._populate_implant arr).WF := by
    unfold GameBoard.WF
    rw [hflen]
    exact hwf
  have hidx : ∀ {x0 y0 : Nat}, y0 < gb.height → x0 < gb.width →
      y0 * gb.width + x0 < arr.length := by
    intro x0 y0 hy hx
    rw [hlen, hwf]
    calc y0 * gb.width + x0 < y0 * gb.width + gb.width := by omega
    _ = (y0 + 1) * gb.width := by ring
    _ ≤ gb.height * gb.width := Nat.mul_le_mul_right _ (by omega)
  have hcell : ∀ {x0 y0 : Nat}, y0 < gb.height → x0 < gb.width →
      ∃ m, (gb.setTileFromArr arr).get x0 y0 = some m ∧
        m.visible = Visibility.NotVisible := by
    intro x0 y0 hy hx
    obtain ⟨t0, ht0⟩ := GameBoard.get_isSome_of_WF hwf hy hx
    refine ⟨_, GameBoard.setTileFromArr_get ht0 (hidx hy hx), ?_⟩
    exact hvis t0 (List.get?_mem (GameBoard.get_some_cells ht0))
  refine ⟨hfwf, ?_, ?_, ?_⟩
  · rw [GameBoard.implant_bomb_count hlen, hcnt]
    rfl
  · intro x0 y0 t hget hv
    exfalso
    have hb := GameBoard.get_some_bounds hget
    obtain ⟨m, hm, hmv⟩ := hcell hb.1 hb.2
    have hget' : (gb.setTileFromArr arr).recomputeCounts.get x0 y0 = some t := hget
    have hfin := GameBoard.recomputeCounts_get hm
    rw [hget'] at hfin
    have ht : t = if m.tile = Tile.Bomb then m else { m with tile := Tile.ofCount ((gb.setTileFromArr arr).computed_bombs_around_tile x0 y0) } :=
      Option.some.inj hfin
    have htv : t.visible = Visibility.NotVisible := by
      rw [ht]
      by_cases hcase : m.tile = Tile.Bomb
      · rw [if_pos hcase]; exact hmv
      · rw [if_neg hcase]; exact hmv
    rw [hv] at htv
    exact absurd htv (by simp)
  · intro x0 y0 t hget htz q hadj u hu
    have hb := GameBoard.get_some_bounds hget
    obtain ⟨m, hm, _⟩ := hcell hb.1 hb.2
    have hget' : (gb.setTileFromArr arr).recomputeCounts.get x0 y0 = some t := hget
    have hfin := GameBoard.recomputeCounts_get hm
    rw [hget'] at hfin
    have ht : t = if m.tile = Tile.Bomb then m else { m with tile := Tile.ofCount ((gb.setTileFromArr arr).computed_bombs_around_tile x0 y0) } :=
      Option.some.inj hfin
    by_cases hcase : m.tile = Tile.Bomb
    · rw [ht, if_pos hcase] at htz
      rw [hcase] at htz
      exact absurd htz (by simp)
    · rw [ht, if_neg hcase] at htz
      simp only at htz
      have hc0 : (gb.setTileFromArr arr).computed_bombs_around_tile x0 y0 = 0 :=
        (Tile.ofCount_zero_iff _).mp htz
      unfold GameBoard.computed_bombs_around_tile at hc0
      have hall := List.countP_eq_zero.mp hc0
      have hadj' : (gb.setTileFromArr arr).Adj (x0, y0) q := hadj
      have hqmem : q ∈ (gb.setTileFromArr arr).normalize_around_3x3 x0 y0 := hadj'
      have hqb := hall q hqmem
      have hqbounds := GameBoard.adj_bounds hadj'
      obtain ⟨mq, hmq, _⟩ := hcell hqbounds.2 hqbounds.1
      have hgd : (gb.setTileFromArr arr).getD q.1 q.2 = mq := by
        unfold GameBoard.getD
        rw [hmq]
        rfl
      rw [hgd] at hqb
      have hqbf : mq.tile.is_bomb = false := by
        cases hx : mq.tile.is_bomb
        · rfl
        · exact absurd hx hqb
      have hu' : (gb.setTileFromArr arr).recomputeCounts.get q.1 q.2 = some u := hu
      have hfinq := GameBoard.recomputeCounts_get hmq
      rw [hu'] at hfinq
      have hut : u = if mq.tile = Tile.Bomb then mq else { mq with tile := Tile.ofCount ((gb.setTileFromArr arr).computed_bombs_around_tile q.1 q.2) } :=
        Option.some.inj hfinq
      by_cases hqcase : mq.tile = Tile.Bomb
      · rw [hqcase] at hqbf
        exact absurd hqbf (by simp [Tile.is_bomb])
      · rw [hut, if_neg hqcase]
        simp only
        exact Tile.ofCount_nonbomb _

theorem GameBoard.inv_init {x y bombs cx cy fuel : Nat} {arr : List Bool}
    {rng : Nat → Nat} {b : GameBoard}
    (hres : GameBoard.with_clearing x y bombs cx cy arr rng fuel = some (.ok b))
    (hlen : arr.length = x * y) (hcnt : arr.count true = bombs)
    (hrng : ∀ m, rng m < x * y) : b.Inv := by
  obtain ⟨hcx, hcy, arr', k', hloop, hb⟩ := with_clearing_ok_elim hres
  obtain ⟨hlen', hcnt', _⟩ := rerouteLoop_some x rng _ (x * y) hrng
    (protectedList_flat_lt hcx hcy) fuel arr 0 arr' k' hloop hlen
  subst hb
  apply GameBoard.implant_inv
  · unfold GameBoard.WF GameBoard.blank_board
    simp
  · intro t ht
    have := List.eq_of_mem_replicate ht
    rw [this]
  · rw [hlen']
    unfold GameBoard.blank_board
    simp [Nat.mul_comm]
  · rw [hcnt', hcnt]
    rfl

theorem GameBoard.inv_flood {m : GameBoard} (hinv : m.Inv) :
    m.open_visible.1.Inv := by
  have hs := m.open_visible_sim
  apply GameBoard.inv_of_shape hinv hs.width_eq hs.height_eq hs.bombs_eq
    hs.len_eq hs.tile_eq
  intro x y t hget hv
  have hvis : m.open_visible.1.visStateAt x y = some .Visible := by
    rw [GameBoard.visStateAt_of_get hget, hv]
  rcases hs.sound x y hvis with h0 | ⟨hnv, p, hzr, hadj⟩
  · obtain ⟨t0, ht0, ht0v⟩ := GameBoard.visStateAt_some_elim h0
    have htt : some t.tile = some t0.tile := by
      rw [← GameBoard.tileAt_of_get hget, ← GameBoard.tileAt_of_get ht0,
        hs.tile_eq]
    rw [Option.some.inj htt]
    exact hinv.vis_nonbomb x y t0 ht0 ht0v
  · have hz := GameBoard.zreach_zero hzr
    obtain ⟨pt, hpt, hptz⟩ : ∃ pt, m.get p.1 p.2 = some pt ∧ pt.tile = .Zero := by
      unfold GameBoard.tileAt at hz
      cases hg : m.get p.1 p.2 with
      | none => rw [hg] at hz; exact absurd hz (by simp)
      | some pt => rw [hg] at hz; exact ⟨pt, rfl, by simpa using hz⟩
    obtain ⟨u0, hu0, _⟩ := GameBoard.visStateAt_some_elim hnv
    have hadj2 : m.Adj (p.1, p.2) (x, y) := hadj
    have hb0 := hinv.zero_consistent p.1 p.2 pt hpt hptz (x, y) hadj2 u0 hu0
    have htt : some t.tile = some u0.tile := by
      rw [← GameBoard.tileAt_of_get hget, ← GameBoard.tileAt_of_get hu0,
        hs.tile_eq]
    rw [Option.some.inj htt]
    exact hb0

theorem GameBoard.inv_undo_open_go :
    ∀ (cs : List (Nat × Nat)) (b b' : GameBoard), b.Inv →
      GameBoard.undo_open_go b cs = (b', .ok ()) → b'.Inv := by
  intro cs
  induction cs with
  | nil =>
    intro b b' hinv h
    unfold GameBoard.undo_open_go at h
    injection h with h1 _
    rw [← h1]
    exact hinv
  | cons q rest ih =>
    intro b b' hinv h
    unfold GameBoard.undo_open_go at h
    split at h
    · injection h with _ h2
      exact absurd h2 (by simp)
    · rename_i t hg
      split at h
      · rename_i hvis
        exact ih _ b' (GameBoard.inv_setVis hinv hg
          (fun hc => absurd hc (by simp))) h
      · injection h with _ h2
        exact absurd h2 (by simp)

theorem GameBoard.inv_flag_tile {b b' : GameBoard} {x y : Nat}
    {ev : GameBoardEvent} (hinv : b.Inv) (h : b.flag_tile x y = (b', .ok ev)) :
    b'.Inv := by
  unfold GameBoard.flag_tile at h
  split at h
  · injection h with _ h2
    exact absurd h2 (by simp)
  · rename_i t hg
    split at h
    · injection h with _ h2
      exact absurd h2 (by simp)
    · injection h with h1 _
      rw [← h1]
      exact GameBoard.inv_setVis hinv hg (fun hc => absurd hc (by simp))
    · injection h with h1 _
      rw [← h1]
      exact GameBoard.inv_setVis hinv hg (fun hc => absurd hc (by simp))

theorem GameBoard.inv_undo_move {b b' : GameBoard} {ev : GameBoardEvent}
    (hinv : b.Inv) (h : b.undo_move ev = (b', .ok ())) : b'.Inv := by
  unfold GameBoard.undo_move at h
  split at h
  · split at h
    · injection h with _ h2
      exact absurd h2 (by simp)
    · rename_i t hg
      split at h
      · injection h with _ h2
        exact absurd h2 (by simp)
      · injection h with h1 _
        rw [← h1]
        exact GameBoard.inv_setVis hinv hg (fun hc => absurd hc (by simp))
      · injection h with h1 _
        rw [← h1]
        exact GameBoard.inv_setVis hinv hg (fun hc => absurd hc (by simp))
  · rename_i cs
    exact GameBoard.inv_undo_open_go cs b b' hinv h

theorem GameBoard.inv_open_tile {b b' : GameBoard} {x y : Nat}
    {ev : List (Nat × Nat)} (hinv : b.Inv) (h : b.open_tile x y = (b', .ok ev)) :
    b'.Inv := by
  unfold GameBoard.open_tile at h
  split at h
  · injection h with _ h2
    exact absurd h2 (by simp)
  · rename_i t hg
    split at h
    · injection h with _ h2
      exact absurd h2 (by simp)
    · injection h with _ h2
      exact absurd h2 (by simp)
    · split at h
      · injection h with _ h2
        exact absurd h2 (by simp)
      · rename_i hnb
        have h' : ((b.setVis x y .Visible).open_visible.1,
            Except.ok ((b.setVis x y .Visible).open_visible.2 ++ [(x, y)])) =
            (b', Except.ok ev) := h
        injection h' with h1 _
        rw [← h1]
        apply GameBoard.inv_flood
        apply GameBoard.inv_setVis hinv hg
        intro _
        cases hx : t.tile.is_bomb
        · rfl
        · exact absurd hx hnb

theorem GameBoard.inv_open_around_go :
    ∀ (l : List (Nat × Nat)) (b : GameBoard) (acc : List (Nat × Nat)),
      b.Inv → (GameBoard.open_around_go b l acc).1.Inv := by
  intro l
  induction l with
  | nil =>
    intro b acc hinv
    rw [GameBoard.open_around_go_nil]
    exact hinv
  | cons q rest ih =>
    intro b acc hinv
    cases hg : b.get q.1 q.2 with
    | none =>
      rw [GameBoard.open_around_go_cons_none hg]
      exact ih b acc hinv
    | some t =>
      cases hv : t.visible with
      | Visible =>
        rw [GameBoard.open_around_go_cons_vis hg hv]
        exact ih b acc hinv
      | Flagged =>
        rw [GameBoard.open_around_go_cons_flag hg hv]
        exact ih b acc hinv
      | NotVisible =>
        cases hbb : t.tile.is_bomb with
        | true =>
          rw [GameBoard.open_around_go_cons_bomb hg hv hbb]
          exact hinv
        | false =>
          rw [GameBoard.open_around_go_cons_open hg hv hbb]
          exact ih _ _ (GameBoard.inv_setVis hinv hg (fun _ => hbb))

theorem GameBoard.inv_open_around {b b' : GameBoard} {x y : Nat}
    {ev : List (Nat × Nat)} (hinv : b.Inv)
    (h : b.open_around x y = (b', .ok ev)) : b'.Inv := by
  cases hg : b.get x y with
  | none =>
    rw [GameBoard.open_around_oob hg] at h
    injection h with _ h2
    exact absurd h2 (by simp)
  | some t =>
    cases hc : t.tile.as_count with
    | none =>
      rw [GameBoard.open_around_bomb_target hg hc] at h
      injection h with _ h2
      exact absurd h2 (by simp)
    | some c =>
      by_cases hcnt : (b.normalize_around_3x3 x y).countP
          (fun q => (b.getD q.1 q.2).visible = Visibility.Flagged) = c
      · rw [GameBoard.open_around_proceed hg hc hcnt] at h
        rcases hgo : b.open_around_go (b.normalize_around_3x3 x y) [] with ⟨g, r⟩
        rw [hgo] at h
        cases r with
        | error e =>
          have h' : ((g, Except.error e) :
              GameBoard × Except UnopenableError (List (Nat × Nat))) =
              (b', .ok ev) := h
          injection h' with _ h2
          exact absurd h2 (by simp)
        | ok opened =>
          have h' : (g.open_visible.1, Except.ok (opened ++ g.open_visible.2)) =
              (b', Except.ok ev) := h
          injection h' with h1 _
          rw [← h1]
          apply GameBoard.inv_flood
          have hgi := GameBoard.inv_open_around_go (b.normalize_around_3x3 x y)
            b [] hinv
          rw [hgo] at hgi
          exact hgi
      · rw [GameBoard.open_around_mismatch hg hc hcnt] at h
        injection h with _ h2
        exact absurd h2 (by simp)

theorem GameBoard.reachable_inv {b : GameBoard} (h : ReachableBoard b) :
    b.Inv := by
  induction h with
  | init x y bombs cx cy arr rng fuel b hlen hcnt hrng hres =>
    exact GameBoard.inv_init hres hlen hcnt hrng
  | open_tile b b' x y ev _ hop ih => exact GameBoard.inv_open_tile ih hop
  | open_around b b' x y ev _ hop ih => exact GameBoard.inv_open_around ih hop
  | flag_tile b b' x y ev _ hop ih => exact GameBoard.inv_flag_tile ih hop
  | undo_move b b' ev _ hop ih => exact GameBoard.inv_undo_move ih hop

theorem GameBoard.inv_elem_vis_nonbomb {b : GameBoard} (hinv : b.Inv) :
    ∀ t ∈ b.cells, t.visible = .Visible → t.tile.is_bomb = false := by
  intro t ht hv
  obtain ⟨i, hi⟩ := List.get?_of_mem ht
  have hilen : i < b.cells.length := (List.get?_eq_some.mp hi).1
  have hget := GameBoard.get?_as_get hinv.wf i hilen
  rw [hi] at hget
  exact hinv.vis_nonbomb _ _ t hget hv

/-- C7: on every reachable board the u32 quantity
area - bomb_count - opened never underflows (bomb_count + opened_count is
at most area), and tiles_left is 0 exactly when every non-mine cell is
open.  opened counts the Visible cells, modelled from the spec since
BaseGameBoard::opened has no implementation under src. -/
theorem tiles_left_invariant (b : GameBoard) (hreach : ReachableBoard b) :
    b.bombs + b.opened ≤ b.area ∧
    (b.tiles_left = 0 ↔
      ∀ t ∈ b.cells, t.tile.is_bomb = false → t.visible = .Visible) := by
  have hinv := GameBoard.reachable_inv hreach
  have harea : b.area = b.cells.length := by
    unfold GameBoard.area
    rw [hinv.wf, Nat.mul_comm]
  have hdle : b.cells.countP (fun t => t.tile.is_bomb) +
      b.cells.countP (fun t => t.visible = Visibility.Visible) ≤
      b.cells.length := by
    apply countP_disjoint_le
    intro a ha hboth
    have hv : a.visible = Visibility.Visible := of_decide_eq_true hboth.2
    have hnb := GameBoard.inv_elem_vis_nonbomb hinv a ha hv
    rw [hnb] at hboth
    exact absurd hboth.1 (by simp)
  have h1 : b.bombs + b.opened ≤ b.area := by
    rw [harea, ← hinv.bombs_eq]
    unfold GameBoard.opened
    exact hdle
  refine ⟨h1, ?_⟩
  have h2 : b.tiles_left = 0 ↔ b.area ≤ b.bombs + b.opened := by
    unfold GameBoard.tiles_left
    omega
  rw [h2]
  have hpart := length_eq_countP_add (fun t : BoardTile => t.tile.is_bomb) b.cells
  constructor
  · intro hle
    rw [harea, ← hinv.bombs_eq] at hle
    unfold GameBoard.opened at hle
    have hcnteq : b.cells.countP (fun t => !(t.tile.is_bomb)) ≤
        b.cells.countP (fun t => t.visible = Visibility.Visible) := by
      omega
    intro t ht hb
    have himp : ∀ a ∈ b.cells,
        (fun u : BoardTile => decide (u.visible = Visibility.Visible)) a = true →
        (fun u : BoardTile => !(u.tile.is_bomb)) a = true := by
      intro a ha hq
      have hv : a.visible = Visibility.Visible := of_decide_eq_true hq
      have hnb := GameBoard.inv_elem_vis_nonbomb hinv a ha hv
      simp [hnb]
    have hpt := countP_pointwise_of_eq
      (fun u : BoardTile => decide (u.visible = Visibility.Visible))
      (fun u : BoardTile => !(u.tile.is_bomb)) b.cells himp hcnteq t ht
      (by simp [hb])
    exact of_decide_eq_true hpt
  · intro hall
    have hmono : b.cells.countP (fun t => !(t.tile.is_bomb)) ≤
        b.cells.countP (fun t => t.visible = Visibility.Visible) := by
      apply List.countP_mono_left
      intro a ha hq
      have hnb : a.tile.is_bomb = false := by
        cases hx : a.tile.is_bomb
        · rfl
        · rw [hx] at hq; exact absurd hq (by simp)
      exact decide_eq_true (hall a ha hnb)
    rw [harea, ← hinv.bombs_eq]
    unfold GameBoard.opened
    omega

theorem tiles_left_invariant_witness :
    cleared5x5.bombs + cleared5x5.opened ≤ cleared5x5.area ∧
    (cleared5x5.tiles_left = 0 ↔
      ∀ t ∈ cleared5x5.cells, t.tile.is_bomb = false →
        t.visible = Visibility.Visible) :=
  tiles_left_invariant cleared5x5
    (ReachableBoard.init 5 5 1 2 2 (true :: List.replicate 24 false) (fun _ => 0)
      1 cleared5x5 (by decide) (by decide)
      (fun _ => Nat.succ_le_succ (Nat.zero_le 24)) (by decide))

end AiSweeper
